import Mathlib

/-!
Shallow embedding of the block-metadata / suballocation engine of
`vk_mem_alloc.cpp` (the device-memory suballocator vendored in this
repository), together with proofs about it.

Conventions of the embedding:
* `VkDeviceSize` (uint64) values are modelled as `Nat`; the frame-index
  arithmetic of `VmaAllocation_T::MakeLost` / `TouchAllocation`, where
  uint32 wraparound is actually reachable (the lost sentinel is
  `UINT32_MAX`), carries an explicit `% 2^32`.
* The intrusive suballocation list is a `List`; list nodes carry a `nid`
  field standing for the node's address, so that the by-size index (which
  in C++ stores iterators) can store node identities.
* C++ code that dereferences an invalid iterator / null pointer is
  modelled by an `Option` failure or by leaving the state unchanged.
-/

/-- `VMA_FRAME_INDEX_LOST = UINT32_MAX`: sentinel marking a lost allocation. -/
def VMA_FRAME_INDEX_LOST : Nat := 4294967295

/-- `2^32`, the modulus of uint32 arithmetic on frame indices. -/
def UINT32_MOD : Nat := 4294967296

/-- `2^64`, the modulus of uint64 (`VkDeviceSize`) arithmetic. -/
def UINT64_MOD : Nat := 18446744073709551616

/-- `VK_WHOLE_SIZE = UINT64_MAX`, used as a "not found" marker in the
eviction search of `CreateAllocationRequest`. -/
def VK_WHOLE_SIZE : Nat := 18446744073709551615

/-- Minimum size of a free suballocation to register it in
`m_FreeSuballocationsBySize`. -/
def VMA_MIN_FREE_SUBALLOCATION_SIZE_TO_REGISTER : Nat := 16

/-- Cost of one additional allocation lost, as equivalent in bytes
(`VMA_LOST_ALLOCATION_COST`). -/
def VMA_LOST_ALLOCATION_COST : Nat := 1048576

/-- `VMA_DEBUG_MARGIN` (default build configuration). -/
def VMA_DEBUG_MARGIN : Nat := 0

/-- `VMA_DEBUG_ALIGNMENT` (default build configuration). -/
def VMA_DEBUG_ALIGNMENT : Nat := 1

/-- Bounded number of rounds of the eviction-enabled allocation loop
(`VMA_ALLOCATION_TRY_COUNT`). -/
def VMA_ALLOCATION_TRY_COUNT : Nat := 32

/-- `VmaAlignUp(val, align) = (val + align - 1) / align * align`. -/
def VmaAlignUp (val align : Nat) : Nat := (val + align - 1) / align * align

/-- `VmaBlocksOnSamePage`: true if resource A (ending at `aOff+aSize-1`) and
resource B (starting at `bOff`) occupy overlapping pages of size `pageSize`.
`x & ~(pageSize-1)` on uint64 is `Nat.land x (2^64 - pageSize)`. -/
def VmaBlocksOnSamePage (aOff aSize bOff pageSize : Nat) : Bool :=
  Nat.land (aOff + aSize - 1) (UINT64_MOD - pageSize) ==
    Nat.land bOff (UINT64_MOD - pageSize)

/-- `VmaSuballocationType`. -/
inductive VmaSuballocationType where
  | free
  | unknown
  | buffer
  | imageUnknown
  | imageLinear
  | imageOptimal
deriving DecidableEq

/-- Numeric value of the `VmaSuballocationType` enum (used by the
`suballocType1 > suballocType2` swap in the granularity-conflict check). -/
def VmaSuballocationType.val : VmaSuballocationType → Nat
  | .free => 0
  | .unknown => 1
  | .buffer => 2
  | .imageUnknown => 3
  | .imageLinear => 4
  | .imageOptimal => 5

/-- `VmaIsBufferImageGranularityConflict`. -/
def VmaIsBufferImageGranularityConflict (a b : VmaSuballocationType) : Bool :=
  let p := if b.val < a.val then (b, a) else (a, b)
  match p.1 with
  | .free => false
  | .unknown => true
  | .buffer => p.2 == .imageUnknown || p.2 == .imageOptimal
  | .imageUnknown => p.2 == .imageUnknown || p.2 == .imageLinear || p.2 == .imageOptimal
  | .imageLinear => p.2 == .imageOptimal
  | .imageOptimal => false

/-- The parts of a `VmaAllocation_T` (block-allocation case) that the block
metadata reads back through the `hAllocation` pointer: identity of the handle
object (`aid`, standing for its address), recorded offset/size, the
can-become-lost flag and the atomic last-use frame index. -/
structure VmaAllocHandle where
  aid : Nat
  offset : Nat
  size : Nat
  canBecomeLost : Bool
  lastUseFrameIndex : Nat
deriving DecidableEq

/-- `VmaSuballocation`: one entry of a block's suballocation list.  `nid` is
the identity of the list node (its address in C++); the by-size index stores
these identities. -/
structure VmaSuballocation where
  nid : Nat
  offset : Nat
  size : Nat
  hAllocation : Option VmaAllocHandle
  stype : VmaSuballocationType
deriving DecidableEq

/-- `VmaBlockMetadata`: bookkeeping of one `VkDeviceMemory` block.
`nextId` is the supply of fresh node identities. -/
structure VmaBlockMetadata where
  m_Size : Nat
  m_FreeCount : Nat
  m_SumFreeSize : Nat
  m_Suballocations : List VmaSuballocation
  m_FreeSuballocationsBySize : List Nat
  nextId : Nat
deriving DecidableEq

/-- Set the element at position `p` (identity if out of range). -/
def listSetAt (p : Nat) (a : α) (l : List α) : List α :=
  l.take p ++ a :: l.drop (p + 1)

/-- Erase the element at position `p` (identity if out of range). -/
def listEraseAt (p : Nat) (l : List α) : List α :=
  l.take p ++ l.drop (p + 1)

/-- Insert `a` so that it ends up at position `p`. -/
def listInsertAt (p : Nat) (a : α) (l : List α) : List α :=
  l.take p ++ a :: l.drop p

/-- Remove the first occurrence of `i` (identity if absent): the forward
scan of `UnregisterFreeSuballocation`. -/
def removeFirst (i : Nat) : List Nat → List Nat
  | [] => []
  | j :: t => if j = i then t else j :: removeFirst i t

/-- Dereference a node identity in a suballocation list. -/
def findByNid (subs : List VmaSuballocation) (i : Nat) : Option VmaSuballocation :=
  subs.find? (fun n => n.nid == i)

/-- The size seen through a node identity (0 if dangling; dangling
identities never arise in valid states). -/
def idSize (subs : List VmaSuballocation) (i : Nat) : Nat :=
  ((findByNid subs i).map (fun n => n.size)).getD 0

/-- The binary-search loop of `VmaBinaryFindFirstNotLess`, specialized to a
boolean comparison `lt x = (x < key)` over a vector of node identities. -/
def VmaBinaryFindLoop (lt : Nat → Bool) (arr : List Nat) (down up : Nat) : Nat :=
  if h : down < up then
    let mid := (down + up) / 2
    if lt (arr.getD mid 0) then VmaBinaryFindLoop lt arr (mid + 1) up
    else VmaBinaryFindLoop lt arr down mid
  else down
termination_by up - down
decreasing_by
  all_goals omega

/-- `VmaBinaryFindFirstNotLess(beg, end, key, cmp)` as an index into `arr`. -/
def VmaBinaryFindFirstNotLess (lt : Nat → Bool) (arr : List Nat) : Nat :=
  VmaBinaryFindLoop lt arr 0 arr.length

/-- `VmaBlockMetadata::RegisterFreeSuballocation(item)`: if the node's size
reaches the threshold, insert its identity into the by-size index at the
position found by binary search (`VmaVectorInsertSorted`). -/
def RegisterFreeSuballocation (subs : List VmaSuballocation) (index : List Nat)
    (i : Nat) : List Nat :=
  if VMA_MIN_FREE_SUBALLOCATION_SIZE_TO_REGISTER ≤ idSize subs i then
    if index.isEmpty then [i]
    else
      let pos := VmaBinaryFindFirstNotLess
        (fun j => decide (idSize subs j < idSize subs i)) index
      listInsertAt pos i index
  else index

/-- `VmaBlockMetadata::UnregisterFreeSuballocation(item)`: if the node's size
reaches the threshold, binary-search the first index entry whose size is not
less than the node's, then scan forward removing the entry whose identity
matches (release semantics: no change when the identity is never found). -/
def UnregisterFreeSuballocation (subs : List VmaSuballocation) (index : List Nat)
    (i : Nat) : List Nat :=
  if VMA_MIN_FREE_SUBALLOCATION_SIZE_TO_REGISTER ≤ idSize subs i then
    let pos := VmaBinaryFindFirstNotLess
      (fun j => decide (idSize subs j < idSize subs i)) index
    index.take pos ++ removeFirst i (index.drop pos)
  else index

/-- `VmaAllocation_T::MakeLost(currentFrameIndex, frameInUseCount)`:
single-threaded collapse of the compare-and-swap loop.  Succeeds (setting the
last-use index to the lost sentinel) exactly when the allocation is not
already lost and `lastUse + frameInUseCount < currentFrameIndex` in uint32
arithmetic.  Returns `(succeeded, new last-use index)`. -/
def VmaAllocationMakeLost (lastUse currentFrameIndex frameInUseCount : Nat) :
    Bool × Nat :=
  if lastUse = VMA_FRAME_INDEX_LOST then (false, lastUse)
  else if currentFrameIndex ≤ (lastUse + frameInUseCount) % UINT32_MOD then
    (false, lastUse)
  else (true, VMA_FRAME_INDEX_LOST)

/-- `VmaAllocator_T::TouchAllocation`: single-threaded collapse of the CAS
loop.  Returns `(still valid, new last-use index)`. -/
def VmaTouchAllocation (canBecomeLost : Bool) (lastUse currentFrameIndex : Nat) :
    Bool × Nat :=
  if canBecomeLost then
    if lastUse = VMA_FRAME_INDEX_LOST then (false, lastUse)
    else if lastUse = currentFrameIndex then (true, lastUse)
    else (true, currentFrameIndex)
  else (true, lastUse)

/-- Boolean test used by `MakeLost` and `CheckAllocation`:
`GetLastUseFrameIndex() + frameInUseCount < currentFrameIndex` (uint32). -/
def frameOlderThanWindow (lastUse currentFrameIndex frameInUseCount : Nat) : Bool :=
  decide ((lastUse + frameInUseCount) % UINT32_MOD < currentFrameIndex)

namespace VmaBlockMetadata

/-- `VmaBlockMetadata::Init(size)`: one FREE suballocation spanning the block,
pushed (unconditionally) into `m_FreeSuballocationsBySize`. -/
def Init (size : Nat) : VmaBlockMetadata :=
  { m_Size := size
    m_FreeCount := 1
    m_SumFreeSize := size
    m_Suballocations := [⟨0, 0, size, none, .free⟩]
    m_FreeSuballocationsBySize := [0]
    nextId := 1 }

/-- `IsEmpty()`: a single free suballocation. -/
def IsEmpty (m : VmaBlockMetadata) : Bool :=
  m.m_Suballocations.length == 1 && m.m_FreeCount == 1

/-- `GetAllocationCount()`. -/
def GetAllocationCount (m : VmaBlockMetadata) : Nat :=
  m.m_Suballocations.length - m.m_FreeCount

/-- The traversal loop of `Validate()`: checks contiguous offsets, no two
adjacent FREE entries, `free ↔ null handle`, and per-used-entry handle
offset/size agreement, while accumulating the traversal totals
`(calculatedOffset, calculatedFreeCount, calculatedSumFreeSize,
freeSuballocationsToRegister)`. -/
def validateTraverse :
    List VmaSuballocation → Nat → Nat → Nat → Nat → Bool →
    Option (Nat × Nat × Nat × Nat)
  | [], off, fc, sf, reg, _ => some (off, fc, sf, reg)
  | s :: rest, off, fc, sf, reg, prevFree =>
    if s.offset ≠ off then none
    else
      let currFree := s.stype = .free
      if prevFree ∧ currFree then none
      else if currFree ≠ (s.hAllocation = none) then none
      else if currFree then
        validateTraverse rest (off + s.size) (fc + 1) (sf + s.size)
          (if VMA_MIN_FREE_SUBALLOCATION_SIZE_TO_REGISTER ≤ s.size then reg + 1 else reg)
          true
      else
        match s.hAllocation with
        | some hn =>
          if hn.offset = s.offset ∧ hn.size = s.size then
            validateTraverse rest (off + s.size) fc sf reg false
          else none
        | none => none

/-- The middle loop of `Validate()`: every index entry dereferences to a FREE
suballocation and sizes are ascending. -/
def validateIndexLoop (subs : List VmaSuballocation) :
    List Nat → Nat → Bool
  | [], _ => true
  | i :: rest, lastSize =>
    match findByNid subs i with
    | none => false
    | some n =>
      if n.stype ≠ .free then false
      else if n.size < lastSize then false
      else validateIndexLoop subs rest n.size

/-- `ValidateFreeSuballocationList()`: every index entry is FREE, at least
the registration threshold, and sizes are ascending. -/
def ValidateFreeSuballocationList (m : VmaBlockMetadata) : Bool :=
  go m.m_Suballocations m.m_FreeSuballocationsBySize 0
where
  go (subs : List VmaSuballocation) : List Nat → Nat → Bool
    | [], _ => true
    | i :: rest, lastSize =>
      match findByNid subs i with
      | none => false
      | some n =>
        if n.stype ≠ .free then false
        else if n.size < VMA_MIN_FREE_SUBALLOCATION_SIZE_TO_REGISTER then false
        else if n.size < lastSize then false
        else go subs rest n.size

/-- `VmaBlockMetadata::Validate()`. -/
def Validate (m : VmaBlockMetadata) : Bool :=
  if m.m_Suballocations.isEmpty then false
  else
    match validateTraverse m.m_Suballocations 0 0 0 0 false with
    | none => false
    | some (calculatedOffset, calculatedFreeCount, calculatedSumFreeSize,
            freeSuballocationsToRegister) =>
      if m.m_FreeSuballocationsBySize.length ≠ freeSuballocationsToRegister then false
      else if ¬ validateIndexLoop m.m_Suballocations m.m_FreeSuballocationsBySize 0 then false
      else if ¬ m.ValidateFreeSuballocationList then false
      else if calculatedOffset ≠ m.m_Size then false
      else if calculatedSumFreeSize ≠ m.m_SumFreeSize then false
      else if calculatedFreeCount ≠ m.m_FreeCount then false
      else true

end VmaBlockMetadata

/-- `VmaAllocationRequest`.  `itemPos` is the `item` iterator, as a position
into `m_Suballocations`. -/
structure VmaAllocationRequest where
  offset : Nat
  sumFreeSize : Nat
  sumItemSize : Nat
  itemPos : Nat
  itemsToMakeLostCount : Nat
deriving DecidableEq

/-- `VmaAllocationRequest::CalcCost()`. -/
def VmaAllocationRequest.CalcCost (r : VmaAllocationRequest) : Nat :=
  r.sumItemSize + r.itemsToMakeLostCount * VMA_LOST_ALLOCATION_COST

/-- The backward walk over the suballocations preceding the candidate
("check previous suballocations for BufferImageGranularity conflicts"):
called on `(subs.take p).reverse`, so the closest predecessor comes first.
This code is byte-identical in the two branches of `CheckAllocation`. -/
def prevGranConflict (off gran : Nat) (t : VmaSuballocationType) :
    List VmaSuballocation → Bool
  | [] => false
  | prev :: rest =>
    if VmaBlocksOnSamePage prev.offset prev.size off gran then
      if VmaIsBufferImageGranularityConflict prev.stype t then true
      else prevGranConflict off gran t rest
    else false

/-- The candidate-offset computation shared by both branches of
`CheckAllocation`: debug margin, then alignment, then the extra
buffer-image-granularity alignment if a preceding suballocation on the same
page conflicts. -/
def computeCandidateOffset (m : VmaBlockMetadata) (p : Nat)
    (nodeOffset gran aal : Nat) (t : VmaSuballocationType) : Nat :=
  let off1 := if 0 < VMA_DEBUG_MARGIN ∧ p ≠ 0 then nodeOffset + VMA_DEBUG_MARGIN
              else nodeOffset
  let off2 := VmaAlignUp off1 (max aal VMA_DEBUG_ALIGNMENT)
  if 1 < gran ∧ prevGranConflict off2 gran t ((m.m_Suballocations.take p).reverse)
  then VmaAlignUp off2 gran else off2

/-- The forward walk over the suballocations following the candidate in the
non-eviction branch: a granularity conflict on the same page fails the
candidate. -/
def nextGranConflictFree (off asz gran : Nat) (t : VmaSuballocationType) :
    List VmaSuballocation → Bool
  | [] => false
  | nx :: rest =>
    if VmaBlocksOnSamePage off asz nx.offset gran then
      if VmaIsBufferImageGranularityConflict t nx.stype then true
      else nextGranConflictFree off asz gran t rest
    else false

/-- The forward walk over the suballocations following the candidate in the
eviction branch: a granularity conflict on the same page must itself be made
lost (counted) or the candidate fails. -/
def nextGranConflictLost (cf fiu off asz gran : Nat) (t : VmaSuballocationType) :
    List VmaSuballocation → Option Nat
  | [] => some 0
  | nx :: rest =>
    if VmaBlocksOnSamePage off asz nx.offset gran then
      if VmaIsBufferImageGranularityConflict t nx.stype then
        match nx.hAllocation with
        | some h =>
          if h.canBecomeLost && frameOlderThanWindow h.lastUseFrameIndex cf fiu then
            (nextGranConflictLost cf fiu off asz gran t rest).map (fun k => k + 1)
          else none
        | none => none
      else nextGranConflictLost cf fiu off asz gran t rest
    else some 0

/-- The "advance lastSuballocItem until desired size is reached" loop of the
eviction branch of `CheckAllocation`, over the suffix following the candidate.
Accumulates `(sumFreeSize, sumItemSize, itemsToMakeLostCount)` and returns the
number of consumed suballocations. -/
def advanceLoop (cf fiu : Nat) :
    List VmaSuballocation → Nat → Nat × Nat × Nat → Option ((Nat × Nat × Nat) × Nat)
  | _, 0, acc => some (acc, 0)
  | [], _ + 1, _ => none
  | x :: rest, r + 1, (sf, si, c) =>
    let step? : Option (Nat × Nat × Nat) :=
      if x.stype = .free then some (sf + x.size, si, c)
      else
        match x.hAllocation with
        | some h =>
          if h.canBecomeLost && frameOlderThanWindow h.lastUseFrameIndex cf fiu then
            some (sf, si + x.size, c + 1)
          else none
        | none => none
    match step? with
    | none => none
    | some acc' =>
      let newRemaining := if x.size < r + 1 then r + 1 - x.size else 0
      match advanceLoop cf fiu rest newRemaining acc' with
      | none => none
      | some (a, k) => some (a, k + 1)

namespace VmaBlockMetadata

/-- The non-eviction (`canMakeOtherLost == false`) branch of
`VmaBlockMetadata::CheckAllocation`, for the candidate starting at
position `p`. -/
def CheckAllocationFree (m : VmaBlockMetadata) (gran asz aal : Nat)
    (t : VmaSuballocationType) (p : Nat) : Option VmaAllocationRequest :=
  match m.m_Suballocations[p]? with
  | none => none
  | some nd =>
    if nd.size < asz then none
    else
      let off := computeCandidateOffset m p nd.offset gran aal t
      let paddingBegin := off - nd.offset
      let requiredEndMargin :=
        if p + 1 < m.m_Suballocations.length then VMA_DEBUG_MARGIN else 0
      if nd.size < paddingBegin + asz + requiredEndMargin then none
      else if 1 < gran ∧
          nextGranConflictFree off asz gran t (m.m_Suballocations.drop (p + 1)) then
        none
      else some ⟨off, nd.size, 0, p, 0⟩

/-- The eviction (`canMakeOtherLost == true`) branch of
`VmaBlockMetadata::CheckAllocation`, for the candidate starting at
position `p`. -/
def CheckAllocationLost (m : VmaBlockMetadata) (cf fiu gran asz aal : Nat)
    (t : VmaSuballocationType) (p : Nat) : Option VmaAllocationRequest :=
  match m.m_Suballocations[p]? with
  | none => none
  | some nd =>
    let start? : Option (Nat × Nat × Nat) :=
      if nd.stype = .free then some (nd.size, 0, 0)
      else
        match nd.hAllocation with
        | some h =>
          if h.canBecomeLost && frameOlderThanWindow h.lastUseFrameIndex cf fiu then
            some (0, nd.size, 1)
          else none
        | none => none
    match start? with
    | none => none
    | some acc0 =>
      if m.m_Size - nd.offset < asz then none
      else
        let off := computeCandidateOffset m p nd.offset gran aal t
        if nd.offset + nd.size ≤ off then none
        else
          let paddingBegin := off - nd.offset
          let requiredEndMargin :=
            if p + 1 < m.m_Suballocations.length then VMA_DEBUG_MARGIN else 0
          let totalSize := paddingBegin + asz + requiredEndMargin
          if m.m_Size < nd.offset + totalSize then none
          else
            let remaining := if nd.size < totalSize then totalSize - nd.size else 0
            match advanceLoop cf fiu (m.m_Suballocations.drop (p + 1)) remaining acc0 with
            | none => none
            | some ((sf, si, c), consumed) =>
              if 1 < gran then
                match nextGranConflictLost cf fiu off asz gran t
                    (m.m_Suballocations.drop (p + 1 + consumed)) with
                | none => none
                | some extra => some ⟨off, sf, si, p, c + extra⟩
              else some ⟨off, sf, si, p, c⟩

/-- The best-fit scan of `CreateAllocationRequest` over a suffix of the
size-ascending free index: the first entry whose candidate passes
`CheckAllocation` wins. -/
def tryIndexEntries (m : VmaBlockMetadata) (gran asz aal : Nat)
    (t : VmaSuballocationType) : List Nat → Option VmaAllocationRequest
  | [] => none
  | i :: rest =>
    match m.m_Suballocations.findIdx? (fun n => n.nid == i) with
    | none => tryIndexEntries m gran asz aal t rest
    | some p =>
      match m.CheckAllocationFree gran asz aal t p with
      | some r => some r
      | none => tryIndexEntries m gran asz aal t rest

/-- One candidate of the brute-force eviction scan: positions whose
suballocation is FREE or belongs to an allocation that can become lost are
checked with the eviction branch of `CheckAllocation`. -/
def candidateAt (m : VmaBlockMetadata) (cf fiu gran asz aal : Nat)
    (t : VmaSuballocationType) (p : Nat) : Option VmaAllocationRequest :=
  match m.m_Suballocations[p]? with
  | none => none
  | some nd =>
    if (nd.stype == .free ||
        (match nd.hAllocation with | some h => h.canBecomeLost | none => false)) then
      m.CheckAllocationLost cf fiu gran asz aal t p
    else none

/-- The brute-force loop of `CreateAllocationRequest` with
`canMakeOtherLost == true`: fold over all start positions keeping the
strictly-lowest-cost candidate. -/
def bruteForceLoop (m : VmaBlockMetadata) (cf fiu gran asz aal : Nat)
    (t : VmaSuballocationType) :
    List Nat → VmaAllocationRequest → VmaAllocationRequest
  | [], best => best
  | p :: rest, best =>
    match m.candidateAt cf fiu gran asz aal t p with
    | some c =>
      if c.CalcCost < best.CalcCost then bruteForceLoop m cf fiu gran asz aal t rest c
      else bruteForceLoop m cf fiu gran asz aal t rest best
    | none => bruteForceLoop m cf fiu gran asz aal t rest best

/-- The zero-initialized request the caller hands to
`CreateAllocationRequest`, with the `VK_WHOLE_SIZE` markers written by the
eviction path before its scan. -/
def initialBestRequest : VmaAllocationRequest :=
  ⟨0, VK_WHOLE_SIZE, VK_WHOLE_SIZE, 0, 0⟩

/-- `VmaBlockMetadata::CreateAllocationRequest` (with `VMA_BEST_FIT`, the
configured build): early-out when the total free size cannot fit; then the
binary-search seeded best-fit scan of the size index; then, only with
`canMakeOtherLost`, the brute-force lowest-cost eviction scan. -/
def CreateAllocationRequest (m : VmaBlockMetadata) (cf fiu gran asz aal : Nat)
    (t : VmaSuballocationType) (canMakeOtherLost : Bool) :
    Option VmaAllocationRequest :=
  if ¬ canMakeOtherLost ∧ m.m_SumFreeSize < asz then none
  else
    let fromIndex :=
      if 0 < m.m_FreeSuballocationsBySize.length then
        let seed := VmaBinaryFindFirstNotLess
          (fun j => decide (idSize m.m_Suballocations j < asz))
          m.m_FreeSuballocationsBySize
        m.tryIndexEntries gran asz aal t (m.m_FreeSuballocationsBySize.drop seed)
      else none
    match fromIndex with
    | some r => some r
    | none =>
      if canMakeOtherLost then
        let best := m.bruteForceLoop cf fiu gran asz aal t
          (List.range m.m_Suballocations.length) initialBestRequest
        if best.sumItemSize ≠ VK_WHOLE_SIZE then some best else none
      else none

/-- `VmaBlockMetadata::CreateFirstAllocationRequest` (block known empty). -/
def CreateFirstAllocationRequest (m : VmaBlockMetadata) : VmaAllocationRequest :=
  ⟨0, m.m_SumFreeSize, 0, 0, 0⟩

/-- `VmaBlockMetadata::Alloc(request, type, allocSize, hAllocation)`:
unregister the winning free entry, shrink it in place to the requested
offset/size, and synthesize (and register) FREE entries for the end and
begin paddings.  Identity when the request's item is out of range (a C++
precondition violation). -/
def Alloc (m : VmaBlockMetadata) (r : VmaAllocationRequest)
    (t : VmaSuballocationType) (asz : Nat) (hdl : VmaAllocHandle) :
    VmaBlockMetadata :=
  match m.m_Suballocations[r.itemPos]? with
  | none => m
  | some cur =>
    let paddingBegin := r.offset - cur.offset
    let paddingEnd := cur.size - paddingBegin - asz
    let index1 := UnregisterFreeSuballocation m.m_Suballocations
      m.m_FreeSuballocationsBySize cur.nid
    let cur' := { cur with offset := r.offset, size := asz, stype := t,
                           hAllocation := some hdl }
    let subs1 := listSetAt r.itemPos cur' m.m_Suballocations
    let afterEnd : List VmaSuballocation × List Nat × Nat :=
      if 0 < paddingEnd then
        let pe : VmaSuballocation :=
          ⟨m.nextId, r.offset + asz, paddingEnd, none, .free⟩
        let subs2 := listInsertAt (r.itemPos + 1) pe subs1
        (subs2, RegisterFreeSuballocation subs2 index1 pe.nid, m.nextId + 1)
      else (subs1, index1, m.nextId)
    let subs2 := afterEnd.1
    let index2 := afterEnd.2.1
    let nid2 := afterEnd.2.2
    let afterBegin : List VmaSuballocation × List Nat × Nat :=
      if 0 < paddingBegin then
        let pb : VmaSuballocation :=
          ⟨nid2, r.offset - paddingBegin, paddingBegin, none, .free⟩
        let subs3 := listInsertAt r.itemPos pb subs2
        (subs3, RegisterFreeSuballocation subs3 index2 pb.nid, nid2 + 1)
      else (subs2, index2, nid2)
    { m_Size := m.m_Size
      m_FreeCount := m.m_FreeCount - 1 + (if 0 < paddingBegin then 1 else 0) +
        (if 0 < paddingEnd then 1 else 0)
      m_SumFreeSize := m.m_SumFreeSize - asz
      m_Suballocations := afterBegin.1
      m_FreeSuballocationsBySize := afterBegin.2.1
      nextId := afterBegin.2.2 }

/-- `VmaBlockMetadata::FreeSuballocation(suballocItem)` at position `p`:
flip the entry to FREE, update totals, merge with a FREE successor and/or
predecessor (unregistering stale index entries first, then registering the
merged result).  Returns the new metadata and the position of the resulting
free entry, mirroring the returned iterator. -/
def FreeSuballocationAt (m : VmaBlockMetadata) (p : Nat) :
    VmaBlockMetadata × Nat :=
  match m.m_Suballocations[p]? with
  | none => (m, p)
  | some cur =>
    let subs1 := listSetAt p { cur with stype := .free, hAllocation := none }
      m.m_Suballocations
    let fc1 := m.m_FreeCount + 1
    let sf1 := m.m_SumFreeSize + cur.size
    let mergeWithNext : Bool :=
      match subs1[p + 1]? with
      | some nx => nx.stype == .free
      | none => false
    let mergeWithPrev : Bool :=
      decide (0 < p) &&
        (match subs1[p - 1]? with
         | some pv => pv.stype == .free
         | none => false)
    let st1 : List VmaSuballocation × List Nat × Nat :=
      match mergeWithNext with
      | true =>
        match subs1[p + 1]?, subs1[p]? with
        | some nx, some c1 =>
          (listEraseAt (p + 1) (listSetAt p { c1 with size := c1.size + nx.size } subs1),
           UnregisterFreeSuballocation subs1 m.m_FreeSuballocationsBySize nx.nid,
           fc1 - 1)
        | _, _ => (subs1, m.m_FreeSuballocationsBySize, fc1)
      | false => (subs1, m.m_FreeSuballocationsBySize, fc1)
    let subs2 := st1.1
    let index2 := st1.2.1
    let fc2 := st1.2.2
    let st2 : List VmaSuballocation × List Nat × Nat × Nat :=
      match mergeWithPrev with
      | true =>
        match subs2[p - 1]?, subs2[p]? with
        | some pv, some c2 =>
          let index3 := UnregisterFreeSuballocation subs2 index2 pv.nid
          let subs3 := listEraseAt p (listSetAt (p - 1)
            { pv with size := pv.size + c2.size } subs2)
          (subs3, RegisterFreeSuballocation subs3 index3 pv.nid, fc2 - 1, p - 1)
        | _, _ => (subs2, index2, fc2, p)
      | false =>
        match subs2[p]? with
        | some c2 => (subs2, RegisterFreeSuballocation subs2 index2 c2.nid, fc2, p)
        | none => (subs2, index2, fc2, p)
    ({ m_Size := m.m_Size
       m_FreeCount := st2.2.2.1
       m_SumFreeSize := sf1
       m_Suballocations := st2.1
       m_FreeSuballocationsBySize := st2.2.1
       nextId := m.nextId }, st2.2.2.2)

/-- `VmaBlockMetadata::Free(allocation)`: locate the suballocation owned by
the handle (compared by identity) and free it.  Identity when absent (the
C++ asserts "Not found!"). -/
def FreeAlloc (m : VmaBlockMetadata) (aid : Nat) : VmaBlockMetadata :=
  match m.m_Suballocations.findIdx? (fun n =>
      match n.hAllocation with
      | some h => h.aid == aid
      | none => false) with
  | some p => (m.FreeSuballocationAt p).1
  | none => m

/-- `VmaBlockMetadata::FreeAtOffset(offset)`: free the first suballocation
with the given offset.  Identity when absent. -/
def FreeAtOffset (m : VmaBlockMetadata) (off : Nat) : VmaBlockMetadata :=
  match m.m_Suballocations.findIdx? (fun n => n.offset == off) with
  | some p => (m.FreeSuballocationAt p).1
  | none => m

/-- The sweep loop of `MakeAllocationsLost`, driven by the node identities of
the original list (merged-away successors simply fail the lookup, exactly as
the C++ iterator steps past them). -/
def makeAllocationsLostLoop (cf fiu : Nat) :
    List Nat → VmaBlockMetadata → Nat → VmaBlockMetadata × Nat
  | [], m, cnt => (m, cnt)
  | i :: rest, m, cnt =>
    match m.m_Suballocations.findIdx? (fun n => n.nid == i) with
    | none => makeAllocationsLostLoop cf fiu rest m cnt
    | some p =>
      match m.m_Suballocations[p]? with
      | none => makeAllocationsLostLoop cf fiu rest m cnt
      | some nd =>
        if (!(nd.stype == .free) &&
            (match nd.hAllocation with
             | some h => h.canBecomeLost &&
                 (VmaAllocationMakeLost h.lastUseFrameIndex cf fiu).1
             | none => false)) then
          makeAllocationsLostLoop cf fiu rest (m.FreeSuballocationAt p).1 (cnt + 1)
        else makeAllocationsLostLoop cf fiu rest m cnt

/-- `VmaBlockMetadata::MakeAllocationsLost(currentFrameIndex,
frameInUseCount)`: flip every sufficiently old can-become-lost allocation to
FREE; returns the new metadata and the count. -/
def MakeAllocationsLost (m : VmaBlockMetadata) (cf fiu : Nat) :
    VmaBlockMetadata × Nat :=
  makeAllocationsLostLoop cf fiu (m.m_Suballocations.map (fun n => n.nid)) m 0

/-- The loop of `MakeRequestedAllocationsLost`: make the next
`itemsToMakeLostCount` non-free items starting at `pos` lost (skipping one
free item per iteration), freeing each.  On failure the partial mutations
persist, as in C++ (`Bool` is the C++ return value). -/
def makeRequestedLostLoop (cf fiu : Nat) :
    Nat → VmaBlockMetadata → Nat → Bool × VmaBlockMetadata × Nat
  | 0, m, pos => (true, m, pos)
  | c + 1, m, pos =>
    let pos1 :=
      match m.m_Suballocations[pos]? with
      | some nd => if nd.stype = .free then pos + 1 else pos
      | none => pos
    match m.m_Suballocations[pos1]? with
    | none => (false, m, pos1)
    | some nd =>
      match nd.hAllocation with
      | none => (false, m, pos1)
      | some h =>
        if h.canBecomeLost && (VmaAllocationMakeLost h.lastUseFrameIndex cf fiu).1 then
          let fr := m.FreeSuballocationAt pos1
          makeRequestedLostLoop cf fiu c fr.1 fr.2
        else (false, m, pos1)

/-- `VmaBlockMetadata::MakeRequestedAllocationsLost`.  On success the
request's item points at the final free entry and no items remain to lose. -/
def MakeRequestedAllocationsLost (m : VmaBlockMetadata) (cf fiu : Nat)
    (r : VmaAllocationRequest) :
    Bool × VmaBlockMetadata × VmaAllocationRequest :=
  let res := makeRequestedLostLoop cf fiu r.itemsToMakeLostCount m r.itemPos
  (res.1, res.2.1,
    { r with itemPos := res.2.2, itemsToMakeLostCount := 0 })

end VmaBlockMetadata

/-- The `VkResult` values the modelled entry points return. -/
inductive VkResult where
  | VK_SUCCESS
  | VK_INCOMPLETE
  | VK_ERROR_OUT_OF_DEVICE_MEMORY
  | VK_ERROR_TOO_MANY_OBJECTS
deriving DecidableEq

/-- `VmaAllocationCreateInfo::flags`, restricted to the flags the modelled
code paths read. -/
structure VmaAllocationCreateFlags where
  neverAllocate : Bool
  canBecomeLost : Bool
  canMakeOtherLost : Bool
deriving DecidableEq

/-- `VmaBlockVector`: the ordered collection of blocks of one
memory-type/pool.  Device blocks are represented by their metadata; `nextAid`
is the supply of fresh allocation-handle identities (`vma_new` addresses). -/
structure VmaBlockVector where
  blocks : List VmaBlockMetadata
  m_HasEmptyBlock : Bool
  m_IsCustomPool : Bool
  m_PreferredBlockSize : Nat
  m_MinBlockCount : Nat
  m_MaxBlockCount : Nat
  m_FrameInUseCount : Nat
  m_BufferImageGranularity : Nat
  nextAid : Nat
deriving DecidableEq

/-- The loop of `VmaBlockVector::CalcMaxBlockSize`, over the block sizes from
the last block backwards, stopping once the running maximum reaches the
preferred block size. -/
def calcMaxBlockSizeLoop (preferred : Nat) : List Nat → Nat → Nat
  | [], r => r
  | s :: rest, r =>
    let r1 := max r s
    if preferred ≤ r1 then r1 else calcMaxBlockSizeLoop preferred rest r1

/-- `VmaBlockVector::CalcMaxBlockSize()`. -/
def VmaBlockVector.CalcMaxBlockSize (bv : VmaBlockVector) : Nat :=
  calcMaxBlockSizeLoop bv.m_PreferredBlockSize
    (bv.blocks.reverse.map (fun b => b.m_Size)) 0

/-- The pre-creation halving loop of `VmaBlockVector::Allocate` (up to
`NEW_BLOCK_SIZE_SHIFT_MAX = 3` iterations): halve while the halved size still
exceeds every existing block and is at least twice the request.  Returns
`(newBlockSize, newBlockSizeShift)`. -/
def preHalveLoop (maxExisting reqSize : Nat) :
    Nat → Nat → Nat → Nat × Nat
  | 0, newBlockSize, shift => (newBlockSize, shift)
  | i + 1, newBlockSize, shift =>
    let smaller := newBlockSize / 2
    if maxExisting < smaller ∧ reqSize * 2 ≤ smaller then
      preHalveLoop maxExisting reqSize i smaller (shift + 1)
    else (newBlockSize, shift)

/-- The sizes attempted by the post-failure retry loop of
`VmaBlockVector::Allocate`: keep halving while the shift budget (3, shared
with the pre-creation loop) is not exhausted and the halved size still fits
the request. -/
def retryAttempts (reqSize : Nat) (s : Nat) (shift : Nat) : List Nat :=
  if h : shift < 3 then
    let smaller := s / 2
    if reqSize ≤ smaller then smaller :: retryAttempts reqSize smaller (shift + 1)
    else []
  else []
termination_by 3 - shift
decreasing_by
  omega

/-- The ordered list of block sizes `VmaBlockVector::Allocate` passes to
`CreateBlock` (when each earlier attempt fails): the pre-halved preferred
size followed by the retry halvings for a default pool; the fixed configured
size for a custom pool. -/
def newBlockSizeAttempts (isCustom : Bool) (maxExisting reqSize preferred : Nat) :
    List Nat :=
  if isCustom then [preferred]
  else
    let pre := preHalveLoop maxExisting reqSize 3 preferred 0
    pre.1 :: retryAttempts reqSize pre.1 pre.2

/-- Run `CreateBlock` attempts against the device oracle `deviceOk` (pure in
the requested size), returning the first size that succeeds. -/
def firstDeviceOk (deviceOk : Nat → Bool) : List Nat → Option Nat
  | [] => none
  | s :: rest => if deviceOk s then some s else firstDeviceOk deviceOk rest

/-- Step 1 of `VmaBlockVector::Allocate`: scan the blocks in order with
`canMakeOtherLost = false`, returning the first block whose
`CreateAllocationRequest` succeeds. -/
def searchExistingNoLost (cf fiu gran asz aal : Nat) (t : VmaSuballocationType) :
    List VmaBlockMetadata → Nat → Option (Nat × VmaAllocationRequest)
  | [], _ => none
  | b :: rest, i =>
    match b.CreateAllocationRequest cf fiu gran asz aal t false with
    | some r => some (i, r)
    | none => searchExistingNoLost cf fiu gran asz aal t rest (i + 1)

/-- The commit path shared by the three success branches of
`VmaBlockVector::Allocate`: clear the has-empty-block flag when allocating
out of the (single) empty block, call `Alloc` with a freshly constructed
allocation handle (`InitBlockAllocation` records the request's offset, the
requested size, the can-become-lost flag and the current frame).  Returns
the updated vector, the block index and the offset. -/
def VmaBlockVector.commitAlloc (bv : VmaBlockVector) (bIdx : Nat)
    (r : VmaAllocationRequest) (t : VmaSuballocationType) (asz cf : Nat)
    (canBecomeLost : Bool) : VmaBlockVector × Nat × Nat :=
  match bv.blocks[bIdx]? with
  | none => (bv, bIdx, r.offset)
  | some b =>
    let hasEmpty := if b.IsEmpty then false else bv.m_HasEmptyBlock
    let b1 := b.Alloc r t asz ⟨bv.nextAid, r.offset, asz, canBecomeLost, cf⟩
    ({ bv with blocks := listSetAt bIdx b1 bv.blocks,
               m_HasEmptyBlock := hasEmpty,
               nextAid := bv.nextAid + 1 }, bIdx, r.offset)

/-- The inner scan of step 3 of `VmaBlockVector::Allocate`: search every
block with eviction enabled, keeping the strictly-lowest-cost request and
stopping early at cost 0. -/
def searchBestLost (cf fiu gran asz aal : Nat) (t : VmaSuballocationType) :
    List VmaBlockMetadata → Nat → Option (Nat × VmaAllocationRequest) →
    Option (Nat × VmaAllocationRequest)
  | [], _, best => best
  | b :: rest, i, best =>
    match b.CreateAllocationRequest cf fiu gran asz aal t true with
    | some r =>
      let better : Bool :=
        match best with
        | none => true
        | some pr => decide (r.CalcCost < pr.2.CalcCost)
      if better then
        if r.CalcCost = 0 then some (i, r)
        else searchBestLost cf fiu gran asz aal t rest (i + 1) (some (i, r))
      else searchBestLost cf fiu gran asz aal t rest (i + 1) best
    | none => searchBestLost cf fiu gran asz aal t rest (i + 1) best

/-- Concurrent `TouchAllocation` interference: between a round's search and
its commit, other threads may touch allocations (per allocation identity) in
any block, advancing their last-use frame.  This is the race that makes
`MakeRequestedAllocationsLost` fail and the retry loop spin. -/
def touchHandle (h : VmaAllocHandle) (cf : Nat) : VmaAllocHandle :=
  { h with lastUseFrameIndex := (VmaTouchAllocation true h.lastUseFrameIndex cf).2 }

/-- Apply one concurrent touch to the matching allocation of a block. -/
def touchInBlock (b : VmaBlockMetadata) (aid cf : Nat) : VmaBlockMetadata :=
  { b with m_Suballocations := b.m_Suballocations.map (fun n =>
      match n.hAllocation with
      | some h =>
        if h.aid == aid && h.canBecomeLost then
          { n with hAllocation := some (touchHandle h cf) }
        else n
      | none => n) }

/-- Apply a round's worth of concurrent touches `(blockIndex, aid)`. -/
def applyTouches (bv : VmaBlockVector) (touches : List (Nat × Nat)) (cf : Nat) :
    VmaBlockVector :=
  touches.foldl (fun acc tc =>
    match acc.blocks[tc.1]? with
    | some b => { acc with blocks := listSetAt tc.1 (touchInBlock b tc.2 cf) acc.blocks }
    | none => acc) bv

/-- Step 3 of `VmaBlockVector::Allocate`: up to `VMA_ALLOCATION_TRY_COUNT`
rounds of (search best eviction candidate across all blocks; make its
allocations lost; allocate), with concurrent touches applied between search
and commit.  Fuel exhaustion is `tryIndex == VMA_ALLOCATION_TRY_COUNT`,
returning `VK_ERROR_TOO_MANY_OBJECTS`; a round whose search finds no
candidate falls through to `VK_ERROR_OUT_OF_DEVICE_MEMORY`.  Also returns
the successful `(blockIndex, offset)` and the number of rounds begun. -/
def evictionLoop (cf fiu gran asz aal : Nat) (t : VmaSuballocationType)
    (canBecomeLost : Bool) (touches : Nat → List (Nat × Nat)) :
    Nat → VmaBlockVector → Nat → VkResult × VmaBlockVector × Option (Nat × Nat) × Nat
  | 0, bv, round => (.VK_ERROR_TOO_MANY_OBJECTS, bv, none, round)
  | fuel + 1, bv, round =>
    match searchBestLost cf fiu gran asz aal t bv.blocks 0 none with
    | none => (.VK_ERROR_OUT_OF_DEVICE_MEMORY, bv, none, round)
    | some best =>
      let bv1 := applyTouches bv (touches round) cf
      match bv1.blocks[best.1]? with
      | none => (.VK_ERROR_OUT_OF_DEVICE_MEMORY, bv1, none, round)
      | some b =>
        let mr := b.MakeRequestedAllocationsLost cf fiu best.2
        let bv2 := { bv1 with blocks := listSetAt best.1 mr.2.1 bv1.blocks }
        if mr.1 then
          let cm := bv2.commitAlloc best.1 mr.2.2 t asz cf canBecomeLost
          (.VK_SUCCESS, cm.1, some (cm.2.1, cm.2.2), round + 1)
        else
          evictionLoop cf fiu gran asz aal t canBecomeLost touches fuel bv2 (round + 1)

/-- `VmaBlockVector::Allocate`: the ordered strategy.
1. Existing blocks without eviction; 2. new-block creation (with the halving
heuristics); 3. the bounded eviction retry loop; otherwise out-of-memory.
`deviceOk` is the device-memory oracle for `CreateBlock`; `touches` supplies
the concurrent-touch interference per eviction round. -/
def VmaBlockVector.Allocate (bv : VmaBlockVector) (cf asz aal : Nat)
    (flags : VmaAllocationCreateFlags) (t : VmaSuballocationType)
    (deviceOk : Nat → Bool) (touches : Nat → List (Nat × Nat)) :
    VkResult × VmaBlockVector × Option (Nat × Nat) :=
  match searchExistingNoLost cf bv.m_FrameInUseCount bv.m_BufferImageGranularity
      asz aal t bv.blocks 0 with
  | some ir =>
    let cm := bv.commitAlloc ir.1 ir.2 t asz cf flags.canBecomeLost
    (.VK_SUCCESS, cm.1, some (cm.2.1, cm.2.2))
  | none =>
    let canCreateNewBlock :=
      flags.neverAllocate = false ∧ bv.blocks.length < bv.m_MaxBlockCount
    let created : Option (VmaBlockVector × Nat) :=
      if canCreateNewBlock then
        match firstDeviceOk deviceOk (newBlockSizeAttempts bv.m_IsCustomPool
            bv.CalcMaxBlockSize asz bv.m_PreferredBlockSize) with
        | some s =>
          some ({ bv with blocks := bv.blocks ++ [VmaBlockMetadata.Init s] },
                bv.blocks.length)
        | none => none
      else none
    match created with
    | some c =>
      match c.1.blocks[c.2]? with
      | some nb =>
        let cm := c.1.commitAlloc c.2 nb.CreateFirstAllocationRequest t asz cf
          flags.canBecomeLost
        (.VK_SUCCESS, cm.1, some (cm.2.1, cm.2.2))
      | none => (.VK_ERROR_OUT_OF_DEVICE_MEMORY, c.1, none)
    | none =>
      if flags.canMakeOtherLost then
        let ev := evictionLoop cf bv.m_FrameInUseCount bv.m_BufferImageGranularity
          asz aal t flags.canBecomeLost touches VMA_ALLOCATION_TRY_COUNT bv 0
        (ev.1, ev.2.1, ev.2.2.1)
      else (.VK_ERROR_OUT_OF_DEVICE_MEMORY, bv, none)

/-- `VmaBlockVector::IncrementallySortBlocks()`: bubble sort by ascending
free size, only until the first swap. -/
def incrementalSortPass : List VmaBlockMetadata → List VmaBlockMetadata
  | a :: b :: rest =>
    if b.m_SumFreeSize < a.m_SumFreeSize then b :: a :: rest
    else a :: incrementalSortPass (b :: rest)
  | l => l

/-- `VmaBlockVector::Free(hAllocation)`: return the region to the owning
block's metadata, apply the single-empty-block hysteresis (destroying a
second empty block when above the minimum block count), and do one
incremental sort pass. -/
def VmaBlockVector.FreeAllocation (bv : VmaBlockVector) (aid : Nat) :
    VmaBlockVector :=
  match bv.blocks.findIdx? (fun b => b.m_Suballocations.any (fun n =>
      match n.hAllocation with
      | some h => h.aid == aid
      | none => false)) with
  | none => bv
  | some bIdx =>
    match bv.blocks[bIdx]? with
    | none => bv
    | some b =>
      let b1 := b.FreeAlloc aid
      let blocks1 := listSetAt bIdx b1 bv.blocks
      let afterH : List VmaBlockMetadata × Bool :=
        if b1.IsEmpty then
          if bv.m_HasEmptyBlock ∧ bv.m_MinBlockCount < blocks1.length then
            (listEraseAt bIdx blocks1, bv.m_HasEmptyBlock)
          else (blocks1, true)
        else
          if bv.m_HasEmptyBlock then
            match blocks1.getLast? with
            | some lastB =>
              if lastB.IsEmpty ∧ bv.m_MinBlockCount < blocks1.length then
                (blocks1.dropLast, false)
              else (blocks1, bv.m_HasEmptyBlock)
            | none => (blocks1, bv.m_HasEmptyBlock)
          else (blocks1, bv.m_HasEmptyBlock)
      { bv with blocks := incrementalSortPass afterH.1,
                m_HasEmptyBlock := afterH.2 }

/-- `VmaAllocator_T::FreeMemory(allocation)` for a block allocation within
one block vector: the block-vector free runs only when the allocation cannot
become lost or is not currently lost; the handle object itself is destroyed
(`vma_delete`) in every case — the returned flag records that. -/
def VmaAllocatorFreeMemory (bv : VmaBlockVector) (h : VmaAllocHandle) :
    VmaBlockVector × Bool :=
  if h.canBecomeLost = false ∨ h.lastUseFrameIndex ≠ VMA_FRAME_INDEX_LOST then
    (bv.FreeAllocation h.aid, true)
  else (bv, true)

/-- The fields of a `VmaDefragmentator::AllocationInfo` entry that the round
reads through `m_hAllocation` (`GetSize`, `GetOffset`, `GetAlignment`,
`GetSuballocationType`), plus the handle identity. -/
structure DefragAllocationInfo where
  aid : Nat
  size : Nat
  alignment : Nat
  stype : VmaSuballocationType
  offset : Nat
deriving DecidableEq

/-- `VmaDefragmentator::BlockInfo`: one block of the defragmentator's sorted
block list with its per-block movable-allocation list. -/
structure DefragBlockInfo where
  meta : VmaBlockMetadata
  m_HasNonMovableAllocations : Bool
  m_Allocations : List DefragAllocationInfo
deriving DecidableEq

/-- One executed relocation (the `memcpy` point of `DefragmentRound`). -/
structure DefragMoveRecord where
  srcBlockIndex : Nat
  dstBlockIndex : Nat
  srcOffset : Nat
  dstOffset : Nat
  size : Nat
deriving DecidableEq

/-- `VmaDefragmentator::MoveMakesSense`. -/
def MoveMakesSense (dstBlockIndex dstOffset srcBlockIndex srcOffset : Nat) : Bool :=
  if dstBlockIndex < srcBlockIndex then true
  else if srcBlockIndex < dstBlockIndex then false
  else if dstOffset < srcOffset then true
  else false

/-- Result of the inner destination scan of `DefragmentRound`. -/
inductive DefragTry where
  | moved (blocks : List DefragBlockInfo) (rec : DefragMoveRecord)
  | budget
  | noMove
deriving DecidableEq

/-- The inner `for dstBlockIndex <= srcBlockIndex` scan of
`DefragmentRound`: find a destination whose `CreateAllocationRequest`
succeeds and whose move makes sense; stop the whole round (`VK_INCOMPLETE`)
if the move would exceed either budget; otherwise execute the move
(`Alloc` at the destination, `FreeAtOffset` at the source, remove the moved
entry from the source block's list).  The moved allocation handle keeps its
identity; `ChangeBlockAllocation` records the new offset. -/
def tryMoveToDst (cf fiu gran : Nat) (srcB srcA : Nat)
    (ainfo : DefragAllocationInfo)
    (bytesMoved allocsMoved maxBytes maxAllocs : Nat)
    (blocks : List DefragBlockInfo) : List Nat → DefragTry
  | [] => .noMove
  | dstB :: rest =>
    match blocks[dstB]? with
    | none => tryMoveToDst cf fiu gran srcB srcA ainfo bytesMoved allocsMoved
        maxBytes maxAllocs blocks rest
    | some dstInfo =>
      match dstInfo.meta.CreateAllocationRequest cf fiu gran ainfo.size
          ainfo.alignment ainfo.stype false with
      | some req =>
        if MoveMakesSense dstB req.offset srcB ainfo.offset then
          if maxAllocs < allocsMoved + 1 ∨ maxBytes < bytesMoved + ainfo.size then
            .budget
          else
            let dstMeta := dstInfo.meta.Alloc req ainfo.stype ainfo.size
              ⟨ainfo.aid, req.offset, ainfo.size, false, cf⟩
            let blocks1 := listSetAt dstB { dstInfo with meta := dstMeta } blocks
            let blocks2 :=
              match blocks1[srcB]? with
              | some srcInfo =>
                listSetAt srcB
                  { srcInfo with
                      meta := srcInfo.meta.FreeAtOffset ainfo.offset,
                      m_Allocations := listEraseAt srcA srcInfo.m_Allocations }
                  blocks1
              | none => blocks1
            .moved blocks2 ⟨srcB, dstB, ainfo.offset, req.offset, ainfo.size⟩
        else tryMoveToDst cf fiu gran srcB srcA ainfo bytesMoved allocsMoved
          maxBytes maxAllocs blocks rest
      | none => tryMoveToDst cf fiu gran srcB srcA ainfo bytesMoved allocsMoved
          maxBytes maxAllocs blocks rest

/-- The "find next allocation to move" while-loop of `DefragmentRound`:
from block `srcB` (moving towards block 0), the last allocation of the first
non-empty allocation list.  `none` as current index stands for `SIZE_MAX`. -/
def findNextSrc (blocks : List DefragBlockInfo) (srcB : Nat)
    (srcA : Option Nat) : Option (Nat × Nat) :=
  let sz := ((blocks[srcB]?).map (fun b => b.m_Allocations.length)).getD 0
  let needAdvance : Bool :=
    match srcA with
    | some a => decide (sz ≤ a)
    | none => true
  match needAdvance with
  | false => match srcA with
             | some a => some (srcB, a)
             | none => none
  | true =>
    if sz = 0 then
      if h : srcB = 0 then none
      else findNextSrc blocks (srcB - 1) none
    else some (srcB, sz - 1)
termination_by srcB
decreasing_by
  omega

/-- The main loop of `VmaDefragmentator::DefragmentRound`, with explicit
fuel (the C++ loop terminates because the source cursor decreases and moves
only shrink allocation lists; safety theorems hold for every fuel).  Returns
`(result, blocks, bytesMoved, allocationsMoved, executed moves)`. -/
def defragRoundLoop (cf fiu gran maxBytes maxAllocs : Nat) :
    Nat → List DefragBlockInfo → Nat → Option Nat → Nat → Nat →
    List DefragMoveRecord →
    VkResult × List DefragBlockInfo × Nat × Nat × List DefragMoveRecord
  | 0, blocks, _, _, bytes, allocs, log => (.VK_SUCCESS, blocks, bytes, allocs, log)
  | fuel + 1, blocks, srcB, srcA, bytes, allocs, log =>
    match findNextSrc blocks srcB srcA with
    | none => (.VK_SUCCESS, blocks, bytes, allocs, log)
    | some sba =>
      match blocks[sba.1]? with
      | none => (.VK_SUCCESS, blocks, bytes, allocs, log)
      | some srcInfo =>
        match srcInfo.m_Allocations[sba.2]? with
        | none => (.VK_SUCCESS, blocks, bytes, allocs, log)
        | some ainfo =>
          let next : Option (Nat × Option Nat) :=
            if 0 < sba.2 then some (sba.1, some (sba.2 - 1))
            else if 0 < sba.1 then some (sba.1 - 1, none)
            else none
          match tryMoveToDst cf fiu gran sba.1 sba.2 ainfo bytes allocs
              maxBytes maxAllocs blocks (List.range (sba.1 + 1)) with
          | .budget => (.VK_INCOMPLETE, blocks, bytes, allocs, log)
          | .moved blocks2 mr =>
            match next with
            | none => (.VK_SUCCESS, blocks2, bytes + mr.size, allocs + 1, log ++ [mr])
            | some nx => defragRoundLoop cf fiu gran maxBytes maxAllocs fuel
                blocks2 nx.1 nx.2 (bytes + mr.size) (allocs + 1) (log ++ [mr])
          | .noMove =>
            match next with
            | none => (.VK_SUCCESS, blocks, bytes, allocs, log)
            | some nx => defragRoundLoop cf fiu gran maxBytes maxAllocs fuel
                blocks nx.1 nx.2 bytes allocs log

/-- `VmaDefragmentator::DefragmentRound(maxBytesToMove, maxAllocationsToMove)`
starting from the end of the block list. -/
def DefragmentRound (cf fiu gran maxBytes maxAllocs fuel : Nat)
    (blocks : List DefragBlockInfo) (bytes allocs : Nat)
    (log : List DefragMoveRecord) :
    VkResult × List DefragBlockInfo × Nat × Nat × List DefragMoveRecord :=
  match blocks with
  | [] => (.VK_SUCCESS, blocks, bytes, allocs, log)
  | _ =>
    defragRoundLoop cf fiu gran maxBytes maxAllocs fuel blocks
      (blocks.length - 1) none bytes allocs log

/-- `VmaDefragmentator::Defragment(maxBytesToMove, maxAllocationsToMove)`:
up to two rounds while the previous round returned `VK_SUCCESS`; the byte
and allocation counters are cumulative across rounds.  The sorting preamble
(group by block, movability flags, destination ordering) only determines the
input `blocks` list, over which the theorems quantify. -/
def VmaDefragmentatorDefragment (cf fiu gran maxBytes maxAllocs fuel : Nat)
    (blocks : List DefragBlockInfo) :
    VkResult × List DefragBlockInfo × Nat × Nat × List DefragMoveRecord :=
  let r1 := DefragmentRound cf fiu gran maxBytes maxAllocs fuel blocks 0 0 []
  match r1.1 with
  | .VK_SUCCESS =>
    DefragmentRound cf fiu gran maxBytes maxAllocs fuel r1.2.1 r1.2.2.1
      r1.2.2.2.1 r1.2.2.2.2
  | _ => r1

/-! ## Invariants and step relations -/

/-- Total size of a suballocation list. -/
def sizesSum (l : List VmaSuballocation) : Nat := (l.map (fun n => n.size)).sum

/-- Number of FREE entries. -/
def freeCountOf (l : List VmaSuballocation) : Nat :=
  (l.filter (fun n => n.stype == .free)).length

/-- Total size of the FREE entries. -/
def freeSizeOf (l : List VmaSuballocation) : Nat :=
  sizesSum (l.filter (fun n => n.stype == .free))

/-- Number of used (non-FREE) entries. -/
def usedCountOf (l : List VmaSuballocation) : Nat :=
  (l.filter (fun n => !(n.stype == .free))).length

/-- Total size of the used entries. -/
def usedSizeOf (l : List VmaSuballocation) : Nat :=
  sizesSum (l.filter (fun n => !(n.stype == .free)))

/-- Total used bytes across a vector of blocks. -/
def blocksUsedBytes (blocks : List VmaBlockMetadata) : Nat :=
  (blocks.map (fun b => usedSizeOf b.m_Suballocations)).sum

/-- Node identities of the FREE entries at or above the registration
threshold: what `m_FreeSuballocationsBySize` must contain exactly. -/
def regNids (l : List VmaSuballocation) : List Nat :=
  (l.filter (fun n =>
    n.stype == .free &&
    decide (VMA_MIN_FREE_SUBALLOCATION_SIZE_TO_REGISTER ≤ n.size))).map
    (fun n => n.nid)

/-- Offsets are contiguous starting from `o`. -/
def contigFrom : Nat → List VmaSuballocation → Prop
  | _, [] => True
  | o, n :: rest => n.offset = o ∧ contigFrom (o + n.size) rest

/-- No two adjacent FREE entries. -/
def noTwoAdjFree (l : List VmaSuballocation) : Prop :=
  l.Chain' (fun a b => ¬(a.stype = .free ∧ b.stype = .free))

/-- The sortedness of the by-size index relative to a suballocation list. -/
def indexSortedFor (subs : List VmaSuballocation) (index : List Nat) : Prop :=
  index.Pairwise (fun a b => idSize subs a ≤ idSize subs b)

/-- The full invariant a `VmaBlockMetadata` maintains (the property
`Validate()` checks, strengthened to the exact index contents plus the
freshness of node identities that stands in for distinctness of list-node
addresses). -/
structure MetaInv (m : VmaBlockMetadata) : Prop where
  nonnil : m.m_Suballocations ≠ []
  contig : contigFrom 0 m.m_Suballocations
  total : sizesSum m.m_Suballocations = m.m_Size
  noAdj : noTwoAdjFree m.m_Suballocations
  freeIff : ∀ n ∈ m.m_Suballocations, (n.stype = .free ↔ n.hAllocation = none)
  hmatch : ∀ n ∈ m.m_Suballocations, ∀ hh, n.hAllocation = some hh →
    hh.offset = n.offset ∧ hh.size = n.size
  fcount : m.m_FreeCount = freeCountOf m.m_Suballocations
  fsum : m.m_SumFreeSize = freeSizeOf m.m_Suballocations
  nodup : (m.m_Suballocations.map (fun n => n.nid)).Nodup
  idbound : ∀ n ∈ m.m_Suballocations, n.nid < m.nextId
  indexPerm : m.m_FreeSuballocationsBySize.Perm (regNids m.m_Suballocations)
  indexSorted : indexSortedFor m.m_Suballocations m.m_FreeSuballocationsBySize

/-- One `Alloc` call as issued by the callers of `VmaBlockMetadata::Alloc`:
the request points at a FREE entry, the requested range fits inside it (the
function's asserted preconditions), the allocation size is positive and the
type is not FREE (asserted by `CreateAllocationRequest`), and the allocation
handle records the granted offset and size (`InitBlockAllocation`). -/
def AllocStep (m m' : VmaBlockMetadata) : Prop :=
  ∃ (r : VmaAllocationRequest) (t : VmaSuballocationType) (asz aid lu : Nat)
    (cbl : Bool) (cur : VmaSuballocation),
    m.m_Suballocations[r.itemPos]? = some cur ∧ cur.stype = .free ∧
    0 < asz ∧ t ≠ .free ∧
    cur.offset ≤ r.offset ∧ r.offset - cur.offset + asz ≤ cur.size ∧
    m' = m.Alloc r t asz ⟨aid, r.offset, asz, cbl, lu⟩

/-- One `Free`/`FreeAtOffset` call: `FreeSuballocation` on a currently used
entry (both callers free a live allocation's entry). -/
def FreeStep (m m' : VmaBlockMetadata) : Prop :=
  ∃ (p : Nat) (cur : VmaSuballocation),
    m.m_Suballocations[p]? = some cur ∧ cur.stype ≠ .free ∧
    m' = (m.FreeSuballocationAt p).1

/-- One `MakeAllocationsLost` sweep. -/
def MakeLostStep (m m' : VmaBlockMetadata) : Prop :=
  ∃ cf fiu, m' = (m.MakeAllocationsLost cf fiu).1

/-- Any one metadata operation. -/
def MetaStep (m m' : VmaBlockMetadata) : Prop :=
  AllocStep m m' ∨ FreeStep m m' ∨ MakeLostStep m m'

/-- Reachability by metadata operations. -/
def ReachableMeta : VmaBlockMetadata → VmaBlockMetadata → Prop :=
  Relation.ReflTransGen MetaStep

/-- `n` consecutive steps of a relation. -/
def NChain (R : α → α → Prop) : Nat → α → α → Prop
  | 0 => fun a b => a = b
  | n + 1 => fun a c => ∃ b, R a b ∧ NChain R n b c

/-- The best-fit search as the specification words it: scan the whole
size-ascending free index in order and accept the first entry whose
candidate passes the checks. -/
def bestFitSearchSpec (m : VmaBlockMetadata) (gran asz aal : Nat)
    (t : VmaSuballocationType) : Option VmaAllocationRequest :=
  m.tryIndexEntries gran asz aal t m.m_FreeSuballocationsBySize

/-- One round of step 3 of `VmaBlockVector::Allocate` in the case that keeps
the loop spinning: the search finds a best candidate, the concurrent touches
land, and `MakeRequestedAllocationsLost` fails; returns the resulting state.
`none` when the round would instead exit the loop (no candidate, or a
successful commit). -/
def evictionRoundContinue (cf fiu gran asz aal : Nat) (t : VmaSuballocationType)
    (touches : Nat → List (Nat × Nat)) (round : Nat) (bv : VmaBlockVector) :
    Option VmaBlockVector :=
  match searchBestLost cf fiu gran asz aal t bv.blocks 0 none with
  | none => none
  | some best =>
    let bv1 := applyTouches bv (touches round) cf
    match bv1.blocks[best.1]? with
    | none => none
    | some b =>
      let mr := b.MakeRequestedAllocationsLost cf fiu best.2
      if mr.1 then none
      else some { bv1 with blocks := listSetAt best.1 mr.2.1 bv1.blocks }

/-- Iterate `evictionRoundContinue` for `k` rounds starting at round
`round`; `some` exactly when every one of the `k` rounds found a best
candidate whose commit then failed. -/
def iterContinue (cf fiu gran asz aal : Nat) (t : VmaSuballocationType)
    (touches : Nat → List (Nat × Nat)) :
    Nat → Nat → VmaBlockVector → Option VmaBlockVector
  | 0, _, bv => some bv
  | k + 1, round, bv =>
    match evictionRoundContinue cf fiu gran asz aal t touches round bv with
    | some bv1 => iterContinue cf fiu gran asz aal t touches k (round + 1) bv1
    | none => none

/-! ## List toolkit -/

theorem take_append_len (B C : List α) : (B ++ C).take B.length = B := by
  induction B with
  | nil => simp
  | cons a B ih => simp [ih]

theorem drop_append_len (B C : List α) : (B ++ C).drop B.length = C := by
  induction B with
  | nil => simp
  | cons a B ih => simp [ih]

theorem drop_append_len_succ (B : List α) (x : α) (A : List α) :
    (B ++ x :: A).drop (B.length + 1) = A := by
  induction B with
  | nil => simp
  | cons a B ih => simp [ih]

theorem getElem?_append_len (B : List α) (x : α) (A : List α) :
    (B ++ x :: A)[B.length]? = some x := by
  induction B with
  | nil => simp
  | cons a B ih => simpa using ih

theorem getElem?_append_len_succ (B : List α) (x : α) (A : List α) :
    (B ++ x :: A)[B.length + 1]? = A[0]? := by
  induction B with
  | nil => simp
  | cons a B ih => simpa using ih

theorem getElem?_append_lt (B C : List α) (p : Nat) (h : p < B.length) :
    (B ++ C)[p]? = B[p]? := by
  induction B generalizing p with
  | nil => simp at h
  | cons a B ih =>
    cases p with
    | zero => simp
    | succ q => simpa using ih q (by simpa using h)

theorem listSetAt_append (B : List α) (x y : α) (A : List α) :
    listSetAt B.length y (B ++ x :: A) = B ++ y :: A := by
  unfold listSetAt
  rw [take_append_len, drop_append_len_succ]

theorem listEraseAt_append (B : List α) (x : α) (A : List α) :
    listEraseAt B.length (B ++ x :: A) = B ++ A := by
  unfold listEraseAt
  rw [take_append_len, drop_append_len_succ]

theorem listInsertAt_append (B : List α) (y : α) (A : List α) :
    listInsertAt B.length y (B ++ A) = B ++ y :: A := by
  unfold listInsertAt
  rw [take_append_len, drop_append_len]

theorem listInsertAt_append_succ (B : List α) (x y : α) (A : List α) :
    listInsertAt (B.length + 1) y (B ++ x :: A) = B ++ x :: y :: A := by
  unfold listInsertAt
  have h1 : (B ++ x :: A).take (B.length + 1) = B ++ [x] := by
    induction B with
    | nil => simp
    | cons a B ih => simpa using ih
  rw [h1, drop_append_len_succ]
  simp

theorem listEraseAt_append_succ (B : List α) (x y : α) (A : List α) :
    listEraseAt (B.length + 1) (B ++ x :: y :: A) = B ++ x :: A := by
  unfold listEraseAt
  have h1 : (B ++ x :: y :: A).take (B.length + 1) = B ++ [x] := by
    induction B with
    | nil => simp
    | cons a B ih => simpa using ih
  have h2 : (B ++ x :: y :: A).drop (B.length + 1 + 1) = A := by
    have := drop_append_len_succ (B ++ [x]) y A
    simpa using this
  rw [h1, h2]
  simp

theorem removeFirst_of_not_mem (i : Nat) (l : List Nat) (h : i ∉ l) :
    removeFirst i l = l := by
  induction l with
  | nil => rfl
  | cons j t ih =>
    simp only [removeFirst]
    rw [if_neg (by rintro rfl; exact h (List.mem_cons_self _ _)),
      ih (fun hm => h (List.mem_cons_of_mem _ hm))]

theorem removeFirst_append_of_not_mem (i : Nat) (l1 l2 : List Nat) (h : i ∉ l1) :
    removeFirst i (l1 ++ l2) = l1 ++ removeFirst i l2 := by
  induction l1 with
  | nil => rfl
  | cons j t ih =>
    simp only [List.cons_append, removeFirst, List.append_eq]
    rw [if_neg (by rintro rfl; exact h (List.mem_cons_self _ _)),
      ih (fun hm => h (List.mem_cons_of_mem _ hm))]

theorem removeFirst_sublist (i : Nat) (l : List Nat) :
    List.Sublist (removeFirst i l) l := by
  induction l with
  | nil => simp [removeFirst]
  | cons j t ih =>
    simp only [removeFirst]
    by_cases hj : j = i
    · rw [if_pos hj]; exact List.sublist_cons_self _ _
    · rw [if_neg hj]; exact ih.cons₂ j

theorem removeFirst_perm (i : Nat) (l : List Nat) (h : i ∈ l) :
    l.Perm (i :: removeFirst i l) := by
  induction l with
  | nil => cases h
  | cons j t ih =>
    simp only [removeFirst]
    by_cases hj : j = i
    · rw [if_pos hj, hj]
    · rw [if_neg hj]
      have hm : i ∈ t := by
        rcases List.mem_cons.mp h with h1 | h1
        · exact absurd h1.symm hj
        · exact h1
      exact ((ih hm).cons j).trans (List.Perm.swap i j (removeFirst i t))

theorem not_mem_removeFirst_of_nodup (i : Nat) (l : List Nat) (hd : l.Nodup) :
    i ∉ removeFirst i l := by
  induction l with
  | nil => simp [removeFirst]
  | cons j t ih =>
    simp only [removeFirst]
    by_cases hj : j = i
    · rw [if_pos hj]
      subst hj
      exact (List.nodup_cons.mp hd).1
    · rw [if_neg hj]
      intro hm
      rcases List.mem_cons.mp hm with h1 | h1
      · exact hj h1.symm
      · exact ih (List.nodup_cons.mp hd).2 h1

theorem mem_of_mem_removeFirst {i j : Nat} {l : List Nat}
    (h : j ∈ removeFirst i l) : j ∈ l :=
  (removeFirst_sublist i l).mem h

theorem findByNid_nil (i : Nat) : findByNid [] i = none := rfl

theorem findByNid_cons (a : VmaSuballocation) (l : List VmaSuballocation) (i : Nat) :
    findByNid (a :: l) i = if a.nid = i then some a else findByNid l i := by
  simp only [findByNid, List.find?]
  by_cases h : a.nid = i
  · have hb : (a.nid == i) = true := by simpa using h
    simp only [hb, if_pos h]
  · have hb : (a.nid == i) = false := by simpa using h
    simp only [hb, if_neg h]

theorem findByNid_middle_ne (B A : List VmaSuballocation) (x : VmaSuballocation)
    (j : Nat) (hj : j ≠ x.nid) :
    findByNid (B ++ x :: A) j = findByNid (B ++ A) j := by
  induction B with
  | nil =>
    simp only [List.nil_append, findByNid_cons]
    rw [if_neg (fun h => hj h.symm)]
  | cons a B ih =>
    simp only [List.cons_append, findByNid_cons, ih]

theorem findByNid_self (B A : List VmaSuballocation) (x : VmaSuballocation)
    (hB : x.nid ∉ B.map (fun n => n.nid)) :
    findByNid (B ++ x :: A) x.nid = some x := by
  induction B with
  | nil => simp [findByNid_cons]
  | cons a B ih =>
    simp only [List.cons_append, findByNid_cons]
    have hB1 : x.nid ∉ B.map (fun n => n.nid) := by
      intro hm
      exact hB (by simp only [List.map_cons, List.mem_cons]; right; exact hm)
    have h1 : a.nid ≠ x.nid := by
      intro h
      exact hB (by simp only [List.map_cons, List.mem_cons]; left; exact h.symm)
    rw [if_neg h1, ih hB1]

theorem findByNid_of_mem_nodup (l : List VmaSuballocation) (n : VmaSuballocation)
    (hm : n ∈ l) (hd : (l.map (fun x => x.nid)).Nodup) :
    findByNid l n.nid = some n := by
  induction l with
  | nil => cases hm
  | cons a t ih =>
    rw [findByNid_cons]
    have hmap : (a :: t).map (fun x => x.nid) = a.nid :: t.map (fun x => x.nid) := rfl
    rw [hmap] at hd
    have hhead := (List.nodup_cons.mp hd).1
    have htail := (List.nodup_cons.mp hd).2
    rcases List.mem_cons.mp hm with h1 | h1
    · subst h1; simp
    · have ha : a.nid ≠ n.nid := by
        intro h
        exact hhead (h ▸ List.mem_map_of_mem (fun x => x.nid) h1)
      rw [if_neg ha]
      exact ih h1 htail

theorem idSize_middle_ne (B A : List VmaSuballocation) (x : VmaSuballocation)
    (j : Nat) (hj : j ≠ x.nid) :
    idSize (B ++ x :: A) j = idSize (B ++ A) j := by
  unfold idSize
  rw [findByNid_middle_ne B A x j hj]

theorem idSize_middle_samesize (B A : List VmaSuballocation)
    (x x' : VmaSuballocation) (hnid : x'.nid = x.nid) (hsz : x'.size = x.size)
    (j : Nat) : idSize (B ++ x' :: A) j = idSize (B ++ x :: A) j := by
  by_cases hj : j = x.nid
  · subst hj
    unfold idSize
    induction B with
    | nil =>
      simp only [List.nil_append, findByNid_cons, hnid]
      by_cases h : x.nid = x.nid
      · simp [h, hsz]
      · simp at h
    | cons a B ih =>
      simp only [List.cons_append, findByNid_cons]
      by_cases h : a.nid = x.nid
      · simp [h]
      · simp only [h, if_false]
        exact ih
  · rw [idSize_middle_ne _ _ _ _ hj, idSize_middle_ne _ _ _ _ (hnid ▸ hj)]

theorem idSize_of_mem_nodup (l : List VmaSuballocation) (n : VmaSuballocation)
    (hm : n ∈ l) (hd : (l.map (fun x => x.nid)).Nodup) :
    idSize l n.nid = n.size := by
  unfold idSize
  rw [findByNid_of_mem_nodup l n hm hd]
  rfl

theorem regNids_append (l1 l2 : List VmaSuballocation) :
    regNids (l1 ++ l2) = regNids l1 ++ regNids l2 := by
  unfold regNids
  rw [List.filter_append, List.map_append]

theorem regNids_cons_reg (n : VmaSuballocation) (l : List VmaSuballocation)
    (hfree : n.stype = .free) (hsz : VMA_MIN_FREE_SUBALLOCATION_SIZE_TO_REGISTER ≤ n.size) :
    regNids (n :: l) = n.nid :: regNids l := by
  unfold regNids
  rw [List.filter_cons_of_pos (by simp [hfree, hsz])]
  rfl

theorem regNids_cons_unreg (n : VmaSuballocation) (l : List VmaSuballocation)
    (h : ¬(n.stype = .free ∧ VMA_MIN_FREE_SUBALLOCATION_SIZE_TO_REGISTER ≤ n.size)) :
    regNids (n :: l) = regNids l := by
  unfold regNids
  rw [List.filter_cons_of_neg (by simpa using h)]

theorem mem_regNids_iff (l : List VmaSuballocation) (j : Nat) :
    j ∈ regNids l ↔ ∃ n ∈ l, n.nid = j ∧ n.stype = .free ∧
      VMA_MIN_FREE_SUBALLOCATION_SIZE_TO_REGISTER ≤ n.size := by
  unfold regNids
  simp only [List.mem_map, List.mem_filter, Bool.and_eq_true, beq_iff_eq,
    decide_eq_true_eq]
  constructor
  · rintro ⟨n, ⟨hm, hf, hs⟩, rfl⟩
    exact ⟨n, hm, rfl, hf, hs⟩
  · rintro ⟨n, hm, rfl, hf, hs⟩
    exact ⟨n, ⟨hm, hf, hs⟩, rfl⟩

theorem regNids_sublist_nids (l : List VmaSuballocation) :
    List.Sublist (regNids l) (l.map (fun n => n.nid)) := by
  unfold regNids
  exact (List.filter_sublist l).map (fun n => n.nid)

theorem regNids_nodup (l : List VmaSuballocation)
    (hd : (l.map (fun n => n.nid)).Nodup) : (regNids l).Nodup :=
  (regNids_sublist_nids l).nodup hd

theorem sizesSum_append (l1 l2 : List VmaSuballocation) :
    sizesSum (l1 ++ l2) = sizesSum l1 + sizesSum l2 := by
  unfold sizesSum
  rw [List.map_append, List.sum_append]

theorem sizesSum_cons (n : VmaSuballocation) (l : List VmaSuballocation) :
    sizesSum (n :: l) = n.size + sizesSum l := by
  unfold sizesSum
  rfl

theorem freeCountOf_append (l1 l2 : List VmaSuballocation) :
    freeCountOf (l1 ++ l2) = freeCountOf l1 + freeCountOf l2 := by
  unfold freeCountOf
  rw [List.filter_append, List.length_append]

theorem freeSizeOf_append (l1 l2 : List VmaSuballocation) :
    freeSizeOf (l1 ++ l2) = freeSizeOf l1 + freeSizeOf l2 := by
  unfold freeSizeOf
  rw [List.filter_append, sizesSum_append]

theorem usedSizeOf_append (l1 l2 : List VmaSuballocation) :
    usedSizeOf (l1 ++ l2) = usedSizeOf l1 + usedSizeOf l2 := by
  unfold usedSizeOf
  rw [List.filter_append, sizesSum_append]

theorem usedCountOf_append (l1 l2 : List VmaSuballocation) :
    usedCountOf (l1 ++ l2) = usedCountOf l1 + usedCountOf l2 := by
  unfold usedCountOf
  rw [List.filter_append, List.length_append]

theorem freeCountOf_cons_free (n : VmaSuballocation) (l : List VmaSuballocation)
    (h : n.stype = .free) : freeCountOf (n :: l) = freeCountOf l + 1 := by
  unfold freeCountOf
  rw [List.filter_cons_of_pos (by simp [h])]
  simp [Nat.add_comm]

theorem freeCountOf_cons_used (n : VmaSuballocation) (l : List VmaSuballocation)
    (h : n.stype ≠ .free) : freeCountOf (n :: l) = freeCountOf l := by
  unfold freeCountOf
  rw [List.filter_cons_of_neg (by simp [h])]

theorem freeSizeOf_cons_free (n : VmaSuballocation) (l : List VmaSuballocation)
    (h : n.stype = .free) : freeSizeOf (n :: l) = n.size + freeSizeOf l := by
  unfold freeSizeOf
  rw [List.filter_cons_of_pos (by simp [h])]
  exact sizesSum_cons _ _

theorem freeSizeOf_cons_used (n : VmaSuballocation) (l : List VmaSuballocation)
    (h : n.stype ≠ .free) : freeSizeOf (n :: l) = freeSizeOf l := by
  unfold freeSizeOf
  rw [List.filter_cons_of_neg (by simp [h])]

theorem usedSizeOf_cons_free (n : VmaSuballocation) (l : List VmaSuballocation)
    (h : n.stype = .free) : usedSizeOf (n :: l) = usedSizeOf l := by
  unfold usedSizeOf
  rw [List.filter_cons_of_neg (by simp [h])]

theorem usedSizeOf_cons_used (n : VmaSuballocation) (l : List VmaSuballocation)
    (h : n.stype ≠ .free) : usedSizeOf (n :: l) = n.size + usedSizeOf l := by
  unfold usedSizeOf
  rw [List.filter_cons_of_pos (by simp [h])]
  exact sizesSum_cons _ _

theorem usedCountOf_cons_free (n : VmaSuballocation) (l : List VmaSuballocation)
    (h : n.stype = .free) : usedCountOf (n :: l) = usedCountOf l := by
  unfold usedCountOf
  rw [List.filter_cons_of_neg (by simp [h])]

theorem usedCountOf_cons_used (n : VmaSuballocation) (l : List VmaSuballocation)
    (h : n.stype ≠ .free) : usedCountOf (n :: l) = usedCountOf l + 1 := by
  unfold usedCountOf
  rw [List.filter_cons_of_pos (by simp [h])]
  simp [Nat.add_comm]

theorem contigFrom_append (o : Nat) (L1 L2 : List VmaSuballocation) :
    contigFrom o (L1 ++ L2) ↔ contigFrom o L1 ∧ contigFrom (o + sizesSum L1) L2 := by
  induction L1 generalizing o with
  | nil => simp [contigFrom, sizesSum]
  | cons n t ih =>
    simp only [List.cons_append, contigFrom, ih, sizesSum_cons, List.append_eq]
    constructor
    · rintro ⟨h1, h2, h3⟩
      exact ⟨⟨h1, h2⟩, by rwa [Nat.add_assoc] at h3⟩
    · rintro ⟨⟨h1, h2⟩, h3⟩
      exact ⟨h1, h2, by rwa [Nat.add_assoc]⟩

/-! ## Binary search and index operations -/

theorem VmaBinaryFindLoop_eq (lt : Nat → Bool) (arr : List Nat) (t : Nat)
    (ht : ∀ i, i < arr.length → (lt (arr.getD i 0) = true ↔ i < t)) :
    ∀ fuel down up, up - down ≤ fuel → down ≤ t → t ≤ up →
      up ≤ arr.length → VmaBinaryFindLoop lt arr down up = t := by
  intro fuel
  induction fuel with
  | zero =>
    intro down up h1 h2 h3 h4
    rw [VmaBinaryFindLoop]
    rw [dif_neg (by omega)]
    omega
  | succ fuel ih =>
    intro down up h1 h2 h3 h4
    rw [VmaBinaryFindLoop]
    by_cases hdu : down < up
    · rw [dif_pos hdu]
      simp only []
      by_cases hlt : lt (arr.getD ((down + up) / 2) 0) = true
      · rw [if_pos hlt]
        have hmid : (down + up) / 2 < t := (ht _ (by omega)).mp hlt
        exact ih ((down + up) / 2 + 1) up (by omega) (by omega) h3 h4
      · rw [if_neg hlt]
        have hmid : ¬ ((down + up) / 2 < t) := fun hc =>
          hlt ((ht _ (by omega)).mpr hc)
        exact ih down ((down + up) / 2) (by omega) h2 (by omega) (by omega)
    · rw [dif_neg hdu]
      omega

theorem VmaBinaryFindFirstNotLess_eq (lt : Nat → Bool) (arr : List Nat) (t : Nat)
    (ht : ∀ i, i < arr.length → (lt (arr.getD i 0) = true ↔ i < t))
    (htlen : t ≤ arr.length) : VmaBinaryFindFirstNotLess lt arr = t :=
  VmaBinaryFindLoop_eq lt arr t ht arr.length 0 arr.length (by omega) (by omega)
    htlen (Nat.le_refl _)

theorem sorted_countP_boundary (f : Nat → Nat) (key : Nat) (arr : List Nat)
    (hs : arr.Pairwise (fun a b => f a ≤ f b)) :
    ∀ i, i < arr.length →
      ((decide (f (arr.getD i 0) < key) = true) ↔
        i < arr.countP (fun j => decide (f j < key))) := by
  induction arr with
  | nil => intro i h; simp at h
  | cons x l ih =>
    have hx := (List.pairwise_cons.mp hs).1
    have hl := (List.pairwise_cons.mp hs).2
    intro i hi
    by_cases hxk : f x < key
    · rw [List.countP_cons_of_pos _ _ (by simpa using hxk)]
      cases i with
      | zero => simpa using hxk
      | succ j =>
        have hiff := ih hl j (by simpa using hi)
        simpa using hiff
    · have hcnt : l.countP (fun j => decide (f j < key)) = 0 := by
        rw [List.countP_eq_zero]
        intro j hj
        simp only [decide_eq_true_eq]
        intro hjk
        exact hxk (lt_of_le_of_lt (hx j hj) hjk)
      rw [List.countP_cons_of_neg _ _ (by simpa using hxk), hcnt]
      cases i with
      | zero => simpa using hxk
      | succ j =>
        simp only [List.getD_cons_succ]
        constructor
        · intro hdec
          exfalso
          have hjlen : j < l.length := by simpa using hi
          have hmem : l.getD j 0 ∈ l := by
            rw [List.getD_eq_getElem l 0 hjlen]
            exact List.getElem_mem hjlen
          have := hx _ hmem
          simp only [decide_eq_true_eq] at hdec
          exact hxk (lt_of_le_of_lt this hdec)
        · omega

theorem mem_take_boundary (f : Nat → Nat) (key : Nat) (arr : List Nat)
    (hs : arr.Pairwise (fun a b => f a ≤ f b)) :
    ∀ b ∈ arr.take (arr.countP (fun j => decide (f j < key))), f b < key := by
  induction arr with
  | nil => intro b hb; simp at hb
  | cons x l ih =>
    have hx := (List.pairwise_cons.mp hs).1
    have hl := (List.pairwise_cons.mp hs).2
    intro b hb
    by_cases hxk : f x < key
    · rw [List.countP_cons_of_pos _ _ (by simpa using hxk)] at hb
      rw [List.take_succ_cons] at hb
      rcases List.mem_cons.mp hb with h1 | h1
      · rwa [h1]
      · exact ih hl b h1
    · rw [List.countP_cons_of_neg _ _ (by simpa using hxk)] at hb
      have hcnt : l.countP (fun j => decide (f j < key)) = 0 := by
        rw [List.countP_eq_zero]
        intro j hj
        simp only [decide_eq_true_eq]
        intro hjk
        exact hxk (lt_of_le_of_lt (hx j hj) hjk)
      rw [hcnt] at hb
      simp at hb

theorem mem_drop_boundary (f : Nat → Nat) (key : Nat) (arr : List Nat)
    (hs : arr.Pairwise (fun a b => f a ≤ f b)) :
    ∀ b ∈ arr.drop (arr.countP (fun j => decide (f j < key))), key ≤ f b := by
  induction arr with
  | nil => intro b hb; simp at hb
  | cons x l ih =>
    have hx := (List.pairwise_cons.mp hs).1
    have hl := (List.pairwise_cons.mp hs).2
    intro b hb
    by_cases hxk : f x < key
    · rw [List.countP_cons_of_pos _ _ (by simpa using hxk)] at hb
      rw [List.drop_succ_cons] at hb
      exact ih hl b hb
    · rw [List.countP_cons_of_neg _ _ (by simpa using hxk)] at hb
      have hcnt : l.countP (fun j => decide (f j < key)) = 0 := by
        rw [List.countP_eq_zero]
        intro j hj
        simp only [decide_eq_true_eq]
        intro hjk
        exact hxk (lt_of_le_of_lt (hx j hj) hjk)
      rw [hcnt] at hb
      rw [List.drop_zero] at hb
      rcases List.mem_cons.mp hb with h1 | h1
      · rw [h1]; omega
      · exact le_trans (by omega) (hx b h1)

theorem register_small (subs : List VmaSuballocation) (index : List Nat) (i : Nat)
    (h : idSize subs i < VMA_MIN_FREE_SUBALLOCATION_SIZE_TO_REGISTER) :
    RegisterFreeSuballocation subs index i = index := by
  unfold RegisterFreeSuballocation
  rw [if_neg (by omega)]

theorem register_perm (subs : List VmaSuballocation) (index : List Nat) (i : Nat)
    (h : VMA_MIN_FREE_SUBALLOCATION_SIZE_TO_REGISTER ≤ idSize subs i) :
    (RegisterFreeSuballocation subs index i).Perm (i :: index) := by
  unfold RegisterFreeSuballocation
  rw [if_pos h]
  by_cases he : index.isEmpty
  · rw [if_pos he]
    rw [List.isEmpty_iff] at he
    rw [he]
  · rw [if_neg he]
    unfold listInsertAt
    refine List.perm_middle.trans ?_
    rw [List.take_append_drop]

theorem bfnl_eq_countP (f : Nat → Nat) (key : Nat) (index : List Nat)
    (hs : index.Pairwise (fun a b => f a ≤ f b)) :
    VmaBinaryFindFirstNotLess (fun j => decide (f j < key)) index =
      index.countP (fun j => decide (f j < key)) :=
  VmaBinaryFindFirstNotLess_eq _ _ _
    (sorted_countP_boundary f key index hs) (index.countP_le_length _)

theorem register_sorted (subs : List VmaSuballocation) (index : List Nat) (i : Nat)
    (h : VMA_MIN_FREE_SUBALLOCATION_SIZE_TO_REGISTER ≤ idSize subs i)
    (hs : indexSortedFor subs index) :
    indexSortedFor subs (RegisterFreeSuballocation subs index i) := by
  unfold RegisterFreeSuballocation
  rw [if_pos h]
  by_cases he : index.isEmpty
  · rw [if_pos he]
    simp [indexSortedFor]
  · rw [if_neg he]
    unfold indexSortedFor at *
    rw [bfnl_eq_countP (idSize subs) (idSize subs i) index hs]
    unfold listInsertAt
    rw [List.pairwise_append]
    refine ⟨hs.sublist (List.take_sublist _ _), ?_, ?_⟩
    · rw [List.pairwise_cons]
      refine ⟨fun b hb => mem_drop_boundary _ _ _ hs b hb, ?_⟩
      exact hs.sublist (List.drop_sublist _ _)
    · intro a ha b hb
      have ha1 : idSize subs a < idSize subs i := mem_take_boundary _ _ _ hs a ha
      rcases List.mem_cons.mp hb with h1 | h1
      · rw [h1]; omega
      · have := mem_drop_boundary _ _ _ hs b h1
        omega

theorem unregister_small (subs : List VmaSuballocation) (index : List Nat) (i : Nat)
    (h : idSize subs i < VMA_MIN_FREE_SUBALLOCATION_SIZE_TO_REGISTER) :
    UnregisterFreeSuballocation subs index i = index := by
  unfold UnregisterFreeSuballocation
  rw [if_neg (by omega)]

theorem unregister_eq_removeFirst (subs : List VmaSuballocation) (index : List Nat)
    (i : Nat) (h : VMA_MIN_FREE_SUBALLOCATION_SIZE_TO_REGISTER ≤ idSize subs i)
    (hs : indexSortedFor subs index) :
    UnregisterFreeSuballocation subs index i = removeFirst i index := by
  unfold UnregisterFreeSuballocation
  rw [if_pos h]
  unfold indexSortedFor at hs
  rw [bfnl_eq_countP (idSize subs) (idSize subs i) index hs]
  have hnot : i ∉ index.take (index.countP (fun j => decide (idSize subs j < idSize subs i))) := by
    intro hm
    exact absurd (mem_take_boundary _ _ _ hs i hm) (lt_irrefl _)
  rw [← removeFirst_append_of_not_mem i _ _ hnot, List.take_append_drop]

theorem unregister_sorted (subs : List VmaSuballocation) (index : List Nat) (i : Nat)
    (hs : indexSortedFor subs index) :
    indexSortedFor subs (UnregisterFreeSuballocation subs index i) := by
  by_cases h : VMA_MIN_FREE_SUBALLOCATION_SIZE_TO_REGISTER ≤ idSize subs i
  · rw [unregister_eq_removeFirst subs index i h hs]
    exact hs.sublist (removeFirst_sublist i index)
  · rw [unregister_small subs index i (by omega)]
    exact hs

theorem indexSortedFor_congr (subs subs' : List VmaSuballocation) (index : List Nat)
    (h : ∀ j ∈ index, idSize subs' j = idSize subs j)
    (hs : indexSortedFor subs index) : indexSortedFor subs' index := by
  unfold indexSortedFor at *
  exact hs.imp_of_mem (fun ha hb hr => by rw [h _ ha, h _ hb]; exact hr)

/-! ## Shape lemmas for FreeSuballocation -/

theorem decomp_of_getElem? (l : List α) (p : Nat) (x : α) (h : l[p]? = some x) :
    ∃ B A, l = B ++ x :: A ∧ B.length = p := by
  induction l generalizing p with
  | nil => simp at h
  | cons a t ih =>
    cases p with
    | zero =>
      simp only [List.getElem?_cons_zero, Option.some_inj] at h
      exact ⟨[], t, by simp [h], rfl⟩
    | succ q =>
      obtain ⟨B, A, h1, h2⟩ := ih q (by simpa using h)
      exact ⟨a :: B, A, by simp [h1], by simp [h2]⟩

theorem getElem_append_len (B : List α) (x : α) (A : List α)
    (h : B.length < (B ++ x :: A).length) : (B ++ x :: A)[B.length] = x := by
  have h2 := getElem?_append_len B x A
  rw [List.getElem?_eq_getElem h] at h2
  exact Option.some_inj.mp h2

theorem freeSubAt_noMerge (m : VmaBlockMetadata) (p : Nat)
    (cur : VmaSuballocation) (B A : List VmaSuballocation)
    (hm : m.m_Suballocations = B ++ cur :: A) (hlen : B.length = p)
    (hnext : ∀ nx ∈ A.head?, nx.stype ≠ .free)
    (hprev : ∀ pv ∈ B.getLast?, pv.stype ≠ .free) :
    m.FreeSuballocationAt p =
      ({ m_Size := m.m_Size, m_FreeCount := m.m_FreeCount + 1,
         m_SumFreeSize := m.m_SumFreeSize + cur.size,
         m_Suballocations := B ++ { cur with stype := .free, hAllocation := none } :: A,
         m_FreeSuballocationsBySize := RegisterFreeSuballocation
           (B ++ { cur with stype := .free, hAllocation := none } :: A)
           m.m_FreeSuballocationsBySize cur.nid,
         nextId := m.nextId }, p) := by
  subst hlen
  unfold VmaBlockMetadata.FreeSuballocationAt
  rw [hm, getElem?_append_len]
  simp only [listSetAt_append, getElem?_append_len_succ, getElem?_append_len]
  have hmn : (match A[0]? with
      | some nx => nx.stype == VmaSuballocationType.free
      | none => false) = false := by
    cases hA : A with
    | nil => simp
    | cons nx A2 =>
      have := hnext nx (by simp [hA])
      simpa using this
  rw [hmn]
  cases hB : B with
  | nil =>
    subst hB
    simp
  | cons b0 B0 =>
    rw [← hB]
    have hBlen : 0 < B.length := by rw [hB]; simp
    obtain ⟨B', pv, hB'⟩ := (List.eq_nil_or_concat B).resolve_left
      (by rw [hB]; simp)
    rw [List.concat_eq_append] at hB'
    have hpv : pv.stype ≠ .free := by
      refine hprev pv ?_
      rw [hB', List.getLast?_append]
      simp
    have hget : (B ++ ({ cur with stype := .free, hAllocation := none } : VmaSuballocation) :: A)[B.length - 1]? = some pv := by
      rw [getElem?_append_lt _ _ _ (by omega), hB']
      have hl : (B' ++ [pv]).length - 1 = B'.length := by simp
      rw [hl]
      exact getElem?_append_len B' pv []
    rw [hget]
    have hmp : (decide (0 < B.length) &&
        (pv.stype == VmaSuballocationType.free)) = false := by
      simp [hpv]
    simp only [hmp]
    simp [getElem_append_len]

theorem freeSubAt_mergeNext (m : VmaBlockMetadata) (p : Nat)
    (cur nx : VmaSuballocation) (B A2 : List VmaSuballocation)
    (hm : m.m_Suballocations = B ++ cur :: nx :: A2) (hlen : B.length = p)
    (hnx : nx.stype = .free)
    (hprev : ∀ pv ∈ B.getLast?, pv.stype ≠ .free) :
    m.FreeSuballocationAt p =
      ({ m_Size := m.m_Size, m_FreeCount := m.m_FreeCount,
         m_SumFreeSize := m.m_SumFreeSize + cur.size,
         m_Suballocations := B ++
           { cur with size := cur.size + nx.size, stype := .free, hAllocation := none } :: A2,
         m_FreeSuballocationsBySize := RegisterFreeSuballocation
           (B ++ { cur with size := cur.size + nx.size, stype := .free, hAllocation := none } :: A2)
           (UnregisterFreeSuballocation
             (B ++ { cur with stype := .free, hAllocation := none } :: nx :: A2)
             m.m_FreeSuballocationsBySize nx.nid)
           cur.nid,
         nextId := m.nextId }, p) := by
  subst hlen
  unfold VmaBlockMetadata.FreeSuballocationAt
  rw [hm, getElem?_append_len]
  simp only [listSetAt_append, getElem?_append_len_succ, getElem?_append_len]
  have hb : (nx.stype == VmaSuballocationType.free) = true := by simpa using hnx
  simp only [List.getElem?_cons_zero, hb]
  simp only [listSetAt_append, listEraseAt_append_succ]
  cases hB : B with
  | nil =>
    subst hB
    simp [Nat.add_sub_cancel]
  | cons b0 B0 =>
    rw [← hB]
    obtain ⟨B', pv, hB'⟩ := (List.eq_nil_or_concat B).resolve_left
      (by rw [hB]; simp)
    rw [List.concat_eq_append] at hB'
    have hpv : pv.stype ≠ .free := by
      refine hprev pv ?_
      rw [hB', List.getLast?_append]
      simp
    have hget : (B ++ ({ cur with stype := .free, hAllocation := none } : VmaSuballocation) :: nx :: A2)[B.length - 1]? = some pv := by
      rw [getElem?_append_lt _ _ _ (by rw [hB']; simp), hB']
      have hl : (B' ++ [pv]).length - 1 = B'.length := by simp
      rw [hl]
      exact getElem?_append_len B' pv []
    rw [hget]
    have hmp : (decide (0 < B.length) &&
        (pv.stype == VmaSuballocationType.free)) = false := by
      simp [hpv]
    simp only [hmp]
    simp [getElem_append_len, Nat.add_sub_cancel]

theorem freeSubAt_mergePrev (m : VmaBlockMetadata) (p : Nat)
    (pv cur : VmaSuballocation) (B' A : List VmaSuballocation)
    (hm : m.m_Suballocations = B' ++ pv :: cur :: A) (hlen : B'.length + 1 = p)
    (hpv : pv.stype = .free)
    (hnext : ∀ nx ∈ A.head?, nx.stype ≠ .free) :
    m.FreeSuballocationAt p =
      ({ m_Size := m.m_Size, m_FreeCount := m.m_FreeCount,
         m_SumFreeSize := m.m_SumFreeSize + cur.size,
         m_Suballocations := B' ++ { pv with size := pv.size + cur.size } :: A,
         m_FreeSuballocationsBySize := RegisterFreeSuballocation
           (B' ++ { pv with size := pv.size + cur.size } :: A)
           (UnregisterFreeSuballocation
             (B' ++ pv :: { cur with stype := .free, hAllocation := none } :: A)
             m.m_FreeSuballocationsBySize pv.nid)
           pv.nid,
         nextId := m.nextId }, p - 1) := by
  subst hlen
  unfold VmaBlockMetadata.FreeSuballocationAt
  have hp : (B' ++ pv :: cur :: A)[B'.length + 1]? = some cur := by
    rw [getElem?_append_len_succ]
    simp
  rw [hm, hp]
  have hset : listSetAt (B'.length + 1)
      ({ cur with stype := .free, hAllocation := none }) (B' ++ pv :: cur :: A)
      = B' ++ pv :: { cur with stype := .free, hAllocation := none } :: A := by
    have := listSetAt_append (B' ++ [pv])
      cur ({ cur with stype := .free, hAllocation := none }) A
    simpa using this
  simp only [hset]
  have hnx2 : (B' ++ pv :: ({ cur with stype := .free, hAllocation := none } : VmaSuballocation) :: A)[B'.length + 1 + 1]? = A[0]? := by
    have := getElem?_append_len_succ (B' ++ [pv])
      ({ cur with stype := .free, hAllocation := none }) A
    simpa using this
  rw [hnx2]
  have hmn : (match A[0]? with
      | some nx => nx.stype == VmaSuballocationType.free
      | none => false) = false := by
    cases hA : A with
    | nil => simp
    | cons nx A3 =>
      have := hnext nx (by simp [hA])
      simpa using this
  rw [hmn]
  have hgetpv : (B' ++ pv :: ({ cur with stype := .free, hAllocation := none } : VmaSuballocation) :: A)[B'.length + 1 - 1]? = some pv := by
    simp only [Nat.add_sub_cancel]
    exact getElem?_append_len B' pv _
  rw [hgetpv]
  have hbpv : (pv.stype == VmaSuballocationType.free) = true := by simpa using hpv
  have hmp : (decide (0 < B'.length + 1) && (pv.stype == VmaSuballocationType.free)) = true := by
    simp [hbpv]
  simp only [hmp]
  have hgetcur : (B' ++ pv :: ({ cur with stype := .free, hAllocation := none } : VmaSuballocation) :: A)[B'.length + 1]? = some ({ cur with stype := .free, hAllocation := none } : VmaSuballocation) := by
    rw [getElem?_append_len_succ]
    simp
  have hset2 : listSetAt (B'.length + 1 - 1)
      ({ pv with size := pv.size + ({ cur with stype := .free, hAllocation := none } : VmaSuballocation).size })
      (B' ++ pv :: ({ cur with stype := .free, hAllocation := none } : VmaSuballocation) :: A)
      = B' ++ { pv with size := pv.size + cur.size } :: ({ cur with stype := .free, hAllocation := none } : VmaSuballocation) :: A := by
    simp only [Nat.add_sub_cancel]
    exact listSetAt_append B' pv _ _
  have herase : listEraseAt (B'.length + 1)
      (B' ++ ({ pv with size := pv.size + cur.size } : VmaSuballocation) :: ({ cur with stype := .free, hAllocation := none } : VmaSuballocation) :: A)
      = B' ++ { pv with size := pv.size + cur.size } :: A :=
    listEraseAt_append_succ B' _ _ A
  simp only [hgetpv, hgetcur, hset2, herase]
  simp [Nat.add_sub_cancel]

theorem freeSubAt_mergeBoth (m : VmaBlockMetadata) (p : Nat)
    (pv cur nx : VmaSuballocation) (B' A2 : List VmaSuballocation)
    (hm : m.m_Suballocations = B' ++ pv :: cur :: nx :: A2)
    (hlen : B'.length + 1 = p)
    (hpv : pv.stype = .free) (hnx : nx.stype = .free) :
    m.FreeSuballocationAt p =
      ({ m_Size := m.m_Size, m_FreeCount := m.m_FreeCount - 1,
         m_SumFreeSize := m.m_SumFreeSize + cur.size,
         m_Suballocations := B' ++
           { pv with size := pv.size + (cur.size + nx.size) } :: A2,
         m_FreeSuballocationsBySize := RegisterFreeSuballocation
           (B' ++ { pv with size := pv.size + (cur.size + nx.size) } :: A2)
           (UnregisterFreeSuballocation
             (B' ++ pv :: { cur with size := cur.size + nx.size, stype := .free, hAllocation := none } :: A2)
             (UnregisterFreeSuballocation
               (B' ++ pv :: { cur with stype := .free, hAllocation := none } :: nx :: A2)
               m.m_FreeSuballocationsBySize nx.nid)
             pv.nid)
           pv.nid,
         nextId := m.nextId }, p - 1) := by
  subst hlen
  unfold VmaBlockMetadata.FreeSuballocationAt
  have hp : (B' ++ pv :: cur :: nx :: A2)[B'.length + 1]? = some cur := by
    rw [getElem?_append_len_succ]
    simp
  rw [hm, hp]
  have hset : listSetAt (B'.length + 1)
      ({ cur with stype := .free, hAllocation := none }) (B' ++ pv :: cur :: nx :: A2)
      = B' ++ pv :: { cur with stype := .free, hAllocation := none } :: nx :: A2 := by
    have := listSetAt_append (B' ++ [pv])
      cur ({ cur with stype := .free, hAllocation := none }) (nx :: A2)
    simpa using this
  simp only [hset]
  have hnx2 : (B' ++ pv :: ({ cur with stype := .free, hAllocation := none } : VmaSuballocation) :: nx :: A2)[B'.length + 1 + 1]? = some nx := by
    have := getElem?_append_len_succ (B' ++ [pv])
      ({ cur with stype := .free, hAllocation := none }) (nx :: A2)
    simpa using this
  rw [hnx2]
  have hbnx : (nx.stype == VmaSuballocationType.free) = true := by simpa using hnx
  simp only [hbnx]
  have hgetcur : (B' ++ pv :: ({ cur with stype := .free, hAllocation := none } : VmaSuballocation) :: nx :: A2)[B'.length + 1]? = some ({ cur with stype := .free, hAllocation := none } : VmaSuballocation) := by
    rw [getElem?_append_len_succ]
    simp
  simp only [hgetcur]
  have hsetM : listSetAt (B'.length + 1)
      ({ cur with size := cur.size + nx.size, stype := .free, hAllocation := none })
      (B' ++ pv :: ({ cur with stype := .free, hAllocation := none } : VmaSuballocation) :: nx :: A2)
      = B' ++ pv :: ({ cur with size := cur.size + nx.size, stype := .free, hAllocation := none } : VmaSuballocation) :: nx :: A2 := by
    have := listSetAt_append (B' ++ [pv])
      ({ cur with stype := .free, hAllocation := none } : VmaSuballocation)
      ({ cur with size := cur.size + nx.size, stype := .free, hAllocation := none }) (nx :: A2)
    simpa using this
  have heraseNx : listEraseAt (B'.length + 1 + 1)
      (B' ++ pv :: ({ cur with size := cur.size + nx.size, stype := .free, hAllocation := none } : VmaSuballocation) :: nx :: A2)
      = B' ++ pv :: ({ cur with size := cur.size + nx.size, stype := .free, hAllocation := none } : VmaSuballocation) :: A2 := by
    have := listEraseAt_append_succ (B' ++ [pv])
      ({ cur with size := cur.size + nx.size, stype := .free, hAllocation := none } : VmaSuballocation)
      nx A2
    simpa using this
  have hgetpv : (B' ++ pv :: ({ cur with size := cur.size + nx.size, stype := .free, hAllocation := none } : VmaSuballocation) :: A2)[B'.length + 1 - 1]? = some pv := by
    simp only [Nat.add_sub_cancel]
    exact getElem?_append_len B' pv _
  have hgetpv0 : (B' ++ pv :: ({ cur with stype := .free, hAllocation := none } : VmaSuballocation) :: nx :: A2)[B'.length + 1 - 1]? = some pv := by
    simp only [Nat.add_sub_cancel]
    exact getElem?_append_len B' pv _
  have hbpv : (pv.stype == VmaSuballocationType.free) = true := by simpa using hpv
  have hgetcurM : (B' ++ pv :: ({ cur with size := cur.size + nx.size, stype := .free, hAllocation := none } : VmaSuballocation) :: A2)[B'.length + 1]? = some ({ cur with size := cur.size + nx.size, stype := .free, hAllocation := none } : VmaSuballocation) := by
    rw [getElem?_append_len_succ]
    simp
  have hset2 : listSetAt (B'.length + 1 - 1)
      ({ pv with size := pv.size + ({ cur with size := cur.size + nx.size, stype := .free, hAllocation := none } : VmaSuballocation).size })
      (B' ++ pv :: ({ cur with size := cur.size + nx.size, stype := .free, hAllocation := none } : VmaSuballocation) :: A2)
      = B' ++ ({ pv with size := pv.size + (cur.size + nx.size) } : VmaSuballocation) :: ({ cur with size := cur.size + nx.size, stype := .free, hAllocation := none } : VmaSuballocation) :: A2 := by
    simp only [Nat.add_sub_cancel]
    exact listSetAt_append B' pv _ _
  have herase2 : listEraseAt (B'.length + 1)
      (B' ++ ({ pv with size := pv.size + (cur.size + nx.size) } : VmaSuballocation) :: ({ cur with size := cur.size + nx.size, stype := .free, hAllocation := none } : VmaSuballocation) :: A2)
      = B' ++ ({ pv with size := pv.size + (cur.size + nx.size) } : VmaSuballocation) :: A2 :=
    listEraseAt_append_succ B' _ _ A2
  simp only [hsetM, heraseNx, hgetpv, hgetpv0, hbpv, hgetcurM, hset2, herase2]
  simp [Nat.add_sub_cancel]

/-! ## Index maintenance -/

theorem nid_inj_of_nodup (l : List VmaSuballocation)
    (hd : (l.map (fun n => n.nid)).Nodup) {a b : VmaSuballocation}
    (ha : a ∈ l) (hb : b ∈ l) (h : a.nid = b.nid) : a = b := by
  have h1 := findByNid_of_mem_nodup l a ha hd
  have h2 := findByNid_of_mem_nodup l b hb hd
  rw [h] at h1
  rw [h1] at h2
  exact Option.some_inj.mp h2

theorem regNids_ne_of_used (subs : List VmaSuballocation)
    (hnodup : (subs.map (fun n => n.nid)).Nodup) {x : VmaSuballocation}
    (hx : x ∈ subs) (hused : x.stype ≠ .free) :
    ∀ j ∈ regNids subs, j ≠ x.nid := by
  intro j hj hjx
  obtain ⟨n, hn, hnid, hfree, _⟩ := (mem_regNids_iff subs j).mp hj
  have := nid_inj_of_nodup subs hnodup hn hx (by rw [hnid, hjx])
  rw [this] at hfree
  exact hused hfree

theorem regNids_ne_of_small (subs : List VmaSuballocation)
    (hnodup : (subs.map (fun n => n.nid)).Nodup) {x : VmaSuballocation}
    (hx : x ∈ subs)
    (hsmall : x.size < VMA_MIN_FREE_SUBALLOCATION_SIZE_TO_REGISTER) :
    ∀ j ∈ regNids subs, j ≠ x.nid := by
  intro j hj hjx
  obtain ⟨n, hn, hnid, _, hsz⟩ := (mem_regNids_iff subs j).mp hj
  have := nid_inj_of_nodup subs hnodup hn hx (by rw [hnid, hjx])
  rw [this] at hsz
  omega

theorem unregister_drop (subs : List VmaSuballocation) (x : VmaSuballocation)
    (idx R : List Nat)
    (hsizeKey : idSize subs x.nid = x.size)
    (hsorted : indexSortedFor subs idx)
    (hnodup : idx.Nodup)
    (hR : VMA_MIN_FREE_SUBALLOCATION_SIZE_TO_REGISTER ≤ x.size →
      idx.Perm (x.nid :: R))
    (hRsmall : x.size < VMA_MIN_FREE_SUBALLOCATION_SIZE_TO_REGISTER →
      x.nid ∉ idx ∧ idx.Perm R) :
    (UnregisterFreeSuballocation subs idx x.nid).Perm R ∧
    indexSortedFor subs (UnregisterFreeSuballocation subs idx x.nid) ∧
    x.nid ∉ UnregisterFreeSuballocation subs idx x.nid ∧
    (UnregisterFreeSuballocation subs idx x.nid).Nodup ∧
    (∀ j ∈ UnregisterFreeSuballocation subs idx x.nid, j ∈ idx) := by
  by_cases hbig : VMA_MIN_FREE_SUBALLOCATION_SIZE_TO_REGISTER ≤ x.size
  · have hmem : x.nid ∈ idx := (hR hbig).mem_iff.mpr (List.mem_cons_self _ _)
    have heq : UnregisterFreeSuballocation subs idx x.nid = removeFirst x.nid idx :=
      unregister_eq_removeFirst subs idx x.nid (by omega) hsorted
    rw [heq]
    have hperm1 : idx.Perm (x.nid :: removeFirst x.nid idx) :=
      removeFirst_perm x.nid idx hmem
    have hpermR : (x.nid :: removeFirst x.nid idx).Perm (x.nid :: R) :=
      hperm1.symm.trans (hR hbig)
    refine ⟨hpermR.cons_inv, hsorted.sublist (removeFirst_sublist _ _),
      not_mem_removeFirst_of_nodup _ _ hnodup,
      hnodup.sublist (removeFirst_sublist _ _),
      fun j hj => mem_of_mem_removeFirst hj⟩
  · have heq : UnregisterFreeSuballocation subs idx x.nid = idx :=
      unregister_small subs idx x.nid (by omega)
    rw [heq]
    exact ⟨(hRsmall (by omega)).2, hsorted, (hRsmall (by omega)).1, hnodup,
      fun j hj => hj⟩

theorem register_add (subs : List VmaSuballocation) (y : VmaSuballocation)
    (idx2 : List Nat)
    (hsizeKey : idSize subs y.nid = y.size)
    (hsorted : indexSortedFor subs idx2) :
    (VMA_MIN_FREE_SUBALLOCATION_SIZE_TO_REGISTER ≤ y.size →
      (RegisterFreeSuballocation subs idx2 y.nid).Perm (y.nid :: idx2)) ∧
    (y.size < VMA_MIN_FREE_SUBALLOCATION_SIZE_TO_REGISTER →
      RegisterFreeSuballocation subs idx2 y.nid = idx2) ∧
    indexSortedFor subs (RegisterFreeSuballocation subs idx2 y.nid) := by
  by_cases hbig : VMA_MIN_FREE_SUBALLOCATION_SIZE_TO_REGISTER ≤ y.size
  · refine ⟨fun _ => register_perm subs idx2 y.nid (by omega), fun h => by omega, ?_⟩
    exact register_sorted subs idx2 y.nid (by omega) hsorted
  · have heq : RegisterFreeSuballocation subs idx2 y.nid = idx2 :=
      register_small subs idx2 y.nid (by omega)
    exact ⟨fun h => by omega, fun _ => heq, by rw [heq]; exact hsorted⟩

/-! ## FreeSuballocation preserves the invariant -/

theorem map_nid_samesub (B A : List VmaSuballocation) (x x' : VmaSuballocation)
    (h : x'.nid = x.nid) :
    (B ++ x' :: A).map (fun n => n.nid) = (B ++ x :: A).map (fun n => n.nid) := by
  simp [h]

theorem metaInv_freeSubAt_nn (m : VmaBlockMetadata) (p : Nat)
    (cur : VmaSuballocation) (B A : List VmaSuballocation)
    (hm : m.m_Suballocations = B ++ cur :: A) (hlen : B.length = p)
    (hused : cur.stype ≠ .free) (hinv : MetaInv m)
    (hnext : ∀ nx ∈ A.head?, nx.stype ≠ .free)
    (hprev : ∀ pv ∈ B.getLast?, pv.stype ≠ .free) :
    MetaInv (m.FreeSuballocationAt p).1 ∧
    (m.FreeSuballocationAt p).1.m_Size = m.m_Size ∧
    usedCountOf (m.FreeSuballocationAt p).1.m_Suballocations
      = usedCountOf m.m_Suballocations - 1 ∧
    usedSizeOf (m.FreeSuballocationAt p).1.m_Suballocations
      = usedSizeOf m.m_Suballocations - cur.size := by
  have hshape := freeSubAt_noMerge m p cur B A hm hlen hnext hprev
  rw [hshape]
  dsimp only
  set curF : VmaSuballocation := { cur with stype := .free, hAllocation := none } with hcurF
  have hnidF : curF.nid = cur.nid := rfl
  have hszF : curF.size = cur.size := rfl
  have hnodup' : ((B ++ curF :: A).map (fun n => n.nid)).Nodup := by
    rw [map_nid_samesub B A cur curF hnidF, ← hm]
    exact hinv.nodup
  have hcurFmem : curF ∈ B ++ curF :: A := by simp
  have hidxnodup : m.m_FreeSuballocationsBySize.Nodup :=
    (hinv.indexPerm.nodup_iff).mpr (regNids_nodup _ (hm ▸ hinv.nodup))
  have hcongr : ∀ j, idSize (B ++ curF :: A) j = idSize (B ++ cur :: A) j :=
    fun j => idSize_middle_samesize B A cur curF hnidF hszF j
  have hsorted' : indexSortedFor (B ++ curF :: A) m.m_FreeSuballocationsBySize := by
    refine indexSortedFor_congr (B ++ cur :: A) _ _ (fun j _ => hcongr j) ?_
    rw [← hm]
    exact hinv.indexSorted
  have hkey : idSize (B ++ curF :: A) curF.nid = curF.size :=
    idSize_of_mem_nodup _ curF hcurFmem hnodup'
  have hreg := register_add (B ++ curF :: A) curF m.m_FreeSuballocationsBySize hkey hsorted'
  have hregOld : regNids (B ++ cur :: A) = regNids B ++ regNids A := by
    rw [regNids_append, regNids_cons_unreg cur A (fun hc => hused hc.1)]
  have hpermOld : m.m_FreeSuballocationsBySize.Perm (regNids B ++ regNids A) := by
    rw [← hregOld, ← hm]
    exact hinv.indexPerm
  constructor
  · constructor
    case nonnil => simp
    case contig =>
      have h0 := hinv.contig
      rw [hm, contigFrom_append] at h0
      rw [contigFrom_append]
      refine ⟨h0.1, ?_⟩
      have h1 := h0.2
      simp only [contigFrom] at h1 ⊢
      exact ⟨h1.1, h1.2⟩
    case total =>
      have h0 := hinv.total
      rw [hm, sizesSum_append, sizesSum_cons] at h0
      rw [sizesSum_append, sizesSum_cons]
      simpa using h0
    case noAdj =>
      have h0 := hinv.noAdj
      rw [hm] at h0
      unfold noTwoAdjFree at h0 ⊢
      rw [List.chain'_append] at h0 ⊢
      obtain ⟨hB, hcurA, hlink⟩ := h0
      rw [List.chain'_cons'] at hcurA ⊢
      refine ⟨hB, ⟨?_, hcurA.2⟩, ?_⟩
      · intro b hb hcontra
        exact hnext b hb hcontra.2
      · intro x hx y hy hcontra
        exact hprev x hx hcontra.1
    case freeIff =>
      intro n hn
      rcases List.mem_append.mp hn with h1 | h1
      · exact hinv.freeIff n (by rw [hm]; exact List.mem_append_left _ h1)
      · rcases List.mem_cons.mp h1 with h2 | h2
        · subst h2; simp [hcurF]
        · exact hinv.freeIff n (by rw [hm]; exact List.mem_append_right _ (List.mem_cons_of_mem _ h2))
    case hmatch =>
      intro n hn hh hhh
      rcases List.mem_append.mp hn with h1 | h1
      · exact hinv.hmatch n (by rw [hm]; exact List.mem_append_left _ h1) hh hhh
      · rcases List.mem_cons.mp h1 with h2 | h2
        · subst h2; simp [hcurF] at hhh
        · exact hinv.hmatch n (by rw [hm]; exact List.mem_append_right _ (List.mem_cons_of_mem _ h2)) hh hhh
    case fcount =>
      dsimp only
      have h0 := hinv.fcount
      rw [hm, freeCountOf_append, freeCountOf_cons_used cur A hused] at h0
      have hNew : freeCountOf (B ++ curF :: A)
          = freeCountOf B + (freeCountOf A + 1) := by
        rw [freeCountOf_append, freeCountOf_cons_free curF A (by simp [hcurF])]
      rw [hNew]
      omega
    case fsum =>
      dsimp only
      have h0 := hinv.fsum
      rw [hm, freeSizeOf_append, freeSizeOf_cons_used cur A hused] at h0
      have hNew : freeSizeOf (B ++ curF :: A)
          = freeSizeOf B + (cur.size + freeSizeOf A) := by
        rw [freeSizeOf_append, freeSizeOf_cons_free curF A (by simp [hcurF])]
      rw [hNew]
      omega
    case nodup => exact hnodup'
    case idbound =>
      intro n hn
      rcases List.mem_append.mp hn with h1 | h1
      · exact hinv.idbound n (by rw [hm]; exact List.mem_append_left _ h1)
      · rcases List.mem_cons.mp h1 with h2 | h2
        · subst h2
          simpa [hcurF] using hinv.idbound cur (by rw [hm]; simp)
        · exact hinv.idbound n (by rw [hm]; exact List.mem_append_right _ (List.mem_cons_of_mem _ h2))
    case indexPerm =>
      by_cases hbig : VMA_MIN_FREE_SUBALLOCATION_SIZE_TO_REGISTER ≤ curF.size
      · have h1 := hreg.1 hbig
        have hregNew : regNids (B ++ curF :: A) = regNids B ++ curF.nid :: regNids A := by
          rw [regNids_append, regNids_cons_reg curF A (by simp [hcurF]) hbig]
        rw [hregNew]
        refine h1.trans ?_
        refine (hpermOld.cons curF.nid).trans ?_
        exact List.perm_middle.symm
      · have h1 := hreg.2.1 (by omega)
        rw [h1]
        have hregNew : regNids (B ++ curF :: A) = regNids B ++ regNids A := by
          rw [regNids_append, regNids_cons_unreg curF A (fun hc => hbig hc.2)]
        rw [hregNew]
        exact hpermOld
    case indexSorted => exact hreg.2.2
  · refine ⟨rfl, ?_, ?_⟩
    · have hOld : usedCountOf (B ++ cur :: A)
          = usedCountOf B + (usedCountOf A + 1) := by
        rw [usedCountOf_append, usedCountOf_cons_used cur A hused]
      have hNew : usedCountOf (B ++ curF :: A)
          = usedCountOf B + usedCountOf A := by
        rw [usedCountOf_append, usedCountOf_cons_free curF A (by simp [hcurF])]
      rw [hm, hOld, hNew]
      omega
    · have hOld : usedSizeOf (B ++ cur :: A)
          = usedSizeOf B + (cur.size + usedSizeOf A) := by
        rw [usedSizeOf_append, usedSizeOf_cons_used cur A hused]
      have hNew : usedSizeOf (B ++ curF :: A)
          = usedSizeOf B + usedSizeOf A := by
        rw [usedSizeOf_append, usedSizeOf_cons_free curF A (by simp [hcurF])]
      rw [hm, hOld, hNew]
      omega

theorem metaInv_freeSubAt_n (m : VmaBlockMetadata) (p : Nat)
    (cur nx : VmaSuballocation) (B A2 : List VmaSuballocation)
    (hm : m.m_Suballocations = B ++ cur :: nx :: A2) (hlen : B.length = p)
    (hused : cur.stype ≠ .free) (hinv : MetaInv m)
    (hnx : nx.stype = .free)
    (hprev : ∀ pv ∈ B.getLast?, pv.stype ≠ .free) :
    MetaInv (m.FreeSuballocationAt p).1 ∧
    (m.FreeSuballocationAt p).1.m_Size = m.m_Size ∧
    usedCountOf (m.FreeSuballocationAt p).1.m_Suballocations
      = usedCountOf m.m_Suballocations - 1 ∧
    usedSizeOf (m.FreeSuballocationAt p).1.m_Suballocations
      = usedSizeOf m.m_Suballocations - cur.size := by
  have hshape := freeSubAt_mergeNext m p cur nx B A2 hm hlen hnx hprev
  rw [hshape]
  dsimp only
  set curF : VmaSuballocation := { cur with stype := .free, hAllocation := none }
    with hcurF
  set curM : VmaSuballocation :=
    { cur with size := cur.size + nx.size, stype := .free, hAllocation := none }
    with hcurM
  set idx := m.m_FreeSuballocationsBySize with hidx
  set subs1 : List VmaSuballocation := B ++ curF :: nx :: A2 with hsubs1
  set subs' : List VmaSuballocation := B ++ curM :: A2 with hsubs'
  have hnodupSubs : ((B ++ cur :: nx :: A2).map (fun n => n.nid)).Nodup := by
    rw [← hm]; exact hinv.nodup
  have hnodup1 : (subs1.map (fun n => n.nid)).Nodup := by
    rw [hsubs1, map_nid_samesub B (nx :: A2) cur curF rfl]
    exact hnodupSubs
  have hsub' : List.Sublist (subs'.map (fun n => n.nid))
      ((B ++ cur :: nx :: A2).map (fun n => n.nid)) := by
    rw [hsubs']
    simp only [List.map_append, List.map_cons]
    refine List.Sublist.append_left ?_ _
    show List.Sublist (cur.nid :: A2.map (fun n => n.nid))
      (cur.nid :: nx.nid :: A2.map (fun n => n.nid))
    exact (List.sublist_cons_self nx.nid _).cons₂ cur.nid
  have hnodup' : (subs'.map (fun n => n.nid)).Nodup := hnodupSubs.sublist hsub'
  have hidxnodup : idx.Nodup :=
    (hinv.indexPerm.nodup_iff).mpr (regNids_nodup _ (hm ▸ hinv.nodup))
  have hsorted1 : indexSortedFor subs1 idx := by
    refine indexSortedFor_congr (B ++ cur :: nx :: A2) _ _ ?_ (by rw [← hm]; exact hinv.indexSorted)
    intro j _
    exact idSize_middle_samesize B (nx :: A2) cur curF rfl rfl j
  have hnxmem1 : nx ∈ subs1 := by rw [hsubs1]; simp
  have hkeynx : idSize subs1 nx.nid = nx.size :=
    idSize_of_mem_nodup subs1 nx hnxmem1 hnodup1
  have hcurmem : cur ∈ B ++ cur :: nx :: A2 := by simp
  have hnxmem : nx ∈ B ++ cur :: nx :: A2 := by simp
  have hRbig : VMA_MIN_FREE_SUBALLOCATION_SIZE_TO_REGISTER ≤ nx.size →
      idx.Perm (nx.nid :: (regNids B ++ regNids A2)) := by
    intro hbig
    have hregOld : regNids (B ++ cur :: nx :: A2)
        = regNids B ++ nx.nid :: regNids A2 := by
      rw [regNids_append, regNids_cons_unreg cur _ (fun hc => hused hc.1),
        regNids_cons_reg nx A2 hnx hbig]
    have h1 : idx.Perm (regNids B ++ nx.nid :: regNids A2) := by
      rw [← hregOld, ← hm] at *
      exact hinv.indexPerm
    exact h1.trans List.perm_middle
  have hRsmall : nx.size < VMA_MIN_FREE_SUBALLOCATION_SIZE_TO_REGISTER →
      nx.nid ∉ idx ∧ idx.Perm (regNids B ++ regNids A2) := by
    intro hsmall
    have hregOld : regNids (B ++ cur :: nx :: A2) = regNids B ++ regNids A2 := by
      rw [regNids_append, regNids_cons_unreg cur _ (fun hc => hused hc.1),
        regNids_cons_unreg nx A2 (fun hc => by omega)]
    constructor
    · intro hmem
      have h2 : nx.nid ∈ regNids m.m_Suballocations :=
        hinv.indexPerm.mem_iff.mp hmem
      rw [hm] at h2
      exact (regNids_ne_of_small _ hnodupSubs hnxmem hsmall nx.nid h2) rfl
    · rw [← hregOld, ← hm]
      exact hinv.indexPerm
  have hdrop := unregister_drop subs1 nx idx (regNids B ++ regNids A2)
    hkeynx hsorted1 hidxnodup hRbig hRsmall
  set idx2 := UnregisterFreeSuballocation subs1 idx nx.nid with hidx2
  obtain ⟨hidx2perm, hidx2sorted, hidx2nonx, hidx2nodup, hidx2sub⟩ := hdrop
  have hidx2ne : ∀ j ∈ idx2, j ≠ cur.nid ∧ j ≠ nx.nid := by
    intro j hj
    have hjidx := hidx2sub j hj
    have hjreg : j ∈ regNids m.m_Suballocations :=
      hinv.indexPerm.mem_iff.mp hjidx
    rw [hm] at hjreg
    refine ⟨regNids_ne_of_used _ hnodupSubs hcurmem hused j hjreg, ?_⟩
    intro hc
    exact hidx2nonx (hc ▸ hj)
  have hcongr2 : ∀ j ∈ idx2, idSize subs' j = idSize subs1 j := by
    intro j hj
    obtain ⟨hc, hn⟩ := hidx2ne j hj
    rw [hsubs', hsubs1]
    rw [idSize_middle_ne B A2 curM j hc, idSize_middle_ne B (nx :: A2) curF j hc]
    rw [idSize_middle_ne B A2 nx j hn]
  have hsorted2 : indexSortedFor subs' idx2 :=
    indexSortedFor_congr subs1 subs' idx2 hcongr2 hidx2sorted
  have hcurMmem : curM ∈ subs' := by rw [hsubs']; simp
  have hkeyM : idSize subs' curM.nid = curM.size :=
    idSize_of_mem_nodup subs' curM hcurMmem hnodup'
  have hreg := register_add subs' curM idx2 hkeyM hsorted2
  refine ⟨?_, rfl, ?_, ?_⟩
  · constructor
    case nonnil => simp [hsubs']
    case contig =>
      have h0 := hinv.contig
      rw [hm, contigFrom_append] at h0
      rw [hsubs', contigFrom_append]
      refine ⟨h0.1, ?_⟩
      have h1 := h0.2
      simp only [contigFrom] at h1 ⊢
      obtain ⟨ho, hnxo, hrest⟩ := h1
      refine ⟨ho, ?_⟩
      have : 0 + sizesSum B + cur.size + nx.size
          = 0 + sizesSum B + (cur.size + nx.size) := by omega
      rw [← this]
      exact hrest
    case total =>
      have h0 := hinv.total
      rw [hm, sizesSum_append, sizesSum_cons, sizesSum_cons] at h0
      rw [hsubs', sizesSum_append, sizesSum_cons]
      dsimp only
      omega
    case noAdj =>
      have h0 := hinv.noAdj
      rw [hm] at h0
      unfold noTwoAdjFree at h0 ⊢
      rw [List.chain'_append] at h0 ⊢
      obtain ⟨hB, hcurA, hlink⟩ := h0
      rw [List.chain'_cons'] at hcurA
      have hnxA2 := hcurA.2
      rw [List.chain'_cons'] at hnxA2
      refine ⟨hB, ?_, ?_⟩
      · rw [List.chain'_cons']
        refine ⟨?_, hnxA2.2⟩
        intro b hb hcontra
        exact (hnxA2.1 b hb) ⟨hnx, hcontra.2⟩
      · intro x hx y hy hcontra
        exact hprev x hx hcontra.1
    case freeIff =>
      intro n hn
      rw [hsubs'] at hn
      rcases List.mem_append.mp hn with h1 | h1
      · exact hinv.freeIff n (by rw [hm]; exact List.mem_append_left _ h1)
      · rcases List.mem_cons.mp h1 with h2 | h2
        · subst h2; simp [hcurM]
        · exact hinv.freeIff n (by
            rw [hm]
            refine List.mem_append_right _ ?_
            exact List.mem_cons_of_mem _ (List.mem_cons_of_mem _ h2))
    case hmatch =>
      intro n hn hh hhh
      rw [hsubs'] at hn
      rcases List.mem_append.mp hn with h1 | h1
      · exact hinv.hmatch n (by rw [hm]; exact List.mem_append_left _ h1) hh hhh
      · rcases List.mem_cons.mp h1 with h2 | h2
        · subst h2; simp [hcurM] at hhh
        · exact hinv.hmatch n (by
            rw [hm]
            refine List.mem_append_right _ ?_
            exact List.mem_cons_of_mem _ (List.mem_cons_of_mem _ h2)) hh hhh
    case fcount =>
      dsimp only
      have h0 := hinv.fcount
      rw [hm, freeCountOf_append, freeCountOf_cons_used cur _ hused,
        freeCountOf_cons_free nx A2 hnx] at h0
      have hNew : freeCountOf subs' = freeCountOf B + (freeCountOf A2 + 1) := by
        rw [hsubs', freeCountOf_append, freeCountOf_cons_free curM A2 (by simp [hcurM])]
      rw [hNew]
      omega
    case fsum =>
      dsimp only
      have h0 := hinv.fsum
      rw [hm, freeSizeOf_append, freeSizeOf_cons_used cur _ hused,
        freeSizeOf_cons_free nx A2 hnx] at h0
      have hNew : freeSizeOf subs'
          = freeSizeOf B + (cur.size + nx.size + freeSizeOf A2) := by
        rw [hsubs', freeSizeOf_append, freeSizeOf_cons_free curM A2 (by simp [hcurM])]
      rw [hNew]
      omega
    case nodup => exact hnodup'
    case idbound =>
      intro n hn
      rw [hsubs'] at hn
      rcases List.mem_append.mp hn with h1 | h1
      · exact hinv.idbound n (by rw [hm]; exact List.mem_append_left _ h1)
      · rcases List.mem_cons.mp h1 with h2 | h2
        · subst h2
          simpa [hcurM] using hinv.idbound cur (by rw [hm]; simp)
        · exact hinv.idbound n (by
            rw [hm]
            refine List.mem_append_right _ ?_
            exact List.mem_cons_of_mem _ (List.mem_cons_of_mem _ h2))
    case indexPerm =>
      by_cases hbig : VMA_MIN_FREE_SUBALLOCATION_SIZE_TO_REGISTER ≤ curM.size
      · have h1 := hreg.1 hbig
        have hregNew : regNids subs' = regNids B ++ curM.nid :: regNids A2 := by
          rw [hsubs', regNids_append, regNids_cons_reg curM A2 (by simp [hcurM]) hbig]
        rw [hregNew]
        refine h1.trans ?_
        refine (hidx2perm.cons curM.nid).trans ?_
        exact List.perm_middle.symm
      · have h1 := hreg.2.1 (by omega)
        rw [h1]
        have hregNew : regNids subs' = regNids B ++ regNids A2 := by
          rw [hsubs', regNids_append, regNids_cons_unreg curM A2 (fun hc => hbig hc.2)]
        rw [hregNew]
        exact hidx2perm
    case indexSorted => exact hreg.2.2
  · have hOld : usedCountOf (B ++ cur :: nx :: A2)
        = usedCountOf B + (usedCountOf A2 + 1) := by
      rw [usedCountOf_append, usedCountOf_cons_used cur _ hused,
        usedCountOf_cons_free nx A2 hnx]
    have hNew : usedCountOf subs' = usedCountOf B + usedCountOf A2 := by
      rw [hsubs', usedCountOf_append, usedCountOf_cons_free curM A2 (by simp [hcurM])]
    rw [hm, hOld, hNew]
    omega
  · have hOld : usedSizeOf (B ++ cur :: nx :: A2)
        = usedSizeOf B + (cur.size + usedSizeOf A2) := by
      rw [usedSizeOf_append, usedSizeOf_cons_used cur _ hused,
        usedSizeOf_cons_free nx A2 hnx]
    have hNew : usedSizeOf subs' = usedSizeOf B + usedSizeOf A2 := by
      rw [hsubs', usedSizeOf_append, usedSizeOf_cons_free curM A2 (by simp [hcurM])]
    rw [hm, hOld, hNew]
    omega

theorem metaInv_freeSubAt_p (m : VmaBlockMetadata) (p : Nat)
    (pv cur : VmaSuballocation) (B' A : List VmaSuballocation)
    (hm : m.m_Suballocations = B' ++ pv :: cur :: A) (hlen : B'.length + 1 = p)
    (hused : cur.stype ≠ .free) (hinv : MetaInv m)
    (hpv : pv.stype = .free)
    (hnext : ∀ nx ∈ A.head?, nx.stype ≠ .free) :
    MetaInv (m.FreeSuballocationAt p).1 ∧
    (m.FreeSuballocationAt p).1.m_Size = m.m_Size ∧
    usedCountOf (m.FreeSuballocationAt p).1.m_Suballocations
      = usedCountOf m.m_Suballocations - 1 ∧
    usedSizeOf (m.FreeSuballocationAt p).1.m_Suballocations
      = usedSizeOf m.m_Suballocations - cur.size := by
  have hshape := freeSubAt_mergePrev m p pv cur B' A hm hlen hpv hnext
  rw [hshape]
  dsimp only
  set curF : VmaSuballocation := { cur with stype := .free, hAllocation := none }
    with hcurF
  set pvM : VmaSuballocation := { pv with size := pv.size + cur.size } with hpvM
  set idx := m.m_FreeSuballocationsBySize with hidx
  set subs1 : List VmaSuballocation := B' ++ pv :: curF :: A with hsubs1
  set subs' : List VmaSuballocation := B' ++ pvM :: A with hsubs'
  have hpvnone : pv.hAllocation = none :=
    (hinv.freeIff pv (by rw [hm]; simp)).mp hpv
  have hnodupSubs : ((B' ++ pv :: cur :: A).map (fun n => n.nid)).Nodup := by
    rw [← hm]; exact hinv.nodup
  have hnodup1 : (subs1.map (fun n => n.nid)).Nodup := by
    have := map_nid_samesub (B' ++ [pv]) A cur curF rfl
    rw [hsubs1]
    have h1 : B' ++ pv :: curF :: A = (B' ++ [pv]) ++ curF :: A := by simp
    have h2 : B' ++ pv :: cur :: A = (B' ++ [pv]) ++ cur :: A := by simp
    rw [h1, this, ← h2]
    exact hnodupSubs
  have hsub' : List.Sublist (subs'.map (fun n => n.nid))
      ((B' ++ pv :: cur :: A).map (fun n => n.nid)) := by
    rw [hsubs']
    simp only [List.map_append, List.map_cons]
    refine List.Sublist.append_left ?_ _
    show List.Sublist (pv.nid :: A.map (fun n => n.nid))
      (pv.nid :: cur.nid :: A.map (fun n => n.nid))
    exact (List.sublist_cons_self cur.nid _).cons₂ pv.nid
  have hnodup' : (subs'.map (fun n => n.nid)).Nodup := hnodupSubs.sublist hsub'
  have hidxnodup : idx.Nodup :=
    (hinv.indexPerm.nodup_iff).mpr (regNids_nodup _ (hm ▸ hinv.nodup))
  have hsorted1 : indexSortedFor subs1 idx := by
    refine indexSortedFor_congr (B' ++ pv :: cur :: A) _ _ ?_ (by rw [← hm]; exact hinv.indexSorted)
    intro j _
    have := idSize_middle_samesize (B' ++ [pv]) A cur curF rfl rfl j
    have h1 : (B' ++ [pv]) ++ curF :: A = B' ++ pv :: curF :: A := by simp
    have h2 : (B' ++ [pv]) ++ cur :: A = B' ++ pv :: cur :: A := by simp
    rw [h1, h2] at this
    rw [hsubs1]
    exact this
  have hpvmem1 : pv ∈ subs1 := by rw [hsubs1]; simp
  have hkeypv : idSize subs1 pv.nid = pv.size :=
    idSize_of_mem_nodup subs1 pv hpvmem1 hnodup1
  have hcurmem : cur ∈ B' ++ pv :: cur :: A := by simp
  have hpvmem : pv ∈ B' ++ pv :: cur :: A := by simp
  have hRbig : VMA_MIN_FREE_SUBALLOCATION_SIZE_TO_REGISTER ≤ pv.size →
      idx.Perm (pv.nid :: (regNids B' ++ regNids A)) := by
    intro hbig
    have hregOld : regNids (B' ++ pv :: cur :: A)
        = regNids B' ++ pv.nid :: regNids A := by
      rw [regNids_append, regNids_cons_reg pv _ hpv hbig,
        regNids_cons_unreg cur A (fun hc => hused hc.1)]
    have h1 : idx.Perm (regNids B' ++ pv.nid :: regNids A) := by
      rw [← hregOld, ← hm]
      exact hinv.indexPerm
    exact h1.trans List.perm_middle
  have hRsmall : pv.size < VMA_MIN_FREE_SUBALLOCATION_SIZE_TO_REGISTER →
      pv.nid ∉ idx ∧ idx.Perm (regNids B' ++ regNids A) := by
    intro hsmall
    have hregOld : regNids (B' ++ pv :: cur :: A) = regNids B' ++ regNids A := by
      rw [regNids_append, regNids_cons_unreg pv _ (fun hc => by omega),
        regNids_cons_unreg cur A (fun hc => hused hc.1)]
    constructor
    · intro hmem
      have h2 : pv.nid ∈ regNids m.m_Suballocations :=
        hinv.indexPerm.mem_iff.mp hmem
      rw [hm] at h2
      exact (regNids_ne_of_small _ hnodupSubs hpvmem hsmall pv.nid h2) rfl
    · rw [← hregOld, ← hm]
      exact hinv.indexPerm
  have hdrop := unregister_drop subs1 pv idx (regNids B' ++ regNids A)
    hkeypv hsorted1 hidxnodup hRbig hRsmall
  set idx2 := UnregisterFreeSuballocation subs1 idx pv.nid with hidx2
  obtain ⟨hidx2perm, hidx2sorted, hidx2nopv, hidx2nodup, hidx2sub⟩ := hdrop
  have hidx2ne : ∀ j ∈ idx2, j ≠ pv.nid ∧ j ≠ cur.nid := by
    intro j hj
    have hjidx := hidx2sub j hj
    have hjreg : j ∈ regNids m.m_Suballocations :=
      hinv.indexPerm.mem_iff.mp hjidx
    rw [hm] at hjreg
    refine ⟨fun hc => hidx2nopv (hc ▸ hj), ?_⟩
    exact regNids_ne_of_used _ hnodupSubs hcurmem hused j hjreg
  have hcongr2 : ∀ j ∈ idx2, idSize subs' j = idSize subs1 j := by
    intro j hj
    obtain ⟨hp1, hc1⟩ := hidx2ne j hj
    rw [hsubs', hsubs1]
    rw [idSize_middle_ne B' A pvM j hp1]
    rw [idSize_middle_ne B' (curF :: A) pv j hp1]
    rw [idSize_middle_ne B' A curF j hc1]
  have hsorted2 : indexSortedFor subs' idx2 :=
    indexSortedFor_congr subs1 subs' idx2 hcongr2 hidx2sorted
  have hpvMmem : pvM ∈ subs' := by rw [hsubs']; simp
  have hkeyM : idSize subs' pvM.nid = pvM.size :=
    idSize_of_mem_nodup subs' pvM hpvMmem hnodup'
  have hreg := register_add subs' pvM idx2 hkeyM hsorted2
  refine ⟨?_, rfl, ?_, ?_⟩
  · constructor
    case nonnil => simp [hsubs']
    case contig =>
      have h0 := hinv.contig
      rw [hm, contigFrom_append] at h0
      rw [hsubs', contigFrom_append]
      refine ⟨h0.1, ?_⟩
      have h1 := h0.2
      simp only [contigFrom] at h1 ⊢
      obtain ⟨ho, hco, hrest⟩ := h1
      refine ⟨ho, ?_⟩
      have heq : 0 + sizesSum B' + pv.size + cur.size
          = 0 + sizesSum B' + (pv.size + cur.size) := by omega
      rw [← heq]
      exact hrest
    case total =>
      have h0 := hinv.total
      rw [hm, sizesSum_append, sizesSum_cons, sizesSum_cons] at h0
      rw [hsubs', sizesSum_append, sizesSum_cons]
      dsimp only
      omega
    case noAdj =>
      have h0 := hinv.noAdj
      rw [hm] at h0
      unfold noTwoAdjFree at h0 ⊢
      rw [List.chain'_append] at h0 ⊢
      obtain ⟨hB, hpvA, hlink⟩ := h0
      rw [List.chain'_cons'] at hpvA
      have hcurA := hpvA.2
      rw [List.chain'_cons'] at hcurA
      refine ⟨hB, ?_, ?_⟩
      · rw [List.chain'_cons']
        refine ⟨?_, hcurA.2⟩
        intro b hb hcontra
        exact hnext b hb hcontra.2
      · intro x hx y hy hcontra
        have hxnf : x.stype ≠ .free := fun hxf =>
          hlink x hx pv (by simp) ⟨hxf, hpv⟩
        exact hxnf hcontra.1
    case freeIff =>
      intro n hn
      rw [hsubs'] at hn
      rcases List.mem_append.mp hn with h1 | h1
      · exact hinv.freeIff n (by rw [hm]; exact List.mem_append_left _ h1)
      · rcases List.mem_cons.mp h1 with h2 | h2
        · subst h2
          constructor
          · intro _; simpa [hpvM] using hpvnone
          · intro _; simpa [hpvM] using hpv
        · exact hinv.freeIff n (by
            rw [hm]
            refine List.mem_append_right _ ?_
            exact List.mem_cons_of_mem _ (List.mem_cons_of_mem _ h2))
    case hmatch =>
      intro n hn hh hhh
      rw [hsubs'] at hn
      rcases List.mem_append.mp hn with h1 | h1
      · exact hinv.hmatch n (by rw [hm]; exact List.mem_append_left _ h1) hh hhh
      · rcases List.mem_cons.mp h1 with h2 | h2
        · subst h2
          rw [show pvM.hAllocation = pv.hAllocation from rfl, hpvnone] at hhh
          cases hhh
        · exact hinv.hmatch n (by
            rw [hm]
            refine List.mem_append_right _ ?_
            exact List.mem_cons_of_mem _ (List.mem_cons_of_mem _ h2)) hh hhh
    case fcount =>
      dsimp only
      have h0 := hinv.fcount
      rw [hm, freeCountOf_append, freeCountOf_cons_free pv _ hpv,
        freeCountOf_cons_used cur A hused] at h0
      have hNew : freeCountOf subs' = freeCountOf B' + (freeCountOf A + 1) := by
        rw [hsubs', freeCountOf_append, freeCountOf_cons_free pvM A (by simpa [hpvM] using hpv)]
      rw [hNew]
      omega
    case fsum =>
      dsimp only
      have h0 := hinv.fsum
      rw [hm, freeSizeOf_append, freeSizeOf_cons_free pv _ hpv,
        freeSizeOf_cons_used cur A hused] at h0
      have hNew : freeSizeOf subs'
          = freeSizeOf B' + (pv.size + cur.size + freeSizeOf A) := by
        rw [hsubs', freeSizeOf_append, freeSizeOf_cons_free pvM A (by simpa [hpvM] using hpv)]
      rw [hNew]
      omega
    case nodup => exact hnodup'
    case idbound =>
      intro n hn
      rw [hsubs'] at hn
      rcases List.mem_append.mp hn with h1 | h1
      · exact hinv.idbound n (by rw [hm]; exact List.mem_append_left _ h1)
      · rcases List.mem_cons.mp h1 with h2 | h2
        · subst h2
          simpa [hpvM] using hinv.idbound pv (by rw [hm]; simp)
        · exact hinv.idbound n (by
            rw [hm]
            refine List.mem_append_right _ ?_
            exact List.mem_cons_of_mem _ (List.mem_cons_of_mem _ h2))
    case indexPerm =>
      by_cases hbig : VMA_MIN_FREE_SUBALLOCATION_SIZE_TO_REGISTER ≤ pvM.size
      · have h1 := hreg.1 hbig
        have hregNew : regNids subs' = regNids B' ++ pvM.nid :: regNids A := by
          rw [hsubs', regNids_append, regNids_cons_reg pvM A (by simpa [hpvM] using hpv) hbig]
        rw [hregNew]
        refine h1.trans ?_
        refine (hidx2perm.cons pvM.nid).trans ?_
        exact List.perm_middle.symm
      · have h1 := hreg.2.1 (by omega)
        rw [h1]
        have hregNew : regNids subs' = regNids B' ++ regNids A := by
          rw [hsubs', regNids_append, regNids_cons_unreg pvM A (fun hc => hbig hc.2)]
        rw [hregNew]
        exact hidx2perm
    case indexSorted => exact hreg.2.2
  · have hOld : usedCountOf (B' ++ pv :: cur :: A)
        = usedCountOf B' + (usedCountOf A + 1) := by
      rw [usedCountOf_append, usedCountOf_cons_free pv _ hpv,
        usedCountOf_cons_used cur A hused]
    have hNew : usedCountOf subs' = usedCountOf B' + usedCountOf A := by
      rw [hsubs', usedCountOf_append, usedCountOf_cons_free pvM A (by simpa [hpvM] using hpv)]
    rw [hm, hOld, hNew]
    omega
  · have hOld : usedSizeOf (B' ++ pv :: cur :: A)
        = usedSizeOf B' + (cur.size + usedSizeOf A) := by
      rw [usedSizeOf_append, usedSizeOf_cons_free pv _ hpv,
        usedSizeOf_cons_used cur A hused]
    have hNew : usedSizeOf subs' = usedSizeOf B' + usedSizeOf A := by
      rw [hsubs', usedSizeOf_append, usedSizeOf_cons_free pvM A (by simpa [hpvM] using hpv)]
    rw [hm, hOld, hNew]
    omega

theorem regNids_cons (x : VmaSuballocation) (l : List VmaSuballocation) :
    regNids (x :: l) = regNids [x] ++ regNids l := by
  by_cases h : x.stype = .free ∧ VMA_MIN_FREE_SUBALLOCATION_SIZE_TO_REGISTER ≤ x.size
  · rw [regNids_cons_reg x l h.1 h.2, regNids_cons_reg x [] h.1 h.2]
    rfl
  · rw [regNids_cons_unreg x l h, regNids_cons_unreg x [] h]
    rfl

theorem regNids_single_reg (x : VmaSuballocation) (hf : x.stype = .free)
    (hb : VMA_MIN_FREE_SUBALLOCATION_SIZE_TO_REGISTER ≤ x.size) :
    regNids [x] = [x.nid] := by
  rw [regNids_cons_reg x [] hf hb]
  rfl

theorem regNids_single_unreg (x : VmaSuballocation)
    (h : ¬(x.stype = .free ∧ VMA_MIN_FREE_SUBALLOCATION_SIZE_TO_REGISTER ≤ x.size)) :
    regNids [x] = [] := by
  rw [regNids_cons_unreg x [] h]
  rfl

theorem metaInv_freeSubAt_pn (m : VmaBlockMetadata) (p : Nat)
    (pv cur nx : VmaSuballocation) (B' A2 : List VmaSuballocation)
    (hm : m.m_Suballocations = B' ++ pv :: cur :: nx :: A2)
    (hlen : B'.length + 1 = p)
    (hused : cur.stype ≠ .free) (hinv : MetaInv m)
    (hpv : pv.stype = .free) (hnx : nx.stype = .free) :
    MetaInv (m.FreeSuballocationAt p).1 ∧
    (m.FreeSuballocationAt p).1.m_Size = m.m_Size ∧
    usedCountOf (m.FreeSuballocationAt p).1.m_Suballocations
      = usedCountOf m.m_Suballocations - 1 ∧
    usedSizeOf (m.FreeSuballocationAt p).1.m_Suballocations
      = usedSizeOf m.m_Suballocations - cur.size := by
  have hshape := freeSubAt_mergeBoth m p pv cur nx B' A2 hm hlen hpv hnx
  rw [hshape]
  dsimp only
  set curF : VmaSuballocation := { cur with stype := .free, hAllocation := none }
    with hcurF
  set curM : VmaSuballocation :=
    { cur with size := cur.size + nx.size, stype := .free, hAllocation := none }
    with hcurM
  set pvM : VmaSuballocation := { pv with size := pv.size + (cur.size + nx.size) }
    with hpvM
  set idx := m.m_FreeSuballocationsBySize with hidxdef
  set subs1 : List VmaSuballocation := B' ++ pv :: curF :: nx :: A2 with hsubs1
  set subs2 : List VmaSuballocation := B' ++ pv :: curM :: A2 with hsubs2
  set subs'' : List VmaSuballocation := B' ++ pvM :: A2 with hsubs''
  have hpvnone : pv.hAllocation = none :=
    (hinv.freeIff pv (by rw [hm]; simp)).mp hpv
  have hnodupSubs : ((B' ++ pv :: cur :: nx :: A2).map (fun n => n.nid)).Nodup := by
    rw [← hm]; exact hinv.nodup
  have hnodup1 : (subs1.map (fun n => n.nid)).Nodup := by
    have hms := map_nid_samesub (B' ++ [pv]) (nx :: A2) cur curF rfl
    rw [hsubs1]
    have h1 : B' ++ pv :: curF :: nx :: A2 = (B' ++ [pv]) ++ curF :: nx :: A2 := by simp
    have h2 : B' ++ pv :: cur :: nx :: A2 = (B' ++ [pv]) ++ cur :: nx :: A2 := by simp
    rw [h1, hms, ← h2]
    exact hnodupSubs
  have hsub2 : List.Sublist (subs2.map (fun n => n.nid))
      ((B' ++ pv :: cur :: nx :: A2).map (fun n => n.nid)) := by
    rw [hsubs2]
    simp only [List.map_append, List.map_cons]
    refine List.Sublist.append_left ?_ _
    show List.Sublist (pv.nid :: cur.nid :: A2.map (fun n => n.nid))
      (pv.nid :: cur.nid :: nx.nid :: A2.map (fun n => n.nid))
    exact ((List.sublist_cons_self nx.nid _).cons₂ cur.nid).cons₂ pv.nid
  have hnodup2 : (subs2.map (fun n => n.nid)).Nodup := hnodupSubs.sublist hsub2
  have hsub'' : List.Sublist (subs''.map (fun n => n.nid))
      ((B' ++ pv :: cur :: nx :: A2).map (fun n => n.nid)) := by
    rw [hsubs'']
    simp only [List.map_append, List.map_cons]
    refine List.Sublist.append_left ?_ _
    show List.Sublist (pv.nid :: A2.map (fun n => n.nid))
      (pv.nid :: cur.nid :: nx.nid :: A2.map (fun n => n.nid))
    refine List.Sublist.cons₂ pv.nid ?_
    exact (List.sublist_cons_self nx.nid _).trans (List.sublist_cons_self cur.nid _)
  have hnodup'' : (subs''.map (fun n => n.nid)).Nodup := hnodupSubs.sublist hsub''
  have hidxnodup : idx.Nodup :=
    (hinv.indexPerm.nodup_iff).mpr (regNids_nodup _ (hm ▸ hinv.nodup))
  have hsorted1 : indexSortedFor subs1 idx := by
    refine indexSortedFor_congr (B' ++ pv :: cur :: nx :: A2) _ _ ?_
      (by rw [← hm]; exact hinv.indexSorted)
    intro j _
    have hms := idSize_middle_samesize (B' ++ [pv]) (nx :: A2) cur curF rfl rfl j
    have h1 : (B' ++ [pv]) ++ curF :: nx :: A2 = B' ++ pv :: curF :: nx :: A2 := by simp
    have h2 : (B' ++ [pv]) ++ cur :: nx :: A2 = B' ++ pv :: cur :: nx :: A2 := by simp
    rw [h1, h2] at hms
    rw [hsubs1]
    exact hms
  have hnxmem1 : nx ∈ subs1 := by rw [hsubs1]; simp
  have hkeynx : idSize subs1 nx.nid = nx.size :=
    idSize_of_mem_nodup subs1 nx hnxmem1 hnodup1
  have hcurmem : cur ∈ B' ++ pv :: cur :: nx :: A2 := by simp
  have hnxmem : nx ∈ B' ++ pv :: cur :: nx :: A2 := by simp
  have hpvmem : pv ∈ B' ++ pv :: cur :: nx :: A2 := by simp
  have hregOldSplit : regNids (B' ++ pv :: cur :: nx :: A2)
      = regNids B' ++ (regNids [pv] ++ regNids (nx :: A2)) := by
    rw [regNids_append, regNids_cons pv, regNids_cons_unreg cur _ (fun hc => hused hc.1)]
  have hRbig : VMA_MIN_FREE_SUBALLOCATION_SIZE_TO_REGISTER ≤ nx.size →
      idx.Perm (nx.nid :: ((regNids B' ++ regNids [pv]) ++ regNids A2)) := by
    intro hbig
    have h1 : idx.Perm (regNids B' ++ (regNids [pv] ++ (nx.nid :: regNids A2))) := by
      have := hinv.indexPerm
      rw [hm, hregOldSplit, regNids_cons_reg nx A2 hnx hbig] at this
      exact this
    refine h1.trans ?_
    have hassoc : regNids B' ++ (regNids [pv] ++ (nx.nid :: regNids A2))
        = (regNids B' ++ regNids [pv]) ++ nx.nid :: regNids A2 := by
      simp [List.append_assoc]
    rw [hassoc]
    exact List.perm_middle
  have hRsmall : nx.size < VMA_MIN_FREE_SUBALLOCATION_SIZE_TO_REGISTER →
      nx.nid ∉ idx ∧ idx.Perm ((regNids B' ++ regNids [pv]) ++ regNids A2) := by
    intro hsmall
    constructor
    · intro hmem
      have h2 : nx.nid ∈ regNids m.m_Suballocations :=
        hinv.indexPerm.mem_iff.mp hmem
      rw [hm] at h2
      exact (regNids_ne_of_small _ hnodupSubs hnxmem hsmall nx.nid h2) rfl
    · have h1 := hinv.indexPerm
      rw [hm, hregOldSplit,
        regNids_cons_unreg nx A2 (fun hc => by omega)] at h1
      refine h1.trans ?_
      simp [List.append_assoc]
  have hdrop1 := unregister_drop subs1 nx idx
    ((regNids B' ++ regNids [pv]) ++ regNids A2) hkeynx hsorted1 hidxnodup hRbig hRsmall
  set idx2 := UnregisterFreeSuballocation subs1 idx nx.nid with hidx2def
  obtain ⟨hidx2perm, hidx2sorted, hidx2nonx, hidx2nodup, hidx2sub⟩ := hdrop1
  have hidx2ne : ∀ j ∈ idx2, j ≠ cur.nid ∧ j ≠ nx.nid := by
    intro j hj
    have hjidx := hidx2sub j hj
    have hjreg : j ∈ regNids m.m_Suballocations :=
      hinv.indexPerm.mem_iff.mp hjidx
    rw [hm] at hjreg
    exact ⟨regNids_ne_of_used _ hnodupSubs hcurmem hused j hjreg,
      fun hc => hidx2nonx (hc ▸ hj)⟩
  have hcongr2 : ∀ j ∈ idx2, idSize subs2 j = idSize subs1 j := by
    intro j hj
    obtain ⟨hc1, hn1⟩ := hidx2ne j hj
    have e1 : idSize subs2 j = idSize ((B' ++ [pv]) ++ A2) j := by
      rw [hsubs2]
      have h2 : B' ++ pv :: curM :: A2 = (B' ++ [pv]) ++ curM :: A2 := by simp
      rw [h2, idSize_middle_ne (B' ++ [pv]) A2 curM j hc1]
    have e2 : idSize subs1 j = idSize ((B' ++ [pv]) ++ A2) j := by
      rw [hsubs1]
      have h2 : B' ++ pv :: curF :: nx :: A2 = (B' ++ [pv]) ++ curF :: nx :: A2 := by simp
      rw [h2, idSize_middle_ne (B' ++ [pv]) (nx :: A2) curF j hc1,
        idSize_middle_ne (B' ++ [pv]) A2 nx j hn1]
    rw [e1, e2]
  have hsorted2 : indexSortedFor subs2 idx2 :=
    indexSortedFor_congr subs1 subs2 idx2 hcongr2 hidx2sorted
  have hpvmem2 : pv ∈ subs2 := by rw [hsubs2]; simp
  have hkeypv : idSize subs2 pv.nid = pv.size :=
    idSize_of_mem_nodup subs2 pv hpvmem2 hnodup2
  have hRbig2 : VMA_MIN_FREE_SUBALLOCATION_SIZE_TO_REGISTER ≤ pv.size →
      idx2.Perm (pv.nid :: (regNids B' ++ regNids A2)) := by
    intro hbig
    refine hidx2perm.trans ?_
    rw [regNids_single_reg pv hpv hbig]
    have hassoc : (regNids B' ++ [pv.nid]) ++ regNids A2
        = regNids B' ++ pv.nid :: regNids A2 := by
      simp
    rw [hassoc]
    exact List.perm_middle
  have hRsmall2 : pv.size < VMA_MIN_FREE_SUBALLOCATION_SIZE_TO_REGISTER →
      pv.nid ∉ idx2 ∧ idx2.Perm (regNids B' ++ regNids A2) := by
    intro hsmall
    constructor
    · intro hmem
      have hjidx := hidx2sub pv.nid hmem
      have h2 : pv.nid ∈ regNids m.m_Suballocations :=
        hinv.indexPerm.mem_iff.mp hjidx
      rw [hm] at h2
      exact (regNids_ne_of_small _ hnodupSubs hpvmem hsmall pv.nid h2) rfl
    · refine hidx2perm.trans ?_
      rw [regNids_single_unreg pv (fun hc => by omega)]
      simp
  have hdrop2 := unregister_drop subs2 pv idx2 (regNids B' ++ regNids A2)
    hkeypv hsorted2 hidx2nodup hRbig2 hRsmall2
  set idx3 := UnregisterFreeSuballocation subs2 idx2 pv.nid with hidx3def
  obtain ⟨hidx3perm, hidx3sorted, hidx3nopv, hidx3nodup, hidx3sub⟩ := hdrop2
  have hidx3ne : ∀ j ∈ idx3, j ≠ cur.nid ∧ j ≠ nx.nid ∧ j ≠ pv.nid := by
    intro j hj
    obtain ⟨hc1, hn1⟩ := hidx2ne j (hidx3sub j hj)
    exact ⟨hc1, hn1, fun hc => hidx3nopv (hc ▸ hj)⟩
  have hcongr3 : ∀ j ∈ idx3, idSize subs'' j = idSize subs2 j := by
    intro j hj
    obtain ⟨hc1, hn1, hp1⟩ := hidx3ne j hj
    have e1 : idSize subs'' j = idSize (B' ++ A2) j := by
      rw [hsubs'', idSize_middle_ne B' A2 pvM j hp1]
    have e2 : idSize subs2 j = idSize (B' ++ A2) j := by
      rw [hsubs2, idSize_middle_ne B' (curM :: A2) pv j hp1,
        idSize_middle_ne B' A2 curM j hc1]
    rw [e1, e2]
  have hsorted3 : indexSortedFor subs'' idx3 :=
    indexSortedFor_congr subs2 subs'' idx3 hcongr3 hidx3sorted
  have hpvMmem : pvM ∈ subs'' := by rw [hsubs'']; simp
  have hkeyM : idSize subs'' pvM.nid = pvM.size :=
    idSize_of_mem_nodup subs'' pvM hpvMmem hnodup''
  have hreg := register_add subs'' pvM idx3 hkeyM hsorted3
  refine ⟨?_, rfl, ?_, ?_⟩
  · constructor
    case nonnil => simp [hsubs'']
    case contig =>
      have h0 := hinv.contig
      rw [hm, contigFrom_append] at h0
      rw [hsubs'', contigFrom_append]
      refine ⟨h0.1, ?_⟩
      have h1 := h0.2
      simp only [contigFrom] at h1 ⊢
      obtain ⟨ho, hco, hno, hrest⟩ := h1
      refine ⟨ho, ?_⟩
      have heq : 0 + sizesSum B' + pv.size + cur.size + nx.size
          = 0 + sizesSum B' + (pv.size + (cur.size + nx.size)) := by omega
      rw [← heq]
      exact hrest
    case total =>
      have h0 := hinv.total
      rw [hm, sizesSum_append, sizesSum_cons, sizesSum_cons, sizesSum_cons] at h0
      rw [hsubs'', sizesSum_append, sizesSum_cons]
      dsimp only
      omega
    case noAdj =>
      have h0 := hinv.noAdj
      rw [hm] at h0
      unfold noTwoAdjFree at h0 ⊢
      rw [List.chain'_append] at h0 ⊢
      obtain ⟨hB, hpvA, hlink⟩ := h0
      rw [List.chain'_cons'] at hpvA
      have hcurA := hpvA.2
      rw [List.chain'_cons'] at hcurA
      have hnxA := hcurA.2
      rw [List.chain'_cons'] at hnxA
      refine ⟨hB, ?_, ?_⟩
      · rw [List.chain'_cons']
        refine ⟨?_, hnxA.2⟩
        intro b hb hcontra
        exact (hnxA.1 b hb) ⟨hnx, hcontra.2⟩
      · intro x hx y hy hcontra
        have hxnf : x.stype ≠ .free := fun hxf =>
          hlink x hx pv (by simp) ⟨hxf, hpv⟩
        exact hxnf hcontra.1
    case freeIff =>
      intro n hn
      rw [hsubs''] at hn
      rcases List.mem_append.mp hn with h1 | h1
      · exact hinv.freeIff n (by rw [hm]; exact List.mem_append_left _ h1)
      · rcases List.mem_cons.mp h1 with h2 | h2
        · subst h2
          constructor
          · intro _; simpa [hpvM] using hpvnone
          · intro _; simpa [hpvM] using hpv
        · refine hinv.freeIff n ?_
          rw [hm]
          refine List.mem_append_right _ ?_
          exact List.mem_cons_of_mem _ (List.mem_cons_of_mem _ (List.mem_cons_of_mem _ h2))
    case hmatch =>
      intro n hn hh hhh
      rw [hsubs''] at hn
      rcases List.mem_append.mp hn with h1 | h1
      · exact hinv.hmatch n (by rw [hm]; exact List.mem_append_left _ h1) hh hhh
      · rcases List.mem_cons.mp h1 with h2 | h2
        · subst h2
          rw [show pvM.hAllocation = pv.hAllocation from rfl, hpvnone] at hhh
          cases hhh
        · refine hinv.hmatch n ?_ hh hhh
          rw [hm]
          refine List.mem_append_right _ ?_
          exact List.mem_cons_of_mem _ (List.mem_cons_of_mem _ (List.mem_cons_of_mem _ h2))
    case fcount =>
      dsimp only
      have h0 := hinv.fcount
      rw [hm, freeCountOf_append, freeCountOf_cons_free pv _ hpv,
        freeCountOf_cons_used cur _ hused, freeCountOf_cons_free nx A2 hnx] at h0
      have hNew : freeCountOf subs'' = freeCountOf B' + (freeCountOf A2 + 1) := by
        rw [hsubs'', freeCountOf_append,
          freeCountOf_cons_free pvM A2 (by simpa [hpvM] using hpv)]
      rw [hNew]
      omega
    case fsum =>
      dsimp only
      have h0 := hinv.fsum
      rw [hm, freeSizeOf_append, freeSizeOf_cons_free pv _ hpv,
        freeSizeOf_cons_used cur _ hused, freeSizeOf_cons_free nx A2 hnx] at h0
      have hNew : freeSizeOf subs''
          = freeSizeOf B' + (pv.size + (cur.size + nx.size) + freeSizeOf A2) := by
        rw [hsubs'', freeSizeOf_append,
          freeSizeOf_cons_free pvM A2 (by simpa [hpvM] using hpv)]
      rw [hNew]
      omega
    case nodup => exact hnodup''
    case idbound =>
      intro n hn
      rw [hsubs''] at hn
      rcases List.mem_append.mp hn with h1 | h1
      · exact hinv.idbound n (by rw [hm]; exact List.mem_append_left _ h1)
      · rcases List.mem_cons.mp h1 with h2 | h2
        · subst h2
          simpa [hpvM] using hinv.idbound pv (by rw [hm]; simp)
        · refine hinv.idbound n ?_
          rw [hm]
          refine List.mem_append_right _ ?_
          exact List.mem_cons_of_mem _ (List.mem_cons_of_mem _ (List.mem_cons_of_mem _ h2))
    case indexPerm =>
      by_cases hbig : VMA_MIN_FREE_SUBALLOCATION_SIZE_TO_REGISTER ≤ pvM.size
      · have h1 := hreg.1 hbig
        have hregNew : regNids subs'' = regNids B' ++ pvM.nid :: regNids A2 := by
          rw [hsubs'', regNids_append,
            regNids_cons_reg pvM A2 (by simpa [hpvM] using hpv) hbig]
        rw [hregNew]
        refine h1.trans ?_
        refine (hidx3perm.cons pvM.nid).trans ?_
        exact List.perm_middle.symm
      · have h1 := hreg.2.1 (by omega)
        rw [h1]
        have hregNew : regNids subs'' = regNids B' ++ regNids A2 := by
          rw [hsubs'', regNids_append,
            regNids_cons_unreg pvM A2 (fun hc => hbig hc.2)]
        rw [hregNew]
        exact hidx3perm
    case indexSorted => exact hreg.2.2
  · have hOld : usedCountOf (B' ++ pv :: cur :: nx :: A2)
        = usedCountOf B' + (usedCountOf A2 + 1) := by
      rw [usedCountOf_append, usedCountOf_cons_free pv _ hpv,
        usedCountOf_cons_used cur _ hused, usedCountOf_cons_free nx A2 hnx]
    have hNew : usedCountOf subs'' = usedCountOf B' + usedCountOf A2 := by
      rw [hsubs'', usedCountOf_append,
        usedCountOf_cons_free pvM A2 (by simpa [hpvM] using hpv)]
    rw [hm, hOld, hNew]
    omega
  · have hOld : usedSizeOf (B' ++ pv :: cur :: nx :: A2)
        = usedSizeOf B' + (cur.size + usedSizeOf A2) := by
      rw [usedSizeOf_append, usedSizeOf_cons_free pv _ hpv,
        usedSizeOf_cons_used cur _ hused, usedSizeOf_cons_free nx A2 hnx]
    have hNew : usedSizeOf subs'' = usedSizeOf B' + usedSizeOf A2 := by
      rw [hsubs'', usedSizeOf_append,
        usedSizeOf_cons_free pvM A2 (by simpa [hpvM] using hpv)]
    rw [hm, hOld, hNew]
    omega

theorem metaInv_freeSuballocationAt (m : VmaBlockMetadata) (p : Nat)
    (cur : VmaSuballocation) (hp : m.m_Suballocations[p]? = some cur)
    (hused : cur.stype ≠ .free) (hinv : MetaInv m) :
    MetaInv (m.FreeSuballocationAt p).1 ∧
    (m.FreeSuballocationAt p).1.m_Size = m.m_Size ∧
    usedCountOf (m.FreeSuballocationAt p).1.m_Suballocations
      = usedCountOf m.m_Suballocations - 1 ∧
    usedSizeOf (m.FreeSuballocationAt p).1.m_Suballocations
      = usedSizeOf m.m_Suballocations - cur.size := by
  obtain ⟨B, A, hm, hlen⟩ := decomp_of_getElem? m.m_Suballocations p cur hp
  rcases List.eq_nil_or_concat B with hB | ⟨B', pv, hB⟩
  · subst hB
    cases A with
    | nil =>
      exact metaInv_freeSubAt_nn m p cur [] [] hm hlen hused hinv
        (by intro x hx; simp at hx) (by intro x hx; simp at hx)
    | cons nx A2 =>
      by_cases hnx : nx.stype = .free
      · exact metaInv_freeSubAt_n m p cur nx [] A2 hm hlen hused hinv hnx
          (by intro x hx; simp at hx)
      · refine metaInv_freeSubAt_nn m p cur [] (nx :: A2) hm hlen hused hinv ?_
          (by intro x hx; simp at hx)
        intro x hx
        simp only [List.head?_cons, Option.mem_def, Option.some.injEq] at hx
        rw [← hx]
        exact hnx
  · subst hB
    rw [List.concat_eq_append] at hm hlen
    by_cases hpv : pv.stype = .free
    · have hlen' : B'.length + 1 = p := by
        rw [← hlen]; simp
      cases A with
      | nil =>
        refine metaInv_freeSubAt_p m p pv cur B' [] (by simpa using hm) hlen'
          hused hinv hpv (by intro x hx; simp at hx)
      | cons nx A2 =>
        by_cases hnx : nx.stype = .free
        · exact metaInv_freeSubAt_pn m p pv cur nx B' A2 (by simpa using hm) hlen'
            hused hinv hpv hnx
        · refine metaInv_freeSubAt_p m p pv cur B' (nx :: A2) (by simpa using hm)
            hlen' hused hinv hpv ?_
          intro x hx
          simp only [List.head?_cons, Option.mem_def, Option.some.injEq] at hx
          rw [← hx]
          exact hnx
    · have hprev : ∀ pv' ∈ (B' ++ [pv]).getLast?, pv'.stype ≠ .free := by
        intro x hx
        have hxe : x = pv := by
          have h1 : (B' ++ [pv]).getLast? = some pv := by
            rw [List.getLast?_append]
            rfl
          rw [h1] at hx
          exact (Option.mem_some_iff.mp hx).symm
        rw [hxe]
        exact hpv
      cases A with
      | nil =>
        exact metaInv_freeSubAt_nn m p cur (B' ++ [pv]) [] hm hlen hused hinv
          (by intro x hx; simp at hx) hprev
      | cons nx A2 =>
        by_cases hnx : nx.stype = .free
        · exact metaInv_freeSubAt_n m p cur nx (B' ++ [pv]) A2 hm hlen hused hinv
            hnx hprev
        · refine metaInv_freeSubAt_nn m p cur (B' ++ [pv]) (nx :: A2) hm hlen
            hused hinv ?_ hprev
          intro x hx
          simp only [List.head?_cons, Option.mem_def, Option.some.injEq] at hx
          rw [← hx]
          exact hnx

theorem validateTraverse_ok (subs : List VmaSuballocation) :
    ∀ (off fc sf reg : Nat) (prevFree : Bool),
    contigFrom off subs → noTwoAdjFree subs →
    (prevFree = true → ∀ x ∈ subs.head?, x.stype ≠ .free) →
    (∀ n ∈ subs, (n.stype = .free ↔ n.hAllocation = none)) →
    (∀ n ∈ subs, ∀ hh, n.hAllocation = some hh →
      hh.offset = n.offset ∧ hh.size = n.size) →
    VmaBlockMetadata.validateTraverse subs off fc sf reg prevFree
      = some (off + sizesSum subs, fc + freeCountOf subs, sf + freeSizeOf subs,
          reg + (regNids subs).length) := by
  induction subs with
  | nil =>
    intro off fc sf reg prevFree _ _ _ _ _
    simp [VmaBlockMetadata.validateTraverse, sizesSum, freeCountOf, freeSizeOf,
      regNids]
  | cons s rest ih =>
    intro off fc sf reg prevFree hcontig hchain hprev hfree hmatch
    have hoff : s.offset = off := hcontig.1
    have hchain' := (List.chain'_cons'.mp hchain)
    by_cases hs : s.stype = .free
    · cases prevFree with
      | true => exact absurd hs (hprev rfl s rfl)
      | false =>
        have hnone : s.hAllocation = none := (hfree s (by simp)).mp hs
        by_cases hbig : VMA_MIN_FREE_SUBALLOCATION_SIZE_TO_REGISTER ≤ s.size
        · have hstep : VmaBlockMetadata.validateTraverse (s :: rest) off fc sf reg false
              = VmaBlockMetadata.validateTraverse rest (off + s.size) (fc + 1)
                (sf + s.size) (reg + 1) true := by
            simp [VmaBlockMetadata.validateTraverse, hoff, hs, hnone, hbig]
          rw [hstep,
            ih (off + s.size) (fc + 1) (sf + s.size) (reg + 1) true
              hcontig.2 hchain'.2
              (fun _ x hx => fun hxf => hchain'.1 x hx ⟨hs, hxf⟩)
              (fun n hn => hfree n (List.mem_cons_of_mem s hn))
              (fun n hn => hmatch n (List.mem_cons_of_mem s hn))]
          rw [sizesSum_cons, freeCountOf_cons_free s rest hs,
            freeSizeOf_cons_free s rest hs, regNids_cons_reg s rest hs hbig]
          simp only [List.length_cons]
          have e1 : off + s.size + sizesSum rest = off + (s.size + sizesSum rest) := by
            omega
          have e2 : fc + 1 + freeCountOf rest = fc + (freeCountOf rest + 1) := by
            omega
          have e3 : sf + s.size + freeSizeOf rest = sf + (s.size + freeSizeOf rest) := by
            omega
          have e4 : reg + 1 + (regNids rest).length = reg + ((regNids rest).length + 1) := by
            omega
          rw [e1, e2, e3, e4]
        · have hstep : VmaBlockMetadata.validateTraverse (s :: rest) off fc sf reg false
              = VmaBlockMetadata.validateTraverse rest (off + s.size) (fc + 1)
                (sf + s.size) reg true := by
            simp [VmaBlockMetadata.validateTraverse, hoff, hs, hnone, hbig]
          rw [hstep,
            ih (off + s.size) (fc + 1) (sf + s.size) reg true
              hcontig.2 hchain'.2
              (fun _ x hx => fun hxf => hchain'.1 x hx ⟨hs, hxf⟩)
              (fun n hn => hfree n (List.mem_cons_of_mem s hn))
              (fun n hn => hmatch n (List.mem_cons_of_mem s hn))]
          rw [sizesSum_cons, freeCountOf_cons_free s rest hs,
            freeSizeOf_cons_free s rest hs,
            regNids_cons_unreg s rest (fun hc => hbig hc.2)]
          have e1 : off + s.size + sizesSum rest = off + (s.size + sizesSum rest) := by
            omega
          have e2 : fc + 1 + freeCountOf rest = fc + (freeCountOf rest + 1) := by
            omega
          have e3 : sf + s.size + freeSizeOf rest = sf + (s.size + freeSizeOf rest) := by
            omega
          rw [e1, e2, e3]
    · have hsome : s.hAllocation ≠ none := fun hn =>
        hs ((hfree s (by simp)).mpr hn)
      cases hha : s.hAllocation with
      | none => exact absurd hha hsome
      | some hh =>
        have hmm := hmatch s (by simp) hh hha
        have hstep : VmaBlockMetadata.validateTraverse (s :: rest) off fc sf reg prevFree
            = VmaBlockMetadata.validateTraverse rest (off + s.size) fc sf reg false := by
          simp [VmaBlockMetadata.validateTraverse, hoff, hs, hha, hmm.1, hmm.2]
        rw [hstep,
          ih (off + s.size) fc sf reg false
            hcontig.2 hchain'.2
            (fun hcon => by cases hcon)
            (fun n hn => hfree n (List.mem_cons_of_mem s hn))
            (fun n hn => hmatch n (List.mem_cons_of_mem s hn))]
        rw [sizesSum_cons, freeCountOf_cons_used s rest hs,
          freeSizeOf_cons_used s rest hs,
          regNids_cons_unreg s rest (fun hc => hs hc.1)]
        have e1 : off + s.size + sizesSum rest = off + (s.size + sizesSum rest) := by
          omega
        rw [e1]

theorem validateIndexLoop_ok (subs : List VmaSuballocation) (index : List Nat) :
    ∀ (lastSize : Nat),
    (∀ i ∈ index, ∃ n, findByNid subs i = some n ∧ n.stype = .free) →
    indexSortedFor subs index →
    (∀ i ∈ index, lastSize ≤ idSize subs i) →
    VmaBlockMetadata.validateIndexLoop subs index lastSize = true := by
  induction index with
  | nil =>
    intro lastSize _ _ _
    rfl
  | cons i rest ih =>
    intro lastSize hfind hsorted hlast
    obtain ⟨n, hfn, hnf⟩ := hfind i (by simp)
    have hns : idSize subs i = n.size := by
      unfold idSize
      rw [hfn]
      rfl
    have hstep : VmaBlockMetadata.validateIndexLoop subs (i :: rest) lastSize
        = VmaBlockMetadata.validateIndexLoop subs rest n.size := by
      simp only [VmaBlockMetadata.validateIndexLoop, hfn]
      rw [if_neg (by simp [hnf]),
        if_neg (by have := hlast i (by simp); omega)]
    rw [hstep]
    exact ih n.size
      (fun j hj => hfind j (List.mem_cons_of_mem i hj))
      ((List.pairwise_cons.mp hsorted).2)
      (fun j hj => by
        have := (List.pairwise_cons.mp hsorted).1 j hj
        omega)

theorem validateFreeListGo_ok (subs : List VmaSuballocation) (index : List Nat) :
    ∀ (lastSize : Nat),
    (∀ i ∈ index, ∃ n, findByNid subs i = some n ∧ n.stype = .free ∧
      VMA_MIN_FREE_SUBALLOCATION_SIZE_TO_REGISTER ≤ n.size) →
    indexSortedFor subs index →
    (∀ i ∈ index, lastSize ≤ idSize subs i) →
    VmaBlockMetadata.ValidateFreeSuballocationList.go subs index lastSize = true := by
  induction index with
  | nil =>
    intro lastSize _ _ _
    rfl
  | cons i rest ih =>
    intro lastSize hfind hsorted hlast
    obtain ⟨n, hfn, hnf, hnb⟩ := hfind i (by simp)
    have hns : idSize subs i = n.size := by
      unfold idSize
      rw [hfn]
      rfl
    have hstep : VmaBlockMetadata.ValidateFreeSuballocationList.go subs (i :: rest) lastSize
        = VmaBlockMetadata.ValidateFreeSuballocationList.go subs rest n.size := by
      simp only [VmaBlockMetadata.ValidateFreeSuballocationList.go, hfn]
      rw [if_neg (by simp [hnf]), if_neg (by omega),
        if_neg (by have := hlast i (by simp); omega)]
    rw [hstep]
    exact ih n.size
      (fun j hj => hfind j (List.mem_cons_of_mem i hj))
      ((List.pairwise_cons.mp hsorted).2)
      (fun j hj => by
        have := (List.pairwise_cons.mp hsorted).1 j hj
        omega)

theorem metaInv_findIndexEntry (m : VmaBlockMetadata) (hinv : MetaInv m)
    (i : Nat) (hi : i ∈ m.m_FreeSuballocationsBySize) :
    ∃ n, findByNid m.m_Suballocations i = some n ∧ n.stype = .free ∧
      VMA_MIN_FREE_SUBALLOCATION_SIZE_TO_REGISTER ≤ n.size := by
  have hreg : i ∈ regNids m.m_Suballocations := hinv.indexPerm.mem_iff.mp hi
  obtain ⟨n, hmem, hnid, hnf, hnb⟩ := (mem_regNids_iff _ _).mp hreg
  refine ⟨n, ?_, hnf, hnb⟩
  rw [← hnid]
  exact findByNid_of_mem_nodup _ n hmem hinv.nodup

theorem metaInv_validate (m : VmaBlockMetadata) (hinv : MetaInv m) :
    m.Validate = true := by
  unfold VmaBlockMetadata.Validate
  rw [if_neg (by simp [List.isEmpty_iff, hinv.nonnil])]
  rw [validateTraverse_ok m.m_Suballocations 0 0 0 0 false hinv.contig hinv.noAdj
    (fun hcon => by cases hcon) hinv.freeIff hinv.hmatch]
  dsimp only
  simp only [Nat.zero_add]
  have hlen : m.m_FreeSuballocationsBySize.length
      = (regNids m.m_Suballocations).length := hinv.indexPerm.length_eq
  rw [if_neg (by simp [hlen])]
  have hloop : VmaBlockMetadata.validateIndexLoop m.m_Suballocations
      m.m_FreeSuballocationsBySize 0 = true := by
    refine validateIndexLoop_ok _ _ 0 ?_ hinv.indexSorted (fun j _ => Nat.zero_le _)
    intro i hi
    obtain ⟨n, h1, h2, _⟩ := metaInv_findIndexEntry m hinv i hi
    exact ⟨n, h1, h2⟩
  rw [if_neg (by simp [hloop])]
  have hfsl : m.ValidateFreeSuballocationList = true := by
    unfold VmaBlockMetadata.ValidateFreeSuballocationList
    exact validateFreeListGo_ok _ _ 0 (metaInv_findIndexEntry m hinv)
      hinv.indexSorted (fun j _ => Nat.zero_le _)
  rw [if_neg (by simp [hfsl])]
  rw [if_neg (by simp [hinv.total]), if_neg (by simp [hinv.fsum]),
    if_neg (by simp [hinv.fcount])]

theorem metaInv_init (size : Nat)
    (hsz : VMA_MIN_FREE_SUBALLOCATION_SIZE_TO_REGISTER ≤ size) :
    MetaInv (VmaBlockMetadata.Init size) := by
  constructor
  case nonnil => simp [VmaBlockMetadata.Init]
  case contig => exact ⟨rfl, trivial⟩
  case total =>
    show sizesSum [(⟨0, 0, size, none, .free⟩ : VmaSuballocation)] = size
    rfl
  case noAdj => simp [VmaBlockMetadata.Init, noTwoAdjFree]
  case freeIff =>
    intro n hn
    simp only [VmaBlockMetadata.Init, List.mem_singleton] at hn
    subst hn
    simp
  case hmatch =>
    intro n hn hh hhh
    simp only [VmaBlockMetadata.Init, List.mem_singleton] at hn
    subst hn
    cases hhh
  case fcount => simp [VmaBlockMetadata.Init, freeCountOf]
  case fsum => simp [VmaBlockMetadata.Init, freeSizeOf, sizesSum]
  case nodup => simp [VmaBlockMetadata.Init]
  case idbound =>
    intro n hn
    simp only [VmaBlockMetadata.Init, List.mem_singleton] at hn
    subst hn
    simp [VmaBlockMetadata.Init]
  case indexPerm =>
    show [0].Perm (regNids [⟨0, 0, size, none, .free⟩])
    rw [regNids_cons_reg _ _ rfl hsz]
    rfl
  case indexSorted =>
    show List.Pairwise _ [0]
    simp [indexSortedFor]

/-! ## Alloc preserves the invariant -/

theorem alloc_shape_ee (m : VmaBlockMetadata) (r : VmaAllocationRequest)
    (t : VmaSuballocationType) (asz : Nat) (hdl : VmaAllocHandle)
    (cur : VmaSuballocation) (B A : List VmaSuballocation)
    (hm : m.m_Suballocations = B ++ cur :: A) (hlen : B.length = r.itemPos)
    (hpb : r.offset - cur.offset = 0) (hpe : cur.size - (r.offset - cur.offset) - asz = 0) :
    m.Alloc r t asz hdl =
      { m_Size := m.m_Size, m_FreeCount := m.m_FreeCount - 1,
        m_SumFreeSize := m.m_SumFreeSize - asz,
        m_Suballocations := B ++ { cur with offset := r.offset, size := asz, stype := t, hAllocation := some hdl } :: A,
        m_FreeSuballocationsBySize := UnregisterFreeSuballocation
          m.m_Suballocations m.m_FreeSuballocationsBySize cur.nid,
        nextId := m.nextId } := by
  unfold VmaBlockMetadata.Alloc
  rw [hm, ← hlen, getElem?_append_len]
  simp only [listSetAt_append]
  have hpe' : ¬(0 < cur.size - (r.offset - cur.offset) - asz) := by omega
  have hpb' : ¬(0 < r.offset - cur.offset) := by omega
  simp only [if_neg hpe', if_neg hpb']
  rw [← hm]
  simp

theorem alloc_shape_pe (m : VmaBlockMetadata) (r : VmaAllocationRequest)
    (t : VmaSuballocationType) (asz : Nat) (hdl : VmaAllocHandle)
    (cur : VmaSuballocation) (B A : List VmaSuballocation)
    (hm : m.m_Suballocations = B ++ cur :: A) (hlen : B.length = r.itemPos)
    (hpb : 0 < r.offset - cur.offset)
    (hpe : cur.size - (r.offset - cur.offset) - asz = 0) :
    m.Alloc r t asz hdl =
      { m_Size := m.m_Size, m_FreeCount := m.m_FreeCount - 1 + 1,
        m_SumFreeSize := m.m_SumFreeSize - asz,
        m_Suballocations := B ++
          (⟨m.nextId, r.offset - (r.offset - cur.offset), r.offset - cur.offset,
            none, .free⟩ : VmaSuballocation) ::
          { cur with offset := r.offset, size := asz, stype := t, hAllocation := some hdl } :: A,
        m_FreeSuballocationsBySize := RegisterFreeSuballocation
          (B ++
            (⟨m.nextId, r.offset - (r.offset - cur.offset), r.offset - cur.offset,
              none, .free⟩ : VmaSuballocation) ::
            { cur with offset := r.offset, size := asz, stype := t, hAllocation := some hdl } :: A)
          (UnregisterFreeSuballocation m.m_Suballocations
            m.m_FreeSuballocationsBySize cur.nid)
          m.nextId,
        nextId := m.nextId + 1 } := by
  unfold VmaBlockMetadata.Alloc
  rw [hm, ← hlen, getElem?_append_len]
  simp only [listSetAt_append]
  have hpe' : ¬(0 < cur.size - (r.offset - cur.offset) - asz) := by omega
  simp only [if_neg hpe', if_pos hpb]
  simp only [listInsertAt_append]

theorem alloc_shape_ep (m : VmaBlockMetadata) (r : VmaAllocationRequest)
    (t : VmaSuballocationType) (asz : Nat) (hdl : VmaAllocHandle)
    (cur : VmaSuballocation) (B A : List VmaSuballocation)
    (hm : m.m_Suballocations = B ++ cur :: A) (hlen : B.length = r.itemPos)
    (hpb : r.offset - cur.offset = 0)
    (hpe : 0 < cur.size - (r.offset - cur.offset) - asz) :
    m.Alloc r t asz hdl =
      { m_Size := m.m_Size, m_FreeCount := m.m_FreeCount - 1 + 1,
        m_SumFreeSize := m.m_SumFreeSize - asz,
        m_Suballocations := B ++
          { cur with offset := r.offset, size := asz, stype := t, hAllocation := some hdl } ::
          (⟨m.nextId, r.offset + asz, cur.size - (r.offset - cur.offset) - asz,
            none, .free⟩ : VmaSuballocation) :: A,
        m_FreeSuballocationsBySize := RegisterFreeSuballocation
          (B ++
            { cur with offset := r.offset, size := asz, stype := t, hAllocation := some hdl } ::
            (⟨m.nextId, r.offset + asz, cur.size - (r.offset - cur.offset) - asz,
              none, .free⟩ : VmaSuballocation) :: A)
          (UnregisterFreeSuballocation m.m_Suballocations
            m.m_FreeSuballocationsBySize cur.nid)
          m.nextId,
        nextId := m.nextId + 1 } := by
  unfold VmaBlockMetadata.Alloc
  rw [hm, ← hlen, getElem?_append_len]
  simp only [listSetAt_append]
  have hpb' : ¬(0 < r.offset - cur.offset) := by omega
  simp only [if_pos hpe, if_neg hpb']
  simp only [listInsertAt_append_succ]

theorem alloc_shape_pp (m : VmaBlockMetadata) (r : VmaAllocationRequest)
    (t : VmaSuballocationType) (asz : Nat) (hdl : VmaAllocHandle)
    (cur : VmaSuballocation) (B A : List VmaSuballocation)
    (hm : m.m_Suballocations = B ++ cur :: A) (hlen : B.length = r.itemPos)
    (hpb : 0 < r.offset - cur.offset)
    (hpe : 0 < cur.size - (r.offset - cur.offset) - asz) :
    m.Alloc r t asz hdl =
      { m_Size := m.m_Size, m_FreeCount := m.m_FreeCount - 1 + 1 + 1,
        m_SumFreeSize := m.m_SumFreeSize - asz,
        m_Suballocations := B ++
          (⟨m.nextId + 1, r.offset - (r.offset - cur.offset), r.offset - cur.offset,
            none, .free⟩ : VmaSuballocation) ::
          { cur with offset := r.offset, size := asz, stype := t, hAllocation := some hdl } ::
          (⟨m.nextId, r.offset + asz, cur.size - (r.offset - cur.offset) - asz,
            none, .free⟩ : VmaSuballocation) :: A,
        m_FreeSuballocationsBySize := RegisterFreeSuballocation
          (B ++
            (⟨m.nextId + 1, r.offset - (r.offset - cur.offset), r.offset - cur.offset,
              none, .free⟩ : VmaSuballocation) ::
            { cur with offset := r.offset, size := asz, stype := t, hAllocation := some hdl } ::
            (⟨m.nextId, r.offset + asz, cur.size - (r.offset - cur.offset) - asz,
              none, .free⟩ : VmaSuballocation) :: A)
          (RegisterFreeSuballocation
            (B ++
              { cur with offset := r.offset, size := asz, stype := t, hAllocation := some hdl } ::
              (⟨m.nextId, r.offset + asz, cur.size - (r.offset - cur.offset) - asz,
                none, .free⟩ : VmaSuballocation) :: A)
            (UnregisterFreeSuballocation m.m_Suballocations
              m.m_FreeSuballocationsBySize cur.nid)
            m.nextId)
          (m.nextId + 1),
        nextId := m.nextId + 2 } := by
  unfold VmaBlockMetadata.Alloc
  rw [hm, ← hlen, getElem?_append_len]
  simp only [listSetAt_append]
  simp only [if_pos hpe, if_pos hpb]
  simp only [listInsertAt_append_succ, listInsertAt_append]

theorem idx_lt_nextId (m : VmaBlockMetadata) (hinv : MetaInv m) :
    ∀ j ∈ m.m_FreeSuballocationsBySize, j < m.nextId := by
  intro j hj
  have hreg : j ∈ regNids m.m_Suballocations := hinv.indexPerm.mem_iff.mp hj
  obtain ⟨n, hmem, hnid, _, _⟩ := (mem_regNids_iff _ _).mp hreg
  rw [← hnid]
  exact hinv.idbound n hmem

theorem insertRegister_fresh (B C : List VmaSuballocation) (y : VmaSuballocation)
    (idx : List Nat)
    (hnodup : ((B ++ y :: C).map (fun n => n.nid)).Nodup)
    (hfresh : ∀ j ∈ idx, j ≠ y.nid)
    (hsorted : indexSortedFor (B ++ C) idx) :
    indexSortedFor (B ++ y :: C) (RegisterFreeSuballocation (B ++ y :: C) idx y.nid) ∧
    (VMA_MIN_FREE_SUBALLOCATION_SIZE_TO_REGISTER ≤ y.size →
      (RegisterFreeSuballocation (B ++ y :: C) idx y.nid).Perm (y.nid :: idx)) ∧
    (y.size < VMA_MIN_FREE_SUBALLOCATION_SIZE_TO_REGISTER →
      RegisterFreeSuballocation (B ++ y :: C) idx y.nid = idx) := by
  have hsorted' : indexSortedFor (B ++ y :: C) idx :=
    indexSortedFor_congr (B ++ C) (B ++ y :: C) idx
      (fun j hj => idSize_middle_ne B C y j (hfresh j hj)) hsorted
  have hkey : idSize (B ++ y :: C) y.nid = y.size :=
    idSize_of_mem_nodup _ y (by simp) hnodup
  obtain ⟨h1, h2, h3⟩ := register_add (B ++ y :: C) y idx hkey hsorted'
  exact ⟨h3, h1, h2⟩

theorem alloc_unreg_facts (m : VmaBlockMetadata)
    (cur : VmaSuballocation) (B A : List VmaSuballocation)
    (hm : m.m_Suballocations = B ++ cur :: A) (hinv : MetaInv m)
    (hcf : cur.stype = .free) :
    (UnregisterFreeSuballocation m.m_Suballocations
      m.m_FreeSuballocationsBySize cur.nid).Perm (regNids B ++ regNids A) ∧
    indexSortedFor (B ++ A) (UnregisterFreeSuballocation m.m_Suballocations
      m.m_FreeSuballocationsBySize cur.nid) ∧
    (∀ j ∈ UnregisterFreeSuballocation m.m_Suballocations
      m.m_FreeSuballocationsBySize cur.nid, j ∈ m.m_FreeSuballocationsBySize) ∧
    cur.nid ∉ UnregisterFreeSuballocation m.m_Suballocations
      m.m_FreeSuballocationsBySize cur.nid ∧
    (UnregisterFreeSuballocation m.m_Suballocations
      m.m_FreeSuballocationsBySize cur.nid).Nodup := by
  have hcmem : cur ∈ m.m_Suballocations := by rw [hm]; simp
  have hkey : idSize m.m_Suballocations cur.nid = cur.size :=
    idSize_of_mem_nodup _ cur hcmem hinv.nodup
  have hidxnodup : m.m_FreeSuballocationsBySize.Nodup :=
    (hinv.indexPerm.nodup_iff).mpr (regNids_nodup _ hinv.nodup)
  have hRbig : VMA_MIN_FREE_SUBALLOCATION_SIZE_TO_REGISTER ≤ cur.size →
      m.m_FreeSuballocationsBySize.Perm (cur.nid :: (regNids B ++ regNids A)) := by
    intro hbig
    have h1 := hinv.indexPerm
    rw [hm, regNids_append, regNids_cons_reg cur A hcf hbig] at h1
    exact h1.trans List.perm_middle
  have hRsmall : cur.size < VMA_MIN_FREE_SUBALLOCATION_SIZE_TO_REGISTER →
      cur.nid ∉ m.m_FreeSuballocationsBySize ∧
      m.m_FreeSuballocationsBySize.Perm (regNids B ++ regNids A) := by
    intro hsmall
    constructor
    · intro hmem
      have h2 : cur.nid ∈ regNids m.m_Suballocations :=
        hinv.indexPerm.mem_iff.mp hmem
      rw [hm] at h2
      exact (regNids_ne_of_small _ (hm ▸ hinv.nodup) (by simp) hsmall cur.nid h2) rfl
    · have h1 := hinv.indexPerm
      rw [hm, regNids_append,
        regNids_cons_unreg cur A (fun hc => by omega)] at h1
      exact h1
  obtain ⟨hperm, hsorted, hnomem, hnodup, hsub⟩ :=
    unregister_drop m.m_Suballocations cur m.m_FreeSuballocationsBySize
      (regNids B ++ regNids A) hkey hinv.indexSorted hidxnodup hRbig hRsmall
  refine ⟨hperm, ?_, hsub, hnomem, hnodup⟩
  refine indexSortedFor_congr m.m_Suballocations (B ++ A) _ ?_ hsorted
  intro j hj
  have hne : j ≠ cur.nid := fun hc => hnomem (hc ▸ hj)
  rw [hm]
  exact (idSize_middle_ne B A cur j hne).symm

theorem metaInv_alloc_ee (m : VmaBlockMetadata) (r : VmaAllocationRequest)
    (t : VmaSuballocationType) (asz : Nat) (hdl : VmaAllocHandle)
    (cur : VmaSuballocation) (B A : List VmaSuballocation)
    (hm : m.m_Suballocations = B ++ cur :: A) (hlen : B.length = r.itemPos)
    (hinv : MetaInv m) (hcf : cur.stype = .free)
    (hasz : 0 < asz) (ht : t ≠ .free)
    (hoff : cur.offset ≤ r.offset) (hfit : r.offset - cur.offset + asz ≤ cur.size)
    (hh1 : hdl.offset = r.offset) (hh2 : hdl.size = asz)
    (hpb : r.offset - cur.offset = 0)
    (hpe : cur.size - (r.offset - cur.offset) - asz = 0) :
    MetaInv (m.Alloc r t asz hdl) ∧
    (m.Alloc r t asz hdl).m_Size = m.m_Size ∧
    usedCountOf (m.Alloc r t asz hdl).m_Suballocations
      = usedCountOf m.m_Suballocations + 1 ∧
    usedSizeOf (m.Alloc r t asz hdl).m_Suballocations
      = usedSizeOf m.m_Suballocations + asz := by
  have hro : r.offset = cur.offset := by omega
  have hsz : asz = cur.size := by omega
  have hshape := alloc_shape_ee m r t asz hdl cur B A hm hlen hpb hpe
  rw [hshape]
  set cur' : VmaSuballocation := { cur with offset := r.offset, size := asz, stype := t, hAllocation := some hdl } with hcur'
  rw [hshape] at hshape
  obtain ⟨hperm1, hsorted1, hsub1, hnomem1, hnodup1⟩ :=
    alloc_unreg_facts m cur B A hm hinv hcf
  have hcur's : cur'.stype ≠ .free := ht
  have hnodup' : ((B ++ cur' :: A).map (fun n => n.nid)).Nodup := by
    rw [map_nid_samesub B A cur cur' rfl, ← hm]
    exact hinv.nodup
  have hcontig0 := hinv.contig
  rw [hm, contigFrom_append] at hcontig0
  have hfc0 := hinv.fcount
  rw [hm, freeCountOf_append, freeCountOf_cons_free cur A hcf] at hfc0
  have hfs0 := hinv.fsum
  rw [hm, freeSizeOf_append, freeSizeOf_cons_free cur A hcf] at hfs0
  have hchain0 := hinv.noAdj
  rw [hm] at hchain0
  unfold noTwoAdjFree at hchain0
  rw [List.chain'_append] at hchain0
  obtain ⟨hchB, hchCA, hlink⟩ := hchain0
  rw [List.chain'_cons'] at hchCA
  refine ⟨?_, rfl, ?_, ?_⟩
  · constructor
    case nonnil => simp
    case contig =>
      dsimp only
      rw [contigFrom_append]
      refine ⟨hcontig0.1, ?_⟩
      have h1 := hcontig0.2
      simp only [contigFrom] at h1 ⊢
      refine ⟨by omega, ?_⟩
      have he : 0 + sizesSum B + cur'.size = 0 + sizesSum B + cur.size := by
        rw [hcur']
        dsimp only
        omega
      rw [he]
      exact h1.2
    case total =>
      dsimp only
      have h0 := hinv.total
      rw [hm, sizesSum_append, sizesSum_cons] at h0
      rw [sizesSum_append, sizesSum_cons, hcur']
      dsimp only
      omega
    case noAdj =>
      dsimp only
      unfold noTwoAdjFree
      rw [List.chain'_append, List.chain'_cons']
      refine ⟨hchB, ⟨?_, hchCA.2⟩, ?_⟩
      · intro b _ hcontra
        exact hcur's hcontra.1
      · intro x _ y hy hcontra
        have hy' : y = cur' := by
          simp only [List.head?_cons, Option.mem_def, Option.some.injEq] at hy
          exact hy.symm
        rw [hy'] at hcontra
        exact hcur's hcontra.2
    case freeIff =>
      intro n hn
      dsimp only at hn
      rcases List.mem_append.mp hn with h1 | h1
      · exact hinv.freeIff n (by rw [hm]; exact List.mem_append_left _ h1)
      · rcases List.mem_cons.mp h1 with h2 | h2
        · subst h2
          constructor
          · intro hc; exact absurd hc hcur's
          · intro hc
            rw [hcur'] at hc
            cases hc
        · refine hinv.freeIff n ?_
          rw [hm]
          exact List.mem_append_right _ (List.mem_cons_of_mem _ h2)
    case hmatch =>
      intro n hn hh hhh
      dsimp only at hn
      rcases List.mem_append.mp hn with h1 | h1
      · exact hinv.hmatch n (by rw [hm]; exact List.mem_append_left _ h1) hh hhh
      · rcases List.mem_cons.mp h1 with h2 | h2
        · subst h2
          rw [hcur'] at hhh
          have hd : hdl = hh := Option.some_inj.mp hhh
          subst hd
          simp only [hcur']
          exact ⟨hh1, hh2⟩
        · refine hinv.hmatch n ?_ hh hhh
          rw [hm]
          exact List.mem_append_right _ (List.mem_cons_of_mem _ h2)
    case fcount =>
      dsimp only
      rw [freeCountOf_append, freeCountOf_cons_used cur' A hcur's]
      omega
    case fsum =>
      dsimp only
      rw [freeSizeOf_append, freeSizeOf_cons_used cur' A hcur's]
      omega
    case nodup => exact hnodup'
    case idbound =>
      intro n hn
      dsimp only at hn ⊢
      rcases List.mem_append.mp hn with h1 | h1
      · exact hinv.idbound n (by rw [hm]; exact List.mem_append_left _ h1)
      · rcases List.mem_cons.mp h1 with h2 | h2
        · subst h2
          exact hinv.idbound cur (by rw [hm]; simp)
        · refine hinv.idbound n ?_
          rw [hm]
          exact List.mem_append_right _ (List.mem_cons_of_mem _ h2)
    case indexPerm =>
      dsimp only
      have hreg' : regNids (B ++ cur' :: A) = regNids B ++ regNids A := by
        rw [regNids_append, regNids_cons_unreg cur' A (fun hc => hcur's hc.1)]
      rw [hreg']
      exact hperm1
    case indexSorted =>
      dsimp only
      refine indexSortedFor_congr (B ++ A) (B ++ cur' :: A) _ ?_ hsorted1
      intro j hj
      have hne : j ≠ cur.nid := fun hc => hnomem1 (hc ▸ hj)
      exact idSize_middle_ne B A cur' j hne
  · dsimp only
    have hOld : usedCountOf (B ++ cur :: A)
        = usedCountOf B + usedCountOf A := by
      rw [usedCountOf_append, usedCountOf_cons_free cur A hcf]
    have hNew : usedCountOf (B ++ cur' :: A)
        = usedCountOf B + (usedCountOf A + 1) := by
      rw [usedCountOf_append, usedCountOf_cons_used cur' A hcur's]
    rw [hm, hOld, hNew]
    omega
  · dsimp only
    have hOld : usedSizeOf (B ++ cur :: A)
        = usedSizeOf B + usedSizeOf A := by
      rw [usedSizeOf_append, usedSizeOf_cons_free cur A hcf]
    have hNew : usedSizeOf (B ++ cur' :: A)
        = usedSizeOf B + (cur'.size + usedSizeOf A) := by
      rw [usedSizeOf_append, usedSizeOf_cons_used cur' A hcur's]
    rw [hm, hOld, hNew, hcur']
    dsimp only
    omega

theorem metaInv_alloc_ep (m : VmaBlockMetadata) (r : VmaAllocationRequest)
    (t : VmaSuballocationType) (asz : Nat) (hdl : VmaAllocHandle)
    (cur : VmaSuballocation) (B A : List VmaSuballocation)
    (hm : m.m_Suballocations = B ++ cur :: A) (hlen : B.length = r.itemPos)
    (hinv : MetaInv m) (hcf : cur.stype = .free)
    (hasz : 0 < asz) (ht : t ≠ .free)
    (hoff : cur.offset ≤ r.offset) (hfit : r.offset - cur.offset + asz ≤ cur.size)
    (hh1 : hdl.offset = r.offset) (hh2 : hdl.size = asz)
    (hpb : r.offset - cur.offset = 0)
    (hpe : 0 < cur.size - (r.offset - cur.offset) - asz) :
    MetaInv (m.Alloc r t asz hdl) ∧
    (m.Alloc r t asz hdl).m_Size = m.m_Size ∧
    usedCountOf (m.Alloc r t asz hdl).m_Suballocations
      = usedCountOf m.m_Suballocations + 1 ∧
    usedSizeOf (m.Alloc r t asz hdl).m_Suballocations
      = usedSizeOf m.m_Suballocations + asz := by
  have hro : r.offset = cur.offset := by omega
  have hshape := alloc_shape_ep m r t asz hdl cur B A hm hlen hpb hpe
  rw [hshape]
  set cur' : VmaSuballocation := { cur with offset := r.offset, size := asz, stype := t, hAllocation := some hdl } with hcur'
  set peN : VmaSuballocation := ⟨m.nextId, r.offset + asz, cur.size - (r.offset - cur.offset) - asz, none, .free⟩ with hpeN
  obtain ⟨hperm1, hsorted1, hsub1, hnomem1, hnodup1⟩ :=
    alloc_unreg_facts m cur B A hm hinv hcf
  have hcur's : cur'.stype ≠ .free := ht
  have hfreshnid : m.nextId ∉ m.m_Suballocations.map (fun n => n.nid) := by
    intro hmem
    obtain ⟨n, hn, he⟩ := List.mem_map.mp hmem
    have := hinv.idbound n hn
    omega
  have hpermMap : ((B ++ cur' :: peN :: A).map (fun n => n.nid)).Perm
      (peN.nid :: ((B ++ cur :: A).map (fun n => n.nid))) := by
    have h1 : (B ++ cur' :: peN :: A).map (fun n => n.nid)
        = (B.map (fun n => n.nid) ++ [cur.nid]) ++ peN.nid :: A.map (fun n => n.nid) := by
      simp [hcur', hpeN]
    have h2 : (B ++ cur :: A).map (fun n => n.nid)
        = (B.map (fun n => n.nid) ++ [cur.nid]) ++ A.map (fun n => n.nid) := by
      simp
    rw [h1, h2]
    exact List.perm_middle
  have hnodup2 : ((B ++ cur' :: peN :: A).map (fun n => n.nid)).Nodup := by
    rw [hpermMap.nodup_iff]
    refine List.Nodup.cons ?_ (hm ▸ hinv.nodup)
    show peN.nid ∉ (B ++ cur :: A).map (fun n => n.nid)
    rw [← hm]
    exact hfreshnid
  have hfresh : ∀ j ∈ UnregisterFreeSuballocation m.m_Suballocations
      m.m_FreeSuballocationsBySize cur.nid, j ≠ peN.nid := by
    intro j hj
    have := idx_lt_nextId m hinv j (hsub1 j hj)
    show j ≠ m.nextId
    omega
  have hsorted1' : indexSortedFor ((B ++ [cur']) ++ A)
      (UnregisterFreeSuballocation m.m_Suballocations
        m.m_FreeSuballocationsBySize cur.nid) := by
    rw [List.append_assoc]
    refine indexSortedFor_congr (B ++ A) _ _ ?_ hsorted1
    intro j hj
    have hne : j ≠ cur.nid := fun hc => hnomem1 (hc ▸ hj)
    exact idSize_middle_ne B A cur' j hne
  have hnodup2' : (((B ++ [cur']) ++ peN :: A).map (fun n => n.nid)).Nodup := by
    rw [List.append_assoc]
    exact hnodup2
  obtain ⟨hsortedFin, hpermBig, hpermSmall⟩ :=
    insertRegister_fresh (B ++ [cur']) A peN
      (UnregisterFreeSuballocation m.m_Suballocations
        m.m_FreeSuballocationsBySize cur.nid) hnodup2' hfresh hsorted1'
  have hassoc : (B ++ [cur']) ++ peN :: A = B ++ cur' :: peN :: A := by simp
  rw [hassoc] at hsortedFin hpermBig hpermSmall
  have hcontig0 := hinv.contig
  rw [hm, contigFrom_append] at hcontig0
  have hfc0 := hinv.fcount
  rw [hm, freeCountOf_append, freeCountOf_cons_free cur A hcf] at hfc0
  have hfs0 := hinv.fsum
  rw [hm, freeSizeOf_append, freeSizeOf_cons_free cur A hcf] at hfs0
  have hchain0 := hinv.noAdj
  rw [hm] at hchain0
  unfold noTwoAdjFree at hchain0
  rw [List.chain'_append] at hchain0
  obtain ⟨hchB, hchCA, hlink⟩ := hchain0
  rw [List.chain'_cons'] at hchCA
  refine ⟨?_, rfl, ?_, ?_⟩
  · constructor
    case nonnil => simp
    case contig =>
      dsimp only
      rw [contigFrom_append]
      refine ⟨hcontig0.1, ?_⟩
      have h1 := hcontig0.2
      simp only [contigFrom] at h1 ⊢
      refine ⟨?_, ?_, ?_⟩
      · show r.offset = 0 + sizesSum B
        omega
      · show r.offset + asz = 0 + sizesSum B + asz
        omega
      · show contigFrom
          (0 + sizesSum B + asz + (cur.size - (r.offset - cur.offset) - asz)) A
        have he : 0 + sizesSum B + asz + (cur.size - (r.offset - cur.offset) - asz)
            = 0 + sizesSum B + cur.size := by omega
        rw [he]
        exact h1.2
    case total =>
      dsimp only
      have h0 := hinv.total
      rw [hm, sizesSum_append, sizesSum_cons] at h0
      rw [sizesSum_append, sizesSum_cons, sizesSum_cons, hcur', hpeN]
      dsimp only
      omega
    case noAdj =>
      dsimp only
      unfold noTwoAdjFree
      rw [List.chain'_append, List.chain'_cons', List.chain'_cons']
      refine ⟨hchB, ⟨?_, ?_, hchCA.2⟩, ?_⟩
      · intro b _ hcontra
        exact hcur's hcontra.1
      · intro b hb hcontra
        exact hchCA.1 b hb ⟨hcf, hcontra.2⟩
      · intro x _ y hy hcontra
        have hy' : y = cur' := by
          simp only [List.head?_cons, Option.mem_def, Option.some.injEq] at hy
          exact hy.symm
        rw [hy'] at hcontra
        exact hcur's hcontra.2
    case freeIff =>
      intro n hn
      dsimp only at hn
      rcases List.mem_append.mp hn with h1 | h1
      · exact hinv.freeIff n (by rw [hm]; exact List.mem_append_left _ h1)
      · rcases List.mem_cons.mp h1 with h2 | h2
        · subst h2
          constructor
          · intro hc; exact absurd hc hcur's
          · intro hc
            rw [hcur'] at hc
            cases hc
        · rcases List.mem_cons.mp h2 with h3 | h3
          · subst h3
            constructor
            · intro _; rw [hpeN]
            · intro _; rw [hpeN]
          · refine hinv.freeIff n ?_
            rw [hm]
            exact List.mem_append_right _ (List.mem_cons_of_mem _ h3)
    case hmatch =>
      intro n hn hh hhh
      dsimp only at hn
      rcases List.mem_append.mp hn with h1 | h1
      · exact hinv.hmatch n (by rw [hm]; exact List.mem_append_left _ h1) hh hhh
      · rcases List.mem_cons.mp h1 with h2 | h2
        · subst h2
          rw [hcur'] at hhh
          have hd : hdl = hh := Option.some_inj.mp hhh
          subst hd
          simp only [hcur']
          exact ⟨hh1, hh2⟩
        · rcases List.mem_cons.mp h2 with h3 | h3
          · subst h3
            rw [hpeN] at hhh
            cases hhh
          · refine hinv.hmatch n ?_ hh hhh
            rw [hm]
            exact List.mem_append_right _ (List.mem_cons_of_mem _ h3)
    case fcount =>
      dsimp only
      rw [freeCountOf_append, freeCountOf_cons_used cur' (peN :: A) hcur's,
        freeCountOf_cons_free peN A (by rw [hpeN])]
      omega
    case fsum =>
      dsimp only
      rw [freeSizeOf_append, freeSizeOf_cons_used cur' (peN :: A) hcur's,
        freeSizeOf_cons_free peN A (by rw [hpeN])]
      rw [hpeN]
      dsimp only
      omega
    case nodup => exact hnodup2
    case idbound =>
      intro n hn
      dsimp only at hn ⊢
      rcases List.mem_append.mp hn with h1 | h1
      · have := hinv.idbound n (by rw [hm]; exact List.mem_append_left _ h1)
        omega
      · rcases List.mem_cons.mp h1 with h2 | h2
        · subst h2
          have := hinv.idbound cur (by rw [hm]; simp)
          rw [hcur']
          dsimp only
          omega
        · rcases List.mem_cons.mp h2 with h3 | h3
          · subst h3
            rw [hpeN]
            dsimp only
            omega
          · have : n.nid < m.nextId := by
              refine hinv.idbound n ?_
              rw [hm]
              exact List.mem_append_right _ (List.mem_cons_of_mem _ h3)
            omega
    case indexPerm =>
      dsimp only
      have hreg' : regNids (B ++ cur' :: peN :: A)
          = regNids B ++ regNids (peN :: A) := by
        rw [regNids_append, regNids_cons cur', regNids_single_unreg cur'
          (fun hc => hcur's hc.1)]
        rfl
      rw [hreg']
      by_cases hbig : VMA_MIN_FREE_SUBALLOCATION_SIZE_TO_REGISTER ≤ peN.size
      · rw [regNids_cons_reg peN A (by rw [hpeN]) hbig]
        refine ((hpermBig hbig).trans ((hperm1).cons peN.nid)).trans ?_
        exact List.perm_middle.symm
      · rw [regNids_cons_unreg peN A (fun hc => hbig hc.2),
          hpermSmall (by omega)]
        exact hperm1
    case indexSorted => exact hsortedFin
  · dsimp only
    have hOld : usedCountOf (B ++ cur :: A)
        = usedCountOf B + usedCountOf A := by
      rw [usedCountOf_append, usedCountOf_cons_free cur A hcf]
    have hNew : usedCountOf (B ++ cur' :: peN :: A)
        = usedCountOf B + (usedCountOf A + 1) := by
      rw [usedCountOf_append, usedCountOf_cons_used cur' (peN :: A) hcur's,
        usedCountOf_cons_free peN A (by rw [hpeN])]
    rw [hm, hOld, hNew]
    omega
  · dsimp only
    have hOld : usedSizeOf (B ++ cur :: A)
        = usedSizeOf B + usedSizeOf A := by
      rw [usedSizeOf_append, usedSizeOf_cons_free cur A hcf]
    have hNew : usedSizeOf (B ++ cur' :: peN :: A)
        = usedSizeOf B + (cur'.size + usedSizeOf A) := by
      rw [usedSizeOf_append, usedSizeOf_cons_used cur' (peN :: A) hcur's,
        usedSizeOf_cons_free peN A (by rw [hpeN])]
    rw [hm, hOld, hNew, hcur']
    dsimp only
    omega

theorem metaInv_alloc_pe (m : VmaBlockMetadata) (r : VmaAllocationRequest)
    (t : VmaSuballocationType) (asz : Nat) (hdl : VmaAllocHandle)
    (cur : VmaSuballocation) (B A : List VmaSuballocation)
    (hm : m.m_Suballocations = B ++ cur :: A) (hlen : B.length = r.itemPos)
    (hinv : MetaInv m) (hcf : cur.stype = .free)
    (hasz : 0 < asz) (ht : t ≠ .free)
    (hoff : cur.offset ≤ r.offset) (hfit : r.offset - cur.offset + asz ≤ cur.size)
    (hh1 : hdl.offset = r.offset) (hh2 : hdl.size = asz)
    (hpb : 0 < r.offset - cur.offset)
    (hpe : cur.size - (r.offset - cur.offset) - asz = 0) :
    MetaInv (m.Alloc r t asz hdl) ∧
    (m.Alloc r t asz hdl).m_Size = m.m_Size ∧
    usedCountOf (m.Alloc r t asz hdl).m_Suballocations
      = usedCountOf m.m_Suballocations + 1 ∧
    usedSizeOf (m.Alloc r t asz hdl).m_Suballocations
      = usedSizeOf m.m_Suballocations + asz := by
  have hshape := alloc_shape_pe m r t asz hdl cur B A hm hlen hpb hpe
  rw [hshape]
  set cur' : VmaSuballocation := { cur with offset := r.offset, size := asz, stype := t, hAllocation := some hdl } with hcur'
  set pbN : VmaSuballocation := ⟨m.nextId, r.offset - (r.offset - cur.offset), r.offset - cur.offset, none, .free⟩ with hpbN
  obtain ⟨hperm1, hsorted1, hsub1, hnomem1, hnodup1⟩ :=
    alloc_unreg_facts m cur B A hm hinv hcf
  have hcur's : cur'.stype ≠ .free := ht
  have hfreshnid : m.nextId ∉ m.m_Suballocations.map (fun n => n.nid) := by
    intro hmem
    obtain ⟨n, hn, he⟩ := List.mem_map.mp hmem
    have := hinv.idbound n hn
    omega
  have hpermMap : ((B ++ pbN :: cur' :: A).map (fun n => n.nid)).Perm
      (pbN.nid :: ((B ++ cur :: A).map (fun n => n.nid))) := by
    have h1 : (B ++ pbN :: cur' :: A).map (fun n => n.nid)
        = B.map (fun n => n.nid) ++ pbN.nid :: (cur.nid :: A.map (fun n => n.nid)) := by
      simp [hcur', hpbN]
    have h2 : (B ++ cur :: A).map (fun n => n.nid)
        = B.map (fun n => n.nid) ++ cur.nid :: A.map (fun n => n.nid) := by
      simp
    rw [h1, h2]
    exact List.perm_middle
  have hnodup2 : ((B ++ pbN :: cur' :: A).map (fun n => n.nid)).Nodup := by
    rw [hpermMap.nodup_iff]
    refine List.Nodup.cons ?_ (hm ▸ hinv.nodup)
    show pbN.nid ∉ (B ++ cur :: A).map (fun n => n.nid)
    rw [← hm]
    exact hfreshnid
  have hfresh : ∀ j ∈ UnregisterFreeSuballocation m.m_Suballocations
      m.m_FreeSuballocationsBySize cur.nid, j ≠ pbN.nid := by
    intro j hj
    have := idx_lt_nextId m hinv j (hsub1 j hj)
    show j ≠ m.nextId
    omega
  have hsorted1' : indexSortedFor (B ++ cur' :: A)
      (UnregisterFreeSuballocation m.m_Suballocations
        m.m_FreeSuballocationsBySize cur.nid) := by
    refine indexSortedFor_congr (B ++ A) _ _ ?_ hsorted1
    intro j hj
    have hne : j ≠ cur.nid := fun hc => hnomem1 (hc ▸ hj)
    exact idSize_middle_ne B A cur' j hne
  obtain ⟨hsortedFin, hpermBig, hpermSmall⟩ :=
    insertRegister_fresh B (cur' :: A) pbN
      (UnregisterFreeSuballocation m.m_Suballocations
        m.m_FreeSuballocationsBySize cur.nid) hnodup2 hfresh hsorted1'
  have hcontig0 := hinv.contig
  rw [hm, contigFrom_append] at hcontig0
  have hfc0 := hinv.fcount
  rw [hm, freeCountOf_append, freeCountOf_cons_free cur A hcf] at hfc0
  have hfs0 := hinv.fsum
  rw [hm, freeSizeOf_append, freeSizeOf_cons_free cur A hcf] at hfs0
  have hchain0 := hinv.noAdj
  rw [hm] at hchain0
  unfold noTwoAdjFree at hchain0
  rw [List.chain'_append] at hchain0
  obtain ⟨hchB, hchCA, hlink⟩ := hchain0
  rw [List.chain'_cons'] at hchCA
  refine ⟨?_, rfl, ?_, ?_⟩
  · constructor
    case nonnil => simp
    case contig =>
      dsimp only
      rw [contigFrom_append]
      refine ⟨hcontig0.1, ?_⟩
      have h1 := hcontig0.2
      simp only [contigFrom] at h1 ⊢
      obtain ⟨hco, hcr⟩ := h1
      refine ⟨?_, ?_, ?_⟩
      · show r.offset - (r.offset - cur.offset) = 0 + sizesSum B
        omega
      · show r.offset = 0 + sizesSum B + (r.offset - cur.offset)
        omega
      · show contigFrom (0 + sizesSum B + (r.offset - cur.offset) + asz) A
        have he : 0 + sizesSum B + (r.offset - cur.offset) + asz
            = 0 + sizesSum B + cur.size := by omega
        rw [he]
        exact hcr
    case total =>
      dsimp only
      have h0 := hinv.total
      rw [hm, sizesSum_append, sizesSum_cons] at h0
      rw [sizesSum_append, sizesSum_cons, sizesSum_cons, hcur', hpbN]
      dsimp only
      omega
    case noAdj =>
      dsimp only
      unfold noTwoAdjFree
      rw [List.chain'_append, List.chain'_cons', List.chain'_cons']
      refine ⟨hchB, ⟨?_, ?_, hchCA.2⟩, ?_⟩
      · intro b hb hcontra
        have hb' : b = cur' := by
          simp only [List.head?_cons, Option.mem_def, Option.some.injEq] at hb
          exact hb.symm
        rw [hb'] at hcontra
        exact hcur's hcontra.2
      · intro b _ hcontra
        exact hcur's hcontra.1
      · intro x hx y hy hcontra
        have hy' : y = pbN := by
          simp only [List.head?_cons, Option.mem_def, Option.some.injEq] at hy
          exact hy.symm
        exact hlink x hx cur (by simp) ⟨hcontra.1, hcf⟩
    case freeIff =>
      intro n hn
      dsimp only at hn
      rcases List.mem_append.mp hn with h1 | h1
      · exact hinv.freeIff n (by rw [hm]; exact List.mem_append_left _ h1)
      · rcases List.mem_cons.mp h1 with h2 | h2
        · subst h2
          constructor
          · intro _; rw [hpbN]
          · intro _; rw [hpbN]
        · rcases List.mem_cons.mp h2 with h3 | h3
          · subst h3
            constructor
            · intro hc; exact absurd hc hcur's
            · intro hc
              rw [hcur'] at hc
              cases hc
          · refine hinv.freeIff n ?_
            rw [hm]
            exact List.mem_append_right _ (List.mem_cons_of_mem _ h3)
    case hmatch =>
      intro n hn hh hhh
      dsimp only at hn
      rcases List.mem_append.mp hn with h1 | h1
      · exact hinv.hmatch n (by rw [hm]; exact List.mem_append_left _ h1) hh hhh
      · rcases List.mem_cons.mp h1 with h2 | h2
        · subst h2
          rw [hpbN] at hhh
          cases hhh
        · rcases List.mem_cons.mp h2 with h3 | h3
          · subst h3
            rw [hcur'] at hhh
            have hd : hdl = hh := Option.some_inj.mp hhh
            subst hd
            simp only [hcur']
            exact ⟨hh1, hh2⟩
          · refine hinv.hmatch n ?_ hh hhh
            rw [hm]
            exact List.mem_append_right _ (List.mem_cons_of_mem _ h3)
    case fcount =>
      dsimp only
      rw [freeCountOf_append, freeCountOf_cons_free pbN (cur' :: A) (by rw [hpbN]),
        freeCountOf_cons_used cur' A hcur's]
      omega
    case fsum =>
      dsimp only
      rw [freeSizeOf_append, freeSizeOf_cons_free pbN (cur' :: A) (by rw [hpbN]),
        freeSizeOf_cons_used cur' A hcur's]
      rw [hpbN]
      dsimp only
      omega
    case nodup => exact hnodup2
    case idbound =>
      intro n hn
      dsimp only at hn ⊢
      rcases List.mem_append.mp hn with h1 | h1
      · have := hinv.idbound n (by rw [hm]; exact List.mem_append_left _ h1)
        omega
      · rcases List.mem_cons.mp h1 with h2 | h2
        · subst h2
          rw [hpbN]
          dsimp only
          omega
        · rcases List.mem_cons.mp h2 with h3 | h3
          · subst h3
            have := hinv.idbound cur (by rw [hm]; simp)
            rw [hcur']
            dsimp only
            omega
          · have : n.nid < m.nextId := by
              refine hinv.idbound n ?_
              rw [hm]
              exact List.mem_append_right _ (List.mem_cons_of_mem _ h3)
            omega
    case indexPerm =>
      dsimp only
      by_cases hbig : VMA_MIN_FREE_SUBALLOCATION_SIZE_TO_REGISTER ≤ pbN.size
      · have hreg' : regNids (B ++ pbN :: cur' :: A)
            = regNids B ++ pbN.nid :: regNids A := by
          rw [regNids_append, regNids_cons_reg pbN (cur' :: A) (by rw [hpbN]) hbig,
            regNids_cons_unreg cur' A (fun hc => hcur's hc.1)]
        rw [hreg']
        refine ((hpermBig hbig).trans ((hperm1).cons pbN.nid)).trans ?_
        exact List.perm_middle.symm
      · have hreg' : regNids (B ++ pbN :: cur' :: A)
            = regNids B ++ regNids A := by
          rw [regNids_append, regNids_cons_unreg pbN (cur' :: A) (fun hc => hbig hc.2),
            regNids_cons_unreg cur' A (fun hc => hcur's hc.1)]
        rw [hreg', hpermSmall (by omega)]
        exact hperm1
    case indexSorted => exact hsortedFin
  · dsimp only
    have hOld : usedCountOf (B ++ cur :: A)
        = usedCountOf B + usedCountOf A := by
      rw [usedCountOf_append, usedCountOf_cons_free cur A hcf]
    have hNew : usedCountOf (B ++ pbN :: cur' :: A)
        = usedCountOf B + (usedCountOf A + 1) := by
      rw [usedCountOf_append, usedCountOf_cons_free pbN (cur' :: A) (by rw [hpbN]),
        usedCountOf_cons_used cur' A hcur's]
    rw [hm, hOld, hNew]
    omega
  · dsimp only
    have hOld : usedSizeOf (B ++ cur :: A)
        = usedSizeOf B + usedSizeOf A := by
      rw [usedSizeOf_append, usedSizeOf_cons_free cur A hcf]
    have hNew : usedSizeOf (B ++ pbN :: cur' :: A)
        = usedSizeOf B + (cur'.size + usedSizeOf A) := by
      rw [usedSizeOf_append, usedSizeOf_cons_free pbN (cur' :: A) (by rw [hpbN]),
        usedSizeOf_cons_used cur' A hcur's]
    rw [hm, hOld, hNew, hcur']
    dsimp only
    omega

theorem metaInv_alloc_pp (m : VmaBlockMetadata) (r : VmaAllocationRequest)
    (t : VmaSuballocationType) (asz : Nat) (hdl : VmaAllocHandle)
    (cur : VmaSuballocation) (B A : List VmaSuballocation)
    (hm : m.m_Suballocations = B ++ cur :: A) (hlen : B.length = r.itemPos)
    (hinv : MetaInv m) (hcf : cur.stype = .free)
    (hasz : 0 < asz) (ht : t ≠ .free)
    (hoff : cur.offset ≤ r.offset) (hfit : r.offset - cur.offset + asz ≤ cur.size)
    (hh1 : hdl.offset = r.offset) (hh2 : hdl.size = asz)
    (hpb : 0 < r.offset - cur.offset)
    (hpe : 0 < cur.size - (r.offset - cur.offset) - asz) :
    MetaInv (m.Alloc r t asz hdl) ∧
    (m.Alloc r t asz hdl).m_Size = m.m_Size ∧
    usedCountOf (m.Alloc r t asz hdl).m_Suballocations
      = usedCountOf m.m_Suballocations + 1 ∧
    usedSizeOf (m.Alloc r t asz hdl).m_Suballocations
      = usedSizeOf m.m_Suballocations + asz := by
  have hshape := alloc_shape_pp m r t asz hdl cur B A hm hlen hpb hpe
  rw [hshape]
  set cur' : VmaSuballocation := { cur with offset := r.offset, size := asz, stype := t, hAllocation := some hdl } with hcur'
  set peN : VmaSuballocation := ⟨m.nextId, r.offset + asz, cur.size - (r.offset - cur.offset) - asz, none, .free⟩ with hpeN
  set pbN : VmaSuballocation := ⟨m.nextId + 1, r.offset - (r.offset - cur.offset), r.offset - cur.offset, none, .free⟩ with hpbN
  obtain ⟨hperm1, hsorted1, hsub1, hnomem1, hnodup1⟩ :=
    alloc_unreg_facts m cur B A hm hinv hcf
  have hcur's : cur'.stype ≠ .free := ht
  have hfreshnid : ∀ k, m.nextId ≤ k → k ∉ m.m_Suballocations.map (fun n => n.nid) := by
    intro k hk hmem
    obtain ⟨n, hn, he⟩ := List.mem_map.mp hmem
    have := hinv.idbound n hn
    omega
  have hpermMap : ((B ++ cur' :: peN :: A).map (fun n => n.nid)).Perm
      (peN.nid :: ((B ++ cur :: A).map (fun n => n.nid))) := by
    have h1 : (B ++ cur' :: peN :: A).map (fun n => n.nid)
        = (B.map (fun n => n.nid) ++ [cur.nid]) ++ peN.nid :: A.map (fun n => n.nid) := by
      simp [hcur', hpeN]
    have h2 : (B ++ cur :: A).map (fun n => n.nid)
        = (B.map (fun n => n.nid) ++ [cur.nid]) ++ A.map (fun n => n.nid) := by
      simp
    rw [h1, h2]
    exact List.perm_middle
  have hnodup2 : ((B ++ cur' :: peN :: A).map (fun n => n.nid)).Nodup := by
    rw [hpermMap.nodup_iff]
    refine List.Nodup.cons ?_ (hm ▸ hinv.nodup)
    show peN.nid ∉ (B ++ cur :: A).map (fun n => n.nid)
    rw [← hm]
    exact hfreshnid m.nextId (by omega)
  have hfresh : ∀ j ∈ UnregisterFreeSuballocation m.m_Suballocations
      m.m_FreeSuballocationsBySize cur.nid, j ≠ peN.nid := by
    intro j hj
    have := idx_lt_nextId m hinv j (hsub1 j hj)
    show j ≠ m.nextId
    omega
  have hsorted1' : indexSortedFor ((B ++ [cur']) ++ A)
      (UnregisterFreeSuballocation m.m_Suballocations
        m.m_FreeSuballocationsBySize cur.nid) := by
    rw [List.append_assoc]
    refine indexSortedFor_congr (B ++ A) _ _ ?_ hsorted1
    intro j hj
    have hne : j ≠ cur.nid := fun hc => hnomem1 (hc ▸ hj)
    exact idSize_middle_ne B A cur' j hne
  have hnodup2' : (((B ++ [cur']) ++ peN :: A).map (fun n => n.nid)).Nodup := by
    rw [List.append_assoc]
    exact hnodup2
  obtain ⟨hsorted2, hpermBig2, hpermSmall2⟩ :=
    insertRegister_fresh (B ++ [cur']) A peN
      (UnregisterFreeSuballocation m.m_Suballocations
        m.m_FreeSuballocationsBySize cur.nid) hnodup2' hfresh hsorted1'
  have hassoc : (B ++ [cur']) ++ peN :: A = B ++ cur' :: peN :: A := by simp
  rw [hassoc] at hsorted2 hpermBig2 hpermSmall2
  have hpermMap3 : ((B ++ pbN :: cur' :: peN :: A).map (fun n => n.nid)).Perm
      (pbN.nid :: ((B ++ cur' :: peN :: A).map (fun n => n.nid))) := by
    simp only [List.map_append, List.map_cons]
    exact List.perm_middle
  have hnodup3 : ((B ++ pbN :: cur' :: peN :: A).map (fun n => n.nid)).Nodup := by
    rw [hpermMap3.nodup_iff]
    refine List.Nodup.cons ?_ hnodup2
    intro hmem
    have := hpermMap.mem_iff.mp hmem
    rcases List.mem_cons.mp this with h1 | h1
    · rw [hpbN, hpeN] at h1
      simp at h1
    · rw [← hm] at h1
      exact hfreshnid (m.nextId + 1) (by omega) h1
  have hfresh2 : ∀ j ∈ RegisterFreeSuballocation (B ++ cur' :: peN :: A)
      (UnregisterFreeSuballocation m.m_Suballocations
        m.m_FreeSuballocationsBySize cur.nid) peN.nid, j ≠ pbN.nid := by
    intro j hj
    by_cases hbig : VMA_MIN_FREE_SUBALLOCATION_SIZE_TO_REGISTER ≤ peN.size
    · have := (hpermBig2 hbig).mem_iff.mp hj
      rcases List.mem_cons.mp this with h1 | h1
      · rw [h1]
        show m.nextId ≠ m.nextId + 1
        omega
      · have := idx_lt_nextId m hinv j (hsub1 j h1)
        show j ≠ m.nextId + 1
        omega
    · rw [hpermSmall2 (by omega)] at hj
      have := idx_lt_nextId m hinv j (hsub1 j hj)
      show j ≠ m.nextId + 1
      omega
  obtain ⟨hsortedFin, hpermBig3, hpermSmall3⟩ :=
    insertRegister_fresh B (cur' :: peN :: A) pbN
      (RegisterFreeSuballocation (B ++ cur' :: peN :: A)
        (UnregisterFreeSuballocation m.m_Suballocations
          m.m_FreeSuballocationsBySize cur.nid) peN.nid) hnodup3 hfresh2 hsorted2
  have hcontig0 := hinv.contig
  rw [hm, contigFrom_append] at hcontig0
  have hfc0 := hinv.fcount
  rw [hm, freeCountOf_append, freeCountOf_cons_free cur A hcf] at hfc0
  have hfs0 := hinv.fsum
  rw [hm, freeSizeOf_append, freeSizeOf_cons_free cur A hcf] at hfs0
  have hchain0 := hinv.noAdj
  rw [hm] at hchain0
  unfold noTwoAdjFree at hchain0
  rw [List.chain'_append] at hchain0
  obtain ⟨hchB, hchCA, hlink⟩ := hchain0
  rw [List.chain'_cons'] at hchCA
  refine ⟨?_, rfl, ?_, ?_⟩
  · constructor
    case nonnil => simp
    case contig =>
      dsimp only
      rw [contigFrom_append]
      refine ⟨hcontig0.1, ?_⟩
      have h1 := hcontig0.2
      simp only [contigFrom] at h1 ⊢
      obtain ⟨hco, hcr⟩ := h1
      refine ⟨?_, ?_, ?_, ?_⟩
      · show r.offset - (r.offset - cur.offset) = 0 + sizesSum B
        omega
      · show r.offset = 0 + sizesSum B + (r.offset - cur.offset)
        omega
      · show r.offset + asz = 0 + sizesSum B + (r.offset - cur.offset) + asz
        omega
      · show contigFrom (0 + sizesSum B + (r.offset - cur.offset) + asz +
          (cur.size - (r.offset - cur.offset) - asz)) A
        have he : 0 + sizesSum B + (r.offset - cur.offset) + asz +
            (cur.size - (r.offset - cur.offset) - asz) = 0 + sizesSum B + cur.size := by
          omega
        rw [he]
        exact hcr
    case total =>
      dsimp only
      have h0 := hinv.total
      rw [hm, sizesSum_append, sizesSum_cons] at h0
      rw [sizesSum_append, sizesSum_cons, sizesSum_cons, sizesSum_cons,
        hcur', hpeN, hpbN]
      dsimp only
      omega
    case noAdj =>
      dsimp only
      unfold noTwoAdjFree
      rw [List.chain'_append, List.chain'_cons', List.chain'_cons',
        List.chain'_cons']
      refine ⟨hchB, ⟨?_, ?_, ?_, hchCA.2⟩, ?_⟩
      · intro b hb hcontra
        have hb' : b = cur' := by
          simp only [List.head?_cons, Option.mem_def, Option.some.injEq] at hb
          exact hb.symm
        rw [hb'] at hcontra
        exact hcur's hcontra.2
      · intro b _ hcontra
        exact hcur's hcontra.1
      · intro b hb hcontra
        exact hchCA.1 b hb ⟨hcf, hcontra.2⟩
      · intro x hx y hy hcontra
        exact hlink x hx cur (by simp) ⟨hcontra.1, hcf⟩
    case freeIff =>
      intro n hn
      dsimp only at hn
      rcases List.mem_append.mp hn with h1 | h1
      · exact hinv.freeIff n (by rw [hm]; exact List.mem_append_left _ h1)
      · rcases List.mem_cons.mp h1 with h2 | h2
        · subst h2
          exact ⟨fun _ => by rw [hpbN], fun _ => by rw [hpbN]⟩
        · rcases List.mem_cons.mp h2 with h3 | h3
          · subst h3
            constructor
            · intro hc; exact absurd hc hcur's
            · intro hc
              rw [hcur'] at hc
              cases hc
          · rcases List.mem_cons.mp h3 with h4 | h4
            · subst h4
              exact ⟨fun _ => by rw [hpeN], fun _ => by rw [hpeN]⟩
            · refine hinv.freeIff n ?_
              rw [hm]
              exact List.mem_append_right _ (List.mem_cons_of_mem _ h4)
    case hmatch =>
      intro n hn hh hhh
      dsimp only at hn
      rcases List.mem_append.mp hn with h1 | h1
      · exact hinv.hmatch n (by rw [hm]; exact List.mem_append_left _ h1) hh hhh
      · rcases List.mem_cons.mp h1 with h2 | h2
        · subst h2
          rw [hpbN] at hhh
          cases hhh
        · rcases List.mem_cons.mp h2 with h3 | h3
          · subst h3
            rw [hcur'] at hhh
            have hd : hdl = hh := Option.some_inj.mp hhh
            subst hd
            simp only [hcur']
            exact ⟨hh1, hh2⟩
          · rcases List.mem_cons.mp h3 with h4 | h4
            · subst h4
              rw [hpeN] at hhh
              cases hhh
            · refine hinv.hmatch n ?_ hh hhh
              rw [hm]
              exact List.mem_append_right _ (List.mem_cons_of_mem _ h4)
    case fcount =>
      dsimp only
      rw [freeCountOf_append, freeCountOf_cons_free pbN _ (by rw [hpbN]),
        freeCountOf_cons_used cur' _ hcur's,
        freeCountOf_cons_free peN A (by rw [hpeN])]
      omega
    case fsum =>
      dsimp only
      rw [freeSizeOf_append, freeSizeOf_cons_free pbN _ (by rw [hpbN]),
        freeSizeOf_cons_used cur' _ hcur's,
        freeSizeOf_cons_free peN A (by rw [hpeN])]
      rw [hpbN, hpeN]
      dsimp only
      omega
    case nodup => exact hnodup3
    case idbound =>
      intro n hn
      dsimp only at hn ⊢
      rcases List.mem_append.mp hn with h1 | h1
      · have := hinv.idbound n (by rw [hm]; exact List.mem_append_left _ h1)
        omega
      · rcases List.mem_cons.mp h1 with h2 | h2
        · subst h2
          rw [hpbN]
          dsimp only
          omega
        · rcases List.mem_cons.mp h2 with h3 | h3
          · subst h3
            have := hinv.idbound cur (by rw [hm]; simp)
            rw [hcur']
            dsimp only
            omega
          · rcases List.mem_cons.mp h3 with h4 | h4
            · subst h4
              rw [hpeN]
              dsimp only
              omega
            · have : n.nid < m.nextId := by
                refine hinv.idbound n ?_
                rw [hm]
                exact List.mem_append_right _ (List.mem_cons_of_mem _ h4)
              omega
    case indexPerm =>
      dsimp only
      by_cases hbigB : VMA_MIN_FREE_SUBALLOCATION_SIZE_TO_REGISTER ≤ pbN.size
      · by_cases hbigE : VMA_MIN_FREE_SUBALLOCATION_SIZE_TO_REGISTER ≤ peN.size
        · have hreg' : regNids (B ++ pbN :: cur' :: peN :: A)
              = regNids B ++ pbN.nid :: peN.nid :: regNids A := by
            rw [regNids_append, regNids_cons_reg pbN _ (by rw [hpbN]) hbigB,
              regNids_cons_unreg cur' _ (fun hc => hcur's hc.1),
              regNids_cons_reg peN A (by rw [hpeN]) hbigE]
          rw [hreg']
          refine ((hpermBig3 hbigB).trans
            (((hpermBig2 hbigE).trans (hperm1.cons peN.nid)).cons pbN.nid)).trans ?_
          refine List.Perm.trans ?_ List.perm_middle.symm
          exact (List.perm_middle.symm).cons pbN.nid
        · have hreg' : regNids (B ++ pbN :: cur' :: peN :: A)
              = regNids B ++ pbN.nid :: regNids A := by
            rw [regNids_append, regNids_cons_reg pbN _ (by rw [hpbN]) hbigB,
              regNids_cons_unreg cur' _ (fun hc => hcur's hc.1),
              regNids_cons_unreg peN A (fun hc => hbigE hc.2)]
          rw [hreg']
          refine ((hpermBig3 hbigB).trans ?_).trans List.perm_middle.symm
          rw [hpermSmall2 (by omega)]
          exact hperm1.cons pbN.nid
      · by_cases hbigE : VMA_MIN_FREE_SUBALLOCATION_SIZE_TO_REGISTER ≤ peN.size
        · have hreg' : regNids (B ++ pbN :: cur' :: peN :: A)
              = regNids B ++ peN.nid :: regNids A := by
            rw [regNids_append, regNids_cons_unreg pbN _ (fun hc => hbigB hc.2),
              regNids_cons_unreg cur' _ (fun hc => hcur's hc.1),
              regNids_cons_reg peN A (by rw [hpeN]) hbigE]
          rw [hreg', hpermSmall3 (by omega)]
          refine ((hpermBig2 hbigE).trans (hperm1.cons peN.nid)).trans ?_
          exact List.perm_middle.symm
        · have hreg' : regNids (B ++ pbN :: cur' :: peN :: A)
              = regNids B ++ regNids A := by
            rw [regNids_append, regNids_cons_unreg pbN _ (fun hc => hbigB hc.2),
              regNids_cons_unreg cur' _ (fun hc => hcur's hc.1),
              regNids_cons_unreg peN A (fun hc => hbigE hc.2)]
          rw [hreg', hpermSmall3 (by omega), hpermSmall2 (by omega)]
          exact hperm1
    case indexSorted => exact hsortedFin
  · dsimp only
    have hOld : usedCountOf (B ++ cur :: A)
        = usedCountOf B + usedCountOf A := by
      rw [usedCountOf_append, usedCountOf_cons_free cur A hcf]
    have hNew : usedCountOf (B ++ pbN :: cur' :: peN :: A)
        = usedCountOf B + (usedCountOf A + 1) := by
      rw [usedCountOf_append, usedCountOf_cons_free pbN _ (by rw [hpbN]),
        usedCountOf_cons_used cur' _ hcur's,
        usedCountOf_cons_free peN A (by rw [hpeN])]
    rw [hm, hOld, hNew]
    omega
  · dsimp only
    have hOld : usedSizeOf (B ++ cur :: A)
        = usedSizeOf B + usedSizeOf A := by
      rw [usedSizeOf_append, usedSizeOf_cons_free cur A hcf]
    have hNew : usedSizeOf (B ++ pbN :: cur' :: peN :: A)
        = usedSizeOf B + (cur'.size + usedSizeOf A) := by
      rw [usedSizeOf_append, usedSizeOf_cons_free pbN _ (by rw [hpbN]),
        usedSizeOf_cons_used cur' _ hcur's,
        usedSizeOf_cons_free peN A (by rw [hpeN])]
    rw [hm, hOld, hNew, hcur']
    dsimp only
    omega

theorem usedCountOf_pos_of_used (l : List VmaSuballocation) (n : VmaSuballocation)
    (hmem : n ∈ l) (hused : n.stype ≠ .free) : 0 < usedCountOf l := by
  unfold usedCountOf
  have : n ∈ l.filter (fun x => !(x.stype == .free)) :=
    List.mem_filter.mpr ⟨hmem, by simpa using hused⟩
  exact List.length_pos.mpr (fun hc => by rw [hc] at this; cases this)

theorem metaInv_allocStep (m m' : VmaBlockMetadata) (h : AllocStep m m')
    (hinv : MetaInv m) :
    MetaInv m' ∧ m'.m_Size = m.m_Size ∧
    usedCountOf m'.m_Suballocations = usedCountOf m.m_Suballocations + 1 := by
  obtain ⟨r, t, asz, aid, lu, cbl, cur, hp, hcf, hasz, ht, hoff, hfit, hm'⟩ := h
  obtain ⟨B, A, hm, hlen⟩ := decomp_of_getElem? _ _ _ hp
  subst hm'
  by_cases hpb : 0 < r.offset - cur.offset
  · by_cases hpe2 : 0 < cur.size - (r.offset - cur.offset) - asz
    · obtain ⟨h1, h2, h3, _⟩ := metaInv_alloc_pp m r t asz
        ⟨aid, r.offset, asz, cbl, lu⟩ cur B A hm hlen hinv hcf hasz ht hoff hfit
        rfl rfl hpb hpe2
      exact ⟨h1, h2, h3⟩
    · obtain ⟨h1, h2, h3, _⟩ := metaInv_alloc_pe m r t asz
        ⟨aid, r.offset, asz, cbl, lu⟩ cur B A hm hlen hinv hcf hasz ht hoff hfit
        rfl rfl hpb (by omega)
      exact ⟨h1, h2, h3⟩
  · by_cases hpe2 : 0 < cur.size - (r.offset - cur.offset) - asz
    · obtain ⟨h1, h2, h3, _⟩ := metaInv_alloc_ep m r t asz
        ⟨aid, r.offset, asz, cbl, lu⟩ cur B A hm hlen hinv hcf hasz ht hoff hfit
        rfl rfl (by omega) hpe2
      exact ⟨h1, h2, h3⟩
    · obtain ⟨h1, h2, h3, _⟩ := metaInv_alloc_ee m r t asz
        ⟨aid, r.offset, asz, cbl, lu⟩ cur B A hm hlen hinv hcf hasz ht hoff hfit
        rfl rfl (by omega) (by omega)
      exact ⟨h1, h2, h3⟩

theorem metaInv_freeStep (m m' : VmaBlockMetadata) (h : FreeStep m m')
    (hinv : MetaInv m) :
    MetaInv m' ∧ m'.m_Size = m.m_Size ∧
    usedCountOf m'.m_Suballocations = usedCountOf m.m_Suballocations - 1 ∧
    0 < usedCountOf m.m_Suballocations := by
  obtain ⟨p, cur, hp, hused, hm'⟩ := h
  subst hm'
  obtain ⟨h1, h2, h3, _⟩ := metaInv_freeSuballocationAt m p cur hp hused hinv
  refine ⟨h1, h2, h3, ?_⟩
  have hmem : cur ∈ m.m_Suballocations := by
    have := List.getElem?_eq_some_iff.mp hp
    obtain ⟨hlt, he⟩ := this
    rw [← he]
    exact List.getElem_mem _
  exact usedCountOf_pos_of_used _ cur hmem hused

theorem metaInv_makeLostLoop (cf fiu : Nat) (ids : List Nat) :
    ∀ (m : VmaBlockMetadata) (cnt : Nat), MetaInv m →
    MetaInv (VmaBlockMetadata.makeAllocationsLostLoop cf fiu ids m cnt).1 ∧
    (VmaBlockMetadata.makeAllocationsLostLoop cf fiu ids m cnt).1.m_Size
      = m.m_Size := by
  induction ids with
  | nil =>
    intro m cnt hinv
    exact ⟨hinv, rfl⟩
  | cons i rest ih =>
    intro m cnt hinv
    rw [VmaBlockMetadata.makeAllocationsLostLoop]
    cases hfi : m.m_Suballocations.findIdx? (fun n => n.nid == i) with
    | none =>
      simp only [hfi]
      exact ih m cnt hinv
    | some p =>
      simp only [hfi]
      cases hge : m.m_Suballocations[p]? with
      | none =>
        simp only [hge]
        exact ih m cnt hinv
      | some nd =>
        simp only [hge]
        by_cases hcond : (!(nd.stype == VmaSuballocationType.free) &&
            (match nd.hAllocation with
             | some h => h.canBecomeLost &&
                 (VmaAllocationMakeLost h.lastUseFrameIndex cf fiu).1
             | none => false)) = true
        · rw [if_pos hcond]
          have hused : nd.stype ≠ .free := by
            have h1 := (Bool.and_eq_true _ _).mp hcond
            intro hc
            rw [hc] at h1
            simp at h1
          obtain ⟨hinv1, hsz1, _, _⟩ :=
            metaInv_freeSuballocationAt m p nd hge hused hinv
          obtain ⟨hinv2, hsz2⟩ := ih (m.FreeSuballocationAt p).1 (cnt + 1) hinv1
          exact ⟨hinv2, by rw [hsz2, hsz1]⟩
        · rw [if_neg hcond]
          exact ih m cnt hinv

theorem metaInv_makeLostStep (m m' : VmaBlockMetadata) (h : MakeLostStep m m')
    (hinv : MetaInv m) :
    MetaInv m' ∧ m'.m_Size = m.m_Size := by
  obtain ⟨cf, fiu, hm'⟩ := h
  subst hm'
  exact metaInv_makeLostLoop cf fiu _ m 0 hinv

theorem metaInv_metaStep (m m' : VmaBlockMetadata) (h : MetaStep m m')
    (hinv : MetaInv m) :
    MetaInv m' ∧ m'.m_Size = m.m_Size := by
  rcases h with h | h | h
  · obtain ⟨h1, h2, _⟩ := metaInv_allocStep m m' h hinv
    exact ⟨h1, h2⟩
  · obtain ⟨h1, h2, _, _⟩ := metaInv_freeStep m m' h hinv
    exact ⟨h1, h2⟩
  · exact metaInv_makeLostStep m m' h hinv

theorem metaInv_reachable (m m' : VmaBlockMetadata) (h : ReachableMeta m m')
    (hinv : MetaInv m) :
    MetaInv m' ∧ m'.m_Size = m.m_Size := by
  induction h with
  | refl => exact ⟨hinv, rfl⟩
  | tail hstep hlast ih =>
    obtain ⟨h1, h2⟩ := ih
    obtain ⟨h3, h4⟩ := metaInv_metaStep _ _ hlast h1
    exact ⟨h3, by rw [h4, h2]⟩

/-! ## Best-fit search characterization -/

theorem find?_of_findIdx? (l : List α) (p : α → Bool) :
    ∀ (i : Nat), l.findIdx? p = some i →
    ∃ x, l[i]? = some x ∧ p x = true ∧ l.find? p = some x := by
  induction l with
  | nil => intro i h; simp at h
  | cons a t ih =>
    intro i h
    rw [List.findIdx?_cons] at h
    by_cases hpa : p a = true
    · rw [if_pos hpa] at h
      have hi : i = 0 := by
        simpa using h.symm
      subst hi
      exact ⟨a, by simp, hpa, by rw [List.find?_cons_of_pos _ hpa]⟩
    · rw [if_neg hpa] at h
      rw [List.findIdx?_succ] at h
      cases ht : t.findIdx? p with
      | none =>
        rw [ht] at h
        simp at h
      | some j =>
        rw [ht] at h
        have hij : j + 1 = i := by simpa using h
        obtain ⟨x, hx1, hx2, hx3⟩ := ih j ht
        refine ⟨x, ?_, hx2, ?_⟩
        · rw [← hij]
          simpa using hx1
        · rw [List.find?_cons_of_neg _ (by simpa using hpa)]
          exact hx3

theorem tryIndexEntries_cons_small (m : VmaBlockMetadata) (gran asz aal : Nat)
    (t : VmaSuballocationType) (i : Nat) (rest : List Nat)
    (hsmall : idSize m.m_Suballocations i < asz) :
    m.tryIndexEntries gran asz aal t (i :: rest)
      = m.tryIndexEntries gran asz aal t rest := by
  rw [VmaBlockMetadata.tryIndexEntries]
  cases hfi : m.m_Suballocations.findIdx? (fun n => n.nid == i) with
  | none => simp only [hfi]
  | some p =>
    simp only [hfi]
    obtain ⟨nd, hnd1, hnd2, hnd3⟩ := find?_of_findIdx? _ _ p hfi
    have hsz : nd.size < asz := by
      have : idSize m.m_Suballocations i = nd.size := by
        unfold idSize findByNid
        rw [hnd3]
        rfl
      omega
    have hcheck : m.CheckAllocationFree gran asz aal t p = none := by
      unfold VmaBlockMetadata.CheckAllocationFree
      rw [hnd1]
      simp only [if_pos hsz]
    rw [hcheck]

theorem tryIndexEntries_none_of_small (m : VmaBlockMetadata) (gran asz aal : Nat)
    (t : VmaSuballocationType) (idxl : List Nat)
    (h : ∀ i ∈ idxl, idSize m.m_Suballocations i < asz) :
    m.tryIndexEntries gran asz aal t idxl = none := by
  induction idxl with
  | nil => rfl
  | cons i rest ih =>
    rw [tryIndexEntries_cons_small m gran asz aal t i rest (h i (by simp))]
    exact ih (fun j hj => h j (List.mem_cons_of_mem i hj))

theorem tryIndexEntries_prefix_small (m : VmaBlockMetadata) (gran asz aal : Nat)
    (t : VmaSuballocationType) (pre suf : List Nat)
    (h : ∀ i ∈ pre, idSize m.m_Suballocations i < asz) :
    m.tryIndexEntries gran asz aal t (pre ++ suf)
      = m.tryIndexEntries gran asz aal t suf := by
  induction pre with
  | nil => rfl
  | cons i rest ih =>
    rw [List.cons_append,
      tryIndexEntries_cons_small m gran asz aal t i _ (h i (by simp))]
    exact ih (fun j hj => h j (List.mem_cons_of_mem i hj))

theorem free_size_le_freeSizeOf (l : List VmaSuballocation) (n : VmaSuballocation)
    (hmem : n ∈ l) (hf : n.stype = .free) : n.size ≤ freeSizeOf l := by
  unfold freeSizeOf sizesSum
  have h1 : n ∈ l.filter (fun x => x.stype == .free) :=
    List.mem_filter.mpr ⟨hmem, by simp [hf]⟩
  have h2 : n.size ∈ (l.filter (fun x => x.stype == .free)).map (fun x => x.size) :=
    List.mem_map_of_mem _ h1
  exact List.single_le_sum (fun _ _ => Nat.zero_le _) _ h2

theorem idx_entry_facts (m : VmaBlockMetadata) (hinv : MetaInv m) :
    ∀ i ∈ m.m_FreeSuballocationsBySize,
      ∃ n ∈ m.m_Suballocations, n.nid = i ∧ n.stype = .free ∧
        VMA_MIN_FREE_SUBALLOCATION_SIZE_TO_REGISTER ≤ n.size ∧
        idSize m.m_Suballocations i = n.size ∧
        n.size ≤ m.m_SumFreeSize := by
  intro i hi
  have hreg : i ∈ regNids m.m_Suballocations := hinv.indexPerm.mem_iff.mp hi
  obtain ⟨n, hmem, hnid, hnf, hnb⟩ := (mem_regNids_iff _ _).mp hreg
  refine ⟨n, hmem, hnid, hnf, hnb, ?_, ?_⟩
  · rw [← hnid]
    exact idSize_of_mem_nodup _ n hmem hinv.nodup
  · rw [hinv.fsum]
    exact free_size_le_freeSizeOf _ n hmem hnf

theorem createAllocationRequest_false_eq_spec (m : VmaBlockMetadata)
    (hinv : MetaInv m) (cf fiu gran asz aal : Nat) (t : VmaSuballocationType) :
    m.CreateAllocationRequest cf fiu gran asz aal t false
      = bestFitSearchSpec m gran asz aal t := by
  unfold VmaBlockMetadata.CreateAllocationRequest bestFitSearchSpec
  by_cases hsf : m.m_SumFreeSize < asz
  · rw [if_pos (by exact ⟨by simp, hsf⟩)]
    have hall : ∀ i ∈ m.m_FreeSuballocationsBySize,
        idSize m.m_Suballocations i < asz := by
      intro i hi
      obtain ⟨n, _, _, _, _, hid, hle⟩ := idx_entry_facts m hinv i hi
      omega
    rw [tryIndexEntries_none_of_small m gran asz aal t _ hall]
  · rw [if_neg (by intro hc; exact hsf hc.2)]
    by_cases hlen : 0 < m.m_FreeSuballocationsBySize.length
    · rw [if_pos hlen]
      have hseed : VmaBinaryFindFirstNotLess
          (fun j => decide (idSize m.m_Suballocations j < asz))
          m.m_FreeSuballocationsBySize
          = m.m_FreeSuballocationsBySize.countP
            (fun j => decide (idSize m.m_Suballocations j < asz)) :=
        bfnl_eq_countP (idSize m.m_Suballocations) asz _ hinv.indexSorted
      rw [hseed]
      have hsplit := List.take_append_drop
        (m.m_FreeSuballocationsBySize.countP
          (fun j => decide (idSize m.m_Suballocations j < asz)))
        m.m_FreeSuballocationsBySize
      have hpre := mem_take_boundary (idSize m.m_Suballocations) asz
        m.m_FreeSuballocationsBySize hinv.indexSorted
      have heq : m.tryIndexEntries gran asz aal t m.m_FreeSuballocationsBySize
          = m.tryIndexEntries gran asz aal t
            (m.m_FreeSuballocationsBySize.drop
              (m.m_FreeSuballocationsBySize.countP
                (fun j => decide (idSize m.m_Suballocations j < asz)))) := by
        conv_lhs => rw [← hsplit]
        exact tryIndexEntries_prefix_small m gran asz aal t _ _ hpre
      rw [← heq]
      cases m.tryIndexEntries gran asz aal t m.m_FreeSuballocationsBySize with
      | none => rfl
      | some r => rfl
    · rw [if_neg hlen]
      have hnil : m.m_FreeSuballocationsBySize = [] := by
        cases hc : m.m_FreeSuballocationsBySize with
        | nil => rfl
        | cons a l => rw [hc] at hlen; simp at hlen
      rw [hnil]
      rfl

/-! ## Lowest-cost characterization of the eviction scan -/

theorem bruteForceLoop_min (m : VmaBlockMetadata) (cf fiu gran asz aal : Nat)
    (t : VmaSuballocationType) :
    ∀ (ps : List Nat) (best : VmaAllocationRequest),
    (m.bruteForceLoop cf fiu gran asz aal t ps best = best ∨
      ∃ p ∈ ps, m.candidateAt cf fiu gran asz aal t p
        = some (m.bruteForceLoop cf fiu gran asz aal t ps best)) ∧
    (m.bruteForceLoop cf fiu gran asz aal t ps best).CalcCost ≤ best.CalcCost ∧
    (∀ p ∈ ps, ∀ c, m.candidateAt cf fiu gran asz aal t p = some c →
      (m.bruteForceLoop cf fiu gran asz aal t ps best).CalcCost ≤ c.CalcCost) := by
  intro ps
  induction ps with
  | nil =>
    intro best
    exact ⟨Or.inl rfl, Nat.le_refl _, fun p hp => by cases hp⟩
  | cons q rest ih =>
    intro best
    rw [VmaBlockMetadata.bruteForceLoop]
    cases hc : m.candidateAt cf fiu gran asz aal t q with
    | none =>
      simp only [hc]
      obtain ⟨h1, h2, h3⟩ := ih best
      refine ⟨?_, h2, ?_⟩
      · rcases h1 with h1 | ⟨p, hp, hcp⟩
        · exact Or.inl h1
        · exact Or.inr ⟨p, List.mem_cons_of_mem q hp, hcp⟩
      · intro p hp c hcand
        rcases List.mem_cons.mp hp with h4 | h4
        · subst h4
          rw [hc] at hcand
          cases hcand
        · exact h3 p h4 c hcand
    | some cq =>
      simp only [hc]
      by_cases hlt : cq.CalcCost < best.CalcCost
      · rw [if_pos hlt]
        obtain ⟨h1, h2, h3⟩ := ih cq
        refine ⟨?_, by omega, ?_⟩
        · rcases h1 with h1 | ⟨p, hp, hcp⟩
          · exact Or.inr ⟨q, by simp, by rw [hc, h1]⟩
          · exact Or.inr ⟨p, List.mem_cons_of_mem q hp, hcp⟩
        · intro p hp c hcand
          rcases List.mem_cons.mp hp with h4 | h4
          · subst h4
            rw [hc] at hcand
            have : c = cq := by
              exact (Option.some_inj.mp hcand).symm
            rw [this]
            exact h2
          · exact h3 p h4 c hcand
      · rw [if_neg hlt]
        obtain ⟨h1, h2, h3⟩ := ih best
        refine ⟨?_, h2, ?_⟩
        · rcases h1 with h1 | ⟨p, hp, hcp⟩
          · exact Or.inl h1
          · exact Or.inr ⟨p, List.mem_cons_of_mem q hp, hcp⟩
        · intro p hp c hcand
          rcases List.mem_cons.mp hp with h4 | h4
          · subst h4
            rw [hc] at hcand
            have hceq : c = cq := (Option.some_inj.mp hcand).symm
            rw [hceq]
            omega
          · exact h3 p h4 c hcand

/-- Replace the binary-search seed by its `countP` characterization: an
executable form of `CreateAllocationRequest` for sorted indexes. -/
theorem CreateAllocationRequest_eval (m : VmaBlockMetadata)
    (hsorted : indexSortedFor m.m_Suballocations m.m_FreeSuballocationsBySize)
    (cf fiu gran asz aal : Nat) (t : VmaSuballocationType) (cml : Bool) :
    m.CreateAllocationRequest cf fiu gran asz aal t cml
      = (if ¬ cml ∧ m.m_SumFreeSize < asz then none
         else
           match
             (if 0 < m.m_FreeSuballocationsBySize.length then
               m.tryIndexEntries gran asz aal t
                 (m.m_FreeSuballocationsBySize.drop
                   (m.m_FreeSuballocationsBySize.countP
                     (fun j => decide (idSize m.m_Suballocations j < asz))))
              else none) with
           | some r => some r
           | none =>
             if cml then
               let best := m.bruteForceLoop cf fiu gran asz aal t
                 (List.range m.m_Suballocations.length)
                 VmaBlockMetadata.initialBestRequest
               if best.sumItemSize ≠ VK_WHOLE_SIZE then some best else none
             else none) := by
  unfold VmaBlockMetadata.CreateAllocationRequest
  rw [bfnl_eq_countP (idSize m.m_Suballocations) asz _ hsorted]

/-! ## Claim theorems -/

/-- C1 (amended): for every metadata state reachable from `Init(size)` by
`Alloc`, `Free`/`FreeAtOffset` (`FreeSuballocation` on a used entry) and
`MakeAllocationsLost` operations, `Validate()` returns `true` — provided the
block size is at least the registration threshold.  (As stated, without that
proviso, the claim is false: see the counterexample, `Init` registers the
initial free suballocation unconditionally, and `Validate` rejects registered
entries smaller than the threshold.) -/
theorem C1_reachable_validate (size : Nat)
    (hsz : VMA_MIN_FREE_SUBALLOCATION_SIZE_TO_REGISTER ≤ size)
    (s : VmaBlockMetadata)
    (h : ReachableMeta (VmaBlockMetadata.Init size) s) :
    s.Validate = true := by
  obtain ⟨hinv, _⟩ := metaInv_reachable _ s h (metaInv_init size hsz)
  exact metaInv_validate s hinv

/-- C1, counterexample to the claim as stated: `Init 8` is reachable (zero
operations) from `Init 8`, yet `Validate` returns `false` on it, because the
8-byte free suballocation sits in `m_FreeSuballocationsBySize` below the
16-byte registration threshold. -/
theorem C1_counterexample :
    ReachableMeta (VmaBlockMetadata.Init 8) (VmaBlockMetadata.Init 8) ∧
    (VmaBlockMetadata.Init 8).Validate = false :=
  ⟨Relation.ReflTransGen.refl, by decide⟩

/-- C1, witness. -/
theorem C1_witness :
    VMA_MIN_FREE_SUBALLOCATION_SIZE_TO_REGISTER ≤ 16 ∧
    (VmaBlockMetadata.Init 16).Validate = true :=
  ⟨by decide, C1_reachable_validate 16 (by decide) _ Relation.ReflTransGen.refl⟩

/-- C2: with `canMakeOtherLost = false`, `CreateAllocationRequest` equals the
specification's best-fit search — scan the size-ascending free index in order
and accept the first entry whose candidate passes the checks (the binary
search merely skips the too-small prefix) — and on a block with free regions
of sizes 100, 50 and 30 a request of size 40 (alignment 1, granularity 1)
returns offset 110, inside the 50-byte region at offsets 110..160, not the
100- or 30-byte region. -/
theorem C2_best_fit :
    (∀ (m : VmaBlockMetadata) (cf fiu gran asz aal : Nat)
      (t : VmaSuballocationType), MetaInv m →
      m.CreateAllocationRequest cf fiu gran asz aal t false
        = bestFitSearchSpec m gran asz aal t) ∧
    ({ m_Size := 200, m_FreeCount := 3, m_SumFreeSize := 180, m_Suballocations := [⟨0, 0, 100, none, .free⟩, ⟨1, 100, 10, some ⟨10, 100, 10, false, 0⟩, .buffer⟩, ⟨2, 110, 50, none, .free⟩, ⟨3, 160, 10, some ⟨11, 160, 10, false, 0⟩, .buffer⟩, ⟨4, 170, 30, none, .free⟩], m_FreeSuballocationsBySize := [4, 2, 0], nextId := 5 } : VmaBlockMetadata).CreateAllocationRequest 0 0 1 40 1 .buffer false
      = some ⟨110, 50, 0, 2, 0⟩ := by
  constructor
  · intro m cf fiu gran asz aal t hinv
    exact createAllocationRequest_false_eq_spec m hinv cf fiu gran asz aal t
  · rw [CreateAllocationRequest_eval _ (by simp only [indexSortedFor]; decide)]
    decide

/-- C2, witness. -/
theorem C2_witness :
    MetaInv (VmaBlockMetadata.Init 16) ∧
    (VmaBlockMetadata.Init 16).CreateAllocationRequest 0 0 1 8 1 .buffer false
      = bestFitSearchSpec (VmaBlockMetadata.Init 16) 1 8 1 .buffer :=
  ⟨metaInv_init 16 (by decide),
    C2_best_fit.1 (VmaBlockMetadata.Init 16) 0 0 1 8 1 .buffer
      (metaInv_init 16 (by decide))⟩

/-- C10 (amended): the non-eviction search consults only the free-size index,
whose entries — in every state satisfying the maintained invariant — are FREE
suballocations of size at least the 16-byte registration threshold; hence if
every FREE suballocation large enough for the request is smaller than the
threshold, the call returns not-found with no full-traversal fallback.  (As
stated the claim is false: `Init` registers the block's initial free
suballocation even when it is smaller than the threshold, so a sub-threshold
region can be found; see the counterexample.) -/
theorem C10_index_only_search (m : VmaBlockMetadata) (hinv : MetaInv m)
    (cf fiu gran asz aal : Nat) (t : VmaSuballocationType)
    (hsmall : ∀ n ∈ m.m_Suballocations, n.stype = .free → asz ≤ n.size →
      n.size < VMA_MIN_FREE_SUBALLOCATION_SIZE_TO_REGISTER) :
    m.CreateAllocationRequest cf fiu gran asz aal t false = none := by
  rw [createAllocationRequest_false_eq_spec m hinv cf fiu gran asz aal t]
  unfold bestFitSearchSpec
  refine tryIndexEntries_none_of_small m gran asz aal t _ ?_
  intro i hi
  obtain ⟨n, hmem, _, hnf, hnb, hid, _⟩ := idx_entry_facts m hinv i hi
  by_cases hfits : asz ≤ n.size
  · have := hsmall n hmem hnf hfits
    omega
  · omega

/-- C10, counterexample to the claim as stated: on `Init 8` the only free
region is 8 bytes, below the registration threshold, and it fits the 8-byte
request — yet `CreateAllocationRequest` finds it, because `Init` put it into
the index unconditionally. -/
theorem C10_counterexample :
    (VmaBlockMetadata.Init 8).CreateAllocationRequest 0 0 1 8 1 .buffer false
      = some ⟨0, 8, 0, 0, 0⟩ ∧
    (∀ n ∈ (VmaBlockMetadata.Init 8).m_Suballocations,
      n.size < VMA_MIN_FREE_SUBALLOCATION_SIZE_TO_REGISTER) := by
  constructor
  · rw [CreateAllocationRequest_eval _ (by simp only [indexSortedFor]; decide)]
    decide
  · decide

/-- C10, witness: allocating 20 bytes from a fresh 32-byte block leaves one
12-byte FREE region that fits a 12-byte request, but — being below the
threshold — it is not registered, and the search returns not-found. -/
theorem C10_witness :
    MetaInv ((VmaBlockMetadata.Init 32).Alloc ⟨0, 32, 0, 0, 0⟩ .buffer 20 ⟨0, 0, 20, false, 0⟩) ∧
    ((VmaBlockMetadata.Init 32).Alloc ⟨0, 32, 0, 0, 0⟩ .buffer 20 ⟨0, 0, 20, false, 0⟩).CreateAllocationRequest 0 0 1 12 1 .buffer false = none := by
  have hM : MetaInv ((VmaBlockMetadata.Init 32).Alloc ⟨0, 32, 0, 0, 0⟩ .buffer 20 ⟨0, 0, 20, false, 0⟩) :=
    (metaInv_allocStep (VmaBlockMetadata.Init 32)
      ((VmaBlockMetadata.Init 32).Alloc ⟨0, 32, 0, 0, 0⟩ .buffer 20 ⟨0, 0, 20, false, 0⟩)
      ⟨⟨0, 32, 0, 0, 0⟩, .buffer, 20, 0, 0, false, ⟨0, 0, 32, none, .free⟩,
        rfl, rfl, by decide, by decide, by decide, by decide, rfl⟩
      (metaInv_init 32 (by decide))).1
  exact ⟨hM, C10_index_only_search _ hM 0 0 1 12 1 .buffer (by decide)⟩

theorem nchain_allocSteps (N : Nat) :
    ∀ (m s : VmaBlockMetadata), NChain AllocStep N m s → MetaInv m →
    MetaInv s ∧ s.m_Size = m.m_Size ∧
    usedCountOf s.m_Suballocations = usedCountOf m.m_Suballocations + N := by
  induction N with
  | zero =>
    intro m s h hinv
    rw [show s = m from h.symm]
    exact ⟨hinv, rfl, rfl⟩
  | succ k ih =>
    intro m s h hinv
    obtain ⟨b, hstep, hrest⟩ := h
    obtain ⟨h1, h2, h3⟩ := metaInv_allocStep m b hstep hinv
    obtain ⟨h4, h5, h6⟩ := ih b s hrest h1
    exact ⟨h4, by rw [h5, h2], by rw [h6, h3]; omega⟩

theorem nchain_freeSteps (N : Nat) :
    ∀ (m s : VmaBlockMetadata), NChain FreeStep N m s → MetaInv m →
    MetaInv s ∧ s.m_Size = m.m_Size ∧
    usedCountOf m.m_Suballocations = usedCountOf s.m_Suballocations + N := by
  induction N with
  | zero =>
    intro m s h hinv
    rw [show s = m from h.symm]
    exact ⟨hinv, rfl, rfl⟩
  | succ k ih =>
    intro m s h hinv
    obtain ⟨b, hstep, hrest⟩ := h
    obtain ⟨h1, h2, h3, h4⟩ := metaInv_freeStep m b hstep hinv
    obtain ⟨h5, h6, h7⟩ := ih b s hrest h1
    exact ⟨h5, by rw [h6, h2], by omega⟩

theorem metaInv_usedZero_singleton (t : VmaBlockMetadata) (hinv : MetaInv t)
    (h0 : usedCountOf t.m_Suballocations = 0) :
    ∃ nd, t.m_Suballocations = [nd] ∧ nd.stype = .free ∧ nd.offset = 0 ∧
      nd.size = t.m_Size := by
  have hallfree : ∀ n ∈ t.m_Suballocations, n.stype = .free := by
    intro n hn
    by_contra hc
    have := usedCountOf_pos_of_used _ n hn hc
    omega
  cases hsubs : t.m_Suballocations with
  | nil => exact absurd hsubs hinv.nonnil
  | cons x rest =>
    cases hrest : rest with
    | nil =>
      subst hrest
      refine ⟨x, rfl, hallfree x (by rw [hsubs]; simp), ?_, ?_⟩
      · have := hinv.contig
        rw [hsubs] at this
        exact this.1
      · have := hinv.total
        rw [hsubs, sizesSum_cons] at this
        have hnil : sizesSum ([] : List VmaSuballocation) = 0 := rfl
        rw [hnil] at this
        omega
    | cons y rest2 =>
      subst hrest
      exfalso
      have hchain := hinv.noAdj
      rw [hsubs] at hchain
      unfold noTwoAdjFree at hchain
      have hxy := (List.chain'_cons.mp hchain).1
      exact hxy ⟨hallfree x (by rw [hsubs]; simp),
        hallfree y (by rw [hsubs]; simp)⟩

theorem alloc_core_agree (m1 m2 : VmaBlockMetadata) (r : VmaAllocationRequest)
    (t : VmaSuballocationType) (asz : Nat) (hdl : VmaAllocHandle)
    (hs : m1.m_Suballocations = m2.m_Suballocations)
    (hz : m1.m_Size = m2.m_Size) (hn : m1.nextId = m2.nextId) :
    (m1.Alloc r t asz hdl).m_Suballocations = (m2.Alloc r t asz hdl).m_Suballocations ∧
    (m1.Alloc r t asz hdl).m_Size = (m2.Alloc r t asz hdl).m_Size ∧
    (m1.Alloc r t asz hdl).nextId = (m2.Alloc r t asz hdl).nextId := by
  cases h : m1.m_Suballocations[r.itemPos]? with
  | none =>
    have h2 : m2.m_Suballocations[r.itemPos]? = none := by rw [← hs]; exact h
    unfold VmaBlockMetadata.Alloc
    rw [h, h2]
    exact ⟨hs, hz, hn⟩
  | some cur =>
    have h2 : m2.m_Suballocations[r.itemPos]? = some cur := by rw [← hs]; exact h
    obtain ⟨B, A, hm, hlen⟩ := decomp_of_getElem? _ _ _ h
    have hm2 : m2.m_Suballocations = B ++ cur :: A := by rw [← hs]; exact hm
    by_cases hpb : 0 < r.offset - cur.offset <;>
      by_cases hpe : 0 < cur.size - (r.offset - cur.offset) - asz
    · rw [alloc_shape_pp m1 r t asz hdl cur B A hm hlen hpb hpe,
        alloc_shape_pp m2 r t asz hdl cur B A hm2 hlen hpb hpe]
      exact ⟨by rw [hn], hz, by rw [hn]⟩
    · rw [alloc_shape_pe m1 r t asz hdl cur B A hm hlen hpb (by omega),
        alloc_shape_pe m2 r t asz hdl cur B A hm2 hlen hpb (by omega)]
      exact ⟨by rw [hn], hz, by rw [hn]⟩
    · rw [alloc_shape_ep m1 r t asz hdl cur B A hm hlen (by omega) hpe,
        alloc_shape_ep m2 r t asz hdl cur B A hm2 hlen (by omega) hpe]
      exact ⟨by rw [hn], hz, by rw [hn]⟩
    · rw [alloc_shape_ee m1 r t asz hdl cur B A hm hlen (by omega) (by omega),
        alloc_shape_ee m2 r t asz hdl cur B A hm2 hlen (by omega) (by omega)]
      exact ⟨rfl, hz, hn⟩

theorem freeSubAt_core_agree (m1 m2 : VmaBlockMetadata) (p : Nat)
    (hs : m1.m_Suballocations = m2.m_Suballocations)
    (hz : m1.m_Size = m2.m_Size) (hn : m1.nextId = m2.nextId) :
    ((m1.FreeSuballocationAt p).1).m_Suballocations = ((m2.FreeSuballocationAt p).1).m_Suballocations ∧
    ((m1.FreeSuballocationAt p).1).m_Size = ((m2.FreeSuballocationAt p).1).m_Size ∧
    ((m1.FreeSuballocationAt p).1).nextId = ((m2.FreeSuballocationAt p).1).nextId := by
  cases h : m1.m_Suballocations[p]? with
  | none =>
    have h2 : m2.m_Suballocations[p]? = none := by rw [← hs]; exact h
    unfold VmaBlockMetadata.FreeSuballocationAt
    rw [h, h2]
    exact ⟨hs, hz, hn⟩
  | some cur =>
    obtain ⟨B, A, hm, hlen⟩ := decomp_of_getElem? _ _ _ h
    have hm2 : m2.m_Suballocations = B ++ cur :: A := by rw [← hs]; exact hm
    rcases List.eq_nil_or_concat B with hB | ⟨B', pv, hB⟩
    · -- no predecessor
      have hprev : ∀ q ∈ B.getLast?, q.stype ≠ .free := by
        intro q hq
        rw [hB] at hq
        simp at hq
      cases hA : A with
      | nil =>
        have hnext : ∀ q ∈ ([] : List VmaSuballocation).head?, q.stype ≠ .free := by
          intro q hq; simp at hq
        rw [hA] at hm hm2
        rw [freeSubAt_noMerge m1 p cur B [] hm hlen hnext hprev,
          freeSubAt_noMerge m2 p cur B [] hm2 hlen hnext hprev]
        exact ⟨rfl, hz, hn⟩
      | cons nx A2 =>
        rw [hA] at hm hm2
        by_cases hnf : nx.stype = .free
        · rw [freeSubAt_mergeNext m1 p cur nx B A2 hm hlen hnf hprev,
            freeSubAt_mergeNext m2 p cur nx B A2 hm2 hlen hnf hprev]
          exact ⟨rfl, hz, hn⟩
        · have hnext : ∀ q ∈ (nx :: A2).head?, q.stype ≠ .free := by
            intro q hq
            simp only [List.head?_cons, Option.mem_some_iff] at hq
            exact hq ▸ hnf
          rw [freeSubAt_noMerge m1 p cur B (nx :: A2) hm hlen hnext hprev,
            freeSubAt_noMerge m2 p cur B (nx :: A2) hm2 hlen hnext hprev]
          exact ⟨rfl, hz, hn⟩
    · rw [List.concat_eq_append] at hB
      by_cases hpf : pv.stype = .free
      · -- predecessor merge
        have hmP : m1.m_Suballocations = B' ++ pv :: cur :: A := by
          rw [hm, hB, List.append_assoc]
          rfl
        have hmP2 : m2.m_Suballocations = B' ++ pv :: cur :: A := by
          rw [hm2, hB, List.append_assoc]
          rfl
        have hlenP : B'.length + 1 = p := by
          rw [hB] at hlen
          simpa using hlen
        cases hA : A with
        | nil =>
          have hnext : ∀ q ∈ ([] : List VmaSuballocation).head?, q.stype ≠ .free := by
            intro q hq; simp at hq
          rw [hA] at hmP hmP2
          rw [freeSubAt_mergePrev m1 p pv cur B' [] hmP hlenP hpf hnext,
            freeSubAt_mergePrev m2 p pv cur B' [] hmP2 hlenP hpf hnext]
          exact ⟨rfl, hz, hn⟩
        | cons nx A2 =>
          rw [hA] at hmP hmP2
          by_cases hnf : nx.stype = .free
          · rw [freeSubAt_mergeBoth m1 p pv cur nx B' A2 hmP hlenP hpf hnf,
              freeSubAt_mergeBoth m2 p pv cur nx B' A2 hmP2 hlenP hpf hnf]
            exact ⟨rfl, hz, hn⟩
          · have hnext : ∀ q ∈ (nx :: A2).head?, q.stype ≠ .free := by
              intro q hq
              simp only [List.head?_cons, Option.mem_some_iff] at hq
              exact hq ▸ hnf
            rw [freeSubAt_mergePrev m1 p pv cur B' (nx :: A2) hmP hlenP hpf hnext,
              freeSubAt_mergePrev m2 p pv cur B' (nx :: A2) hmP2 hlenP hpf hnext]
            exact ⟨rfl, hz, hn⟩
      · -- predecessor exists but is not free
        have hprev : ∀ q ∈ B.getLast?, q.stype ≠ .free := by
          intro q hq
          rw [hB, List.getLast?_append] at hq
          simp at hq
          rw [hq] at hpf
          exact hpf
        cases hA : A with
        | nil =>
          have hnext : ∀ q ∈ ([] : List VmaSuballocation).head?, q.stype ≠ .free := by
            intro q hq; simp at hq
          rw [hA] at hm hm2
          rw [freeSubAt_noMerge m1 p cur B [] hm hlen hnext hprev,
            freeSubAt_noMerge m2 p cur B [] hm2 hlen hnext hprev]
          exact ⟨rfl, hz, hn⟩
        | cons nx A2 =>
          rw [hA] at hm hm2
          by_cases hnf : nx.stype = .free
          · rw [freeSubAt_mergeNext m1 p cur nx B A2 hm hlen hnf hprev,
              freeSubAt_mergeNext m2 p cur nx B A2 hm2 hlen hnf hprev]
            exact ⟨rfl, hz, hn⟩
          · have hnext : ∀ q ∈ (nx :: A2).head?, q.stype ≠ .free := by
              intro q hq
              simp only [List.head?_cons, Option.mem_some_iff] at hq
              exact hq ▸ hnf
            rw [freeSubAt_noMerge m1 p cur B (nx :: A2) hm hlen hnext hprev,
              freeSubAt_noMerge m2 p cur B (nx :: A2) hm2 hlen hnext hprev]
            exact ⟨rfl, hz, hn⟩

theorem allocStep_shadow (m m' mc : VmaBlockMetadata) (h : AllocStep m m')
    (hs : mc.m_Suballocations = m.m_Suballocations) (hz : mc.m_Size = m.m_Size)
    (hn : mc.nextId = m.nextId) :
    ∃ mc', AllocStep mc mc' ∧ mc'.m_Suballocations = m'.m_Suballocations ∧
      mc'.m_Size = m'.m_Size ∧ mc'.nextId = m'.nextId := by
  obtain ⟨r, t, asz, aid, lu, cbl, cur, hp, hfree, hasz, ht, ho1, ho2, hm'⟩ := h
  subst hm'
  refine ⟨mc.Alloc r t asz ⟨aid, r.offset, asz, cbl, lu⟩,
    ⟨r, t, asz, aid, lu, cbl, cur, by rw [hs]; exact hp, hfree, hasz, ht, ho1, ho2, rfl⟩, ?_⟩
  exact alloc_core_agree mc m r t asz ⟨aid, r.offset, asz, cbl, lu⟩ hs hz hn

theorem freeStep_shadow (m m' mc : VmaBlockMetadata) (h : FreeStep m m')
    (hs : mc.m_Suballocations = m.m_Suballocations) (hz : mc.m_Size = m.m_Size)
    (hn : mc.nextId = m.nextId) :
    ∃ mc', FreeStep mc mc' ∧ mc'.m_Suballocations = m'.m_Suballocations ∧
      mc'.m_Size = m'.m_Size ∧ mc'.nextId = m'.nextId := by
  obtain ⟨p, cur, hp, hused, hm'⟩ := h
  subst hm'
  refine ⟨(mc.FreeSuballocationAt p).1,
    ⟨p, cur, by rw [hs]; exact hp, hused, rfl⟩, ?_⟩
  exact freeSubAt_core_agree mc m p hs hz hn

theorem nchain_allocSteps_shadow (N : Nat) :
    ∀ (m s mc : VmaBlockMetadata), NChain AllocStep N m s → MetaInv mc →
    mc.m_Suballocations = m.m_Suballocations → mc.m_Size = m.m_Size →
    mc.nextId = m.nextId →
    ∃ sc, MetaInv sc ∧ sc.m_Suballocations = s.m_Suballocations ∧
      sc.m_Size = s.m_Size ∧ sc.nextId = s.nextId ∧ sc.m_Size = mc.m_Size ∧
      usedCountOf s.m_Suballocations = usedCountOf m.m_Suballocations + N := by
  induction N with
  | zero =>
    intro m s mc h hinv hs hz hn
    rw [show s = m from h.symm]
    exact ⟨mc, hinv, hs, hz, hn, rfl, rfl⟩
  | succ k ih =>
    intro m s mc h hinv hs hz hn
    obtain ⟨b, hstep, hrest⟩ := h
    obtain ⟨mc', hstep', hs', hz', hn'⟩ := allocStep_shadow m b mc hstep hs hz hn
    obtain ⟨hinv', hsz', huc'⟩ := metaInv_allocStep mc mc' hstep' hinv
    obtain ⟨sc, h1, h2, h3, h4, h5, h6⟩ := ih b s mc' hrest hinv' hs' hz' hn'
    have hb : usedCountOf b.m_Suballocations = usedCountOf m.m_Suballocations + 1 := by
      rw [← hs', huc', hs]
    exact ⟨sc, h1, h2, h3, h4, by rw [h5, hsz'], by omega⟩

theorem nchain_freeSteps_shadow (N : Nat) :
    ∀ (m s mc : VmaBlockMetadata), NChain FreeStep N m s → MetaInv mc →
    mc.m_Suballocations = m.m_Suballocations → mc.m_Size = m.m_Size →
    mc.nextId = m.nextId →
    ∃ sc, MetaInv sc ∧ sc.m_Suballocations = s.m_Suballocations ∧
      sc.m_Size = s.m_Size ∧ sc.m_Size = mc.m_Size ∧
      usedCountOf m.m_Suballocations = usedCountOf s.m_Suballocations + N := by
  induction N with
  | zero =>
    intro m s mc h hinv hs hz hn
    rw [show s = m from h.symm]
    exact ⟨mc, hinv, hs, hz, rfl, rfl⟩
  | succ k ih =>
    intro m s mc h hinv hs hz hn
    obtain ⟨b, hstep, hrest⟩ := h
    obtain ⟨mc', hstep', hs', hz', hn'⟩ := freeStep_shadow m b mc hstep hs hz hn
    obtain ⟨hinv', hsz', huc', hpos⟩ := metaInv_freeStep mc mc' hstep' hinv
    obtain ⟨sc, h1, h2, h3, h4, h5⟩ := ih b s mc' hrest hinv' hs' hz' hn'
    have h7 : usedCountOf b.m_Suballocations = usedCountOf m.m_Suballocations - 1 := by
      rw [← hs', ← hs]
      exact huc'
    have h8 : 0 < usedCountOf m.m_Suballocations := by
      rw [← hs]
      exact hpos
    exact ⟨sc, h1, h2, h3, by rw [h4, hsz'], by omega⟩

/-- C3: after `N` successful allocations from a fresh block (one spanning
FREE suballocation) followed by `N` frees in any order, the metadata is a
single FREE suballocation at offset 0 spanning the whole block.  The
suballocation list, block size and identity supply evolve independently of
the by-size index, so the round trip is proved by shadowing the chain with
an invariant-holding state that differs only in the index contents. -/
theorem C3_roundtrip (size N : Nat) (s t : VmaBlockMetadata)
    (hAlloc : NChain AllocStep N (VmaBlockMetadata.Init size) s)
    (hFree : NChain FreeStep N s t) :
    ∃ nd, t.m_Suballocations = [nd] ∧ nd.stype = .free ∧ nd.offset = 0 ∧
      nd.size = size := by
  have hinv0 : MetaInv { m_Size := size, m_FreeCount := 1, m_SumFreeSize := size, m_Suballocations := [⟨0, 0, size, none, VmaSuballocationType.free⟩], m_FreeSuballocationsBySize := if VMA_MIN_FREE_SUBALLOCATION_SIZE_TO_REGISTER ≤ size then [0] else [], nextId := 1 } := by
    constructor
    case nonnil => simp
    case contig => exact ⟨rfl, trivial⟩
    case total =>
      show sizesSum [(⟨0, 0, size, none, .free⟩ : VmaSuballocation)] = size
      rfl
    case noAdj => simp [noTwoAdjFree]
    case freeIff =>
      intro n hn
      simp only [List.mem_singleton] at hn
      subst hn
      simp
    case hmatch =>
      intro n hn hh hhh
      simp only [List.mem_singleton] at hn
      subst hn
      cases hhh
    case fcount => simp [freeCountOf]
    case fsum => simp [freeSizeOf, sizesSum]
    case nodup => simp
    case idbound =>
      intro n hn
      simp only [List.mem_singleton] at hn
      subst hn
      simp
    case indexPerm =>
      by_cases hsz : VMA_MIN_FREE_SUBALLOCATION_SIZE_TO_REGISTER ≤ size
      · show (if VMA_MIN_FREE_SUBALLOCATION_SIZE_TO_REGISTER ≤ size then [0] else []).Perm (regNids [⟨0, 0, size, none, .free⟩])
        rw [if_pos hsz, regNids_cons_reg _ _ rfl hsz]
        rfl
      · show (if VMA_MIN_FREE_SUBALLOCATION_SIZE_TO_REGISTER ≤ size then [0] else []).Perm (regNids [⟨0, 0, size, none, .free⟩])
        rw [if_neg hsz, regNids_cons_unreg _ _ (by simpa using hsz)]
        rfl
    case indexSorted =>
      by_cases hsz : VMA_MIN_FREE_SUBALLOCATION_SIZE_TO_REGISTER ≤ size
      · show indexSortedFor _ (if VMA_MIN_FREE_SUBALLOCATION_SIZE_TO_REGISTER ≤ size then [0] else [])
        rw [if_pos hsz]
        simp [indexSortedFor]
      · show indexSortedFor _ (if VMA_MIN_FREE_SUBALLOCATION_SIZE_TO_REGISTER ≤ size then [0] else [])
        rw [if_neg hsz]
        simp [indexSortedFor]
  obtain ⟨sc, hinvS, hsS, hzS, hnS, hszS, hucS⟩ :=
    nchain_allocSteps_shadow N _ s _ hAlloc hinv0 rfl rfl rfl
  obtain ⟨tc, hinvT, hsT, hzT, hszT, hucT⟩ :=
    nchain_freeSteps_shadow N s t sc hFree hinvS hsS hzS hnS
  have huc0 : usedCountOf (VmaBlockMetadata.Init size).m_Suballocations = 0 := rfl
  have hucT0 : usedCountOf tc.m_Suballocations = 0 := by
    rw [hsT]
    omega
  obtain ⟨nd, hnd1, hnd2, hnd3, hnd4⟩ := metaInv_usedZero_singleton tc hinvT hucT0
  refine ⟨nd, by rw [← hsT]; exact hnd1, hnd2, hnd3, ?_⟩
  rw [hnd4, hszT, hszS]

/-- C3, witness: one 8-byte allocation from a fresh 8-byte block and one
free restore the single spanning FREE suballocation (a block below the
16-byte registration threshold, exercising the index-independent path). -/
theorem C3_witness :
    ∃ nd, ((((VmaBlockMetadata.Init 8).Alloc ⟨0, 8, 0, 0, 0⟩ .buffer 8 ⟨0, 0, 8, false, 0⟩).FreeSuballocationAt 0).1).m_Suballocations = [nd] ∧ nd.stype = .free ∧ nd.offset = 0 ∧ nd.size = 8 := by
  have hA : NChain AllocStep 1 (VmaBlockMetadata.Init 8)
      ((VmaBlockMetadata.Init 8).Alloc ⟨0, 8, 0, 0, 0⟩ .buffer 8 ⟨0, 0, 8, false, 0⟩) :=
    ⟨_, ⟨⟨0, 8, 0, 0, 0⟩, .buffer, 8, 0, 0, false, ⟨0, 0, 8, none, .free⟩,
      rfl, rfl, by decide, by decide, by decide, by decide, rfl⟩, rfl⟩
  have hF : NChain FreeStep 1
      ((VmaBlockMetadata.Init 8).Alloc ⟨0, 8, 0, 0, 0⟩ .buffer 8 ⟨0, 0, 8, false, 0⟩)
      ((((VmaBlockMetadata.Init 8).Alloc ⟨0, 8, 0, 0, 0⟩ .buffer 8 ⟨0, 0, 8, false, 0⟩).FreeSuballocationAt 0).1) :=
    ⟨_, ⟨0, ⟨0, 0, 8, some ⟨0, 0, 8, false, 0⟩, .buffer⟩,
      by decide, by decide, rfl⟩, rfl⟩
  exact C3_roundtrip 8 1 _ _ hA hF

theorem tryIndexEntries_some (m : VmaBlockMetadata) (gran asz aal : Nat)
    (t : VmaSuballocationType) :
    ∀ (idxl : List Nat) (r : VmaAllocationRequest),
    m.tryIndexEntries gran asz aal t idxl = some r →
    ∃ p, m.CheckAllocationFree gran asz aal t p = some r := by
  intro idxl
  induction idxl with
  | nil =>
    intro r h
    cases h
  | cons i rest ih =>
    intro r h
    rw [VmaBlockMetadata.tryIndexEntries] at h
    cases hfi : m.m_Suballocations.findIdx? (fun n => n.nid == i) with
    | none =>
      simp only [hfi] at h
      exact ih r h
    | some p =>
      simp only [hfi] at h
      cases hchk : m.CheckAllocationFree gran asz aal t p with
      | none =>
        simp only [hchk] at h
        exact ih r h
      | some r0 =>
        simp only [hchk] at h
        have : r0 = r := Option.some_inj.mp h
        exact ⟨p, by rw [hchk, this]⟩

theorem checkAllocationFree_zero_cost (m : VmaBlockMetadata)
    (gran asz aal : Nat) (t : VmaSuballocationType) (p : Nat)
    (r : VmaAllocationRequest)
    (h : m.CheckAllocationFree gran asz aal t p = some r) :
    r.sumItemSize = 0 ∧ r.itemsToMakeLostCount = 0 := by
  unfold VmaBlockMetadata.CheckAllocationFree at h
  cases hge : m.m_Suballocations[p]? with
  | none => rw [hge] at h; cases h
  | some nd =>
    rw [hge] at h
    dsimp only at h
    by_cases h1 : nd.size < asz
    · rw [if_pos h1] at h; cases h
    · rw [if_neg h1] at h
      by_cases h2 : nd.size < computeCandidateOffset m p nd.offset gran aal t
          - nd.offset + asz +
          (if p + 1 < m.m_Suballocations.length then VMA_DEBUG_MARGIN else 0)
      · rw [if_pos h2] at h; cases h
      · rw [if_neg h2] at h
        by_cases h3 : 1 < gran ∧ nextGranConflictFree
            (computeCandidateOffset m p nd.offset gran aal t) asz gran t
            (m.m_Suballocations.drop (p + 1))
        · rw [if_pos h3] at h; cases h
        · rw [if_neg h3] at h
          have : _ = r := Option.some_inj.mp h
          rw [← this]
          exact ⟨rfl, rfl⟩

theorem candidateAt_out_of_range (m : VmaBlockMetadata)
    (cf fiu gran asz aal : Nat) (t : VmaSuballocationType) (p : Nat)
    (hp : m.m_Suballocations.length ≤ p) :
    m.candidateAt cf fiu gran asz aal t p = none := by
  unfold VmaBlockMetadata.candidateAt
  rw [List.getElem?_eq_none hp]

/-- C5: every allocation request's cost is
`sumItemSize + itemsToMakeLostCount * 1048576` (bytes to evict plus a fixed
penalty per evicted allocation), and when `CreateAllocationRequest` with
`canMakeOtherLost = true` returns a request, that request's cost is at most
the cost of every candidate start position that passes the eviction-branch
checks; in particular when some candidate costs 0 the result evicts
nothing. -/
theorem C5_lowest_cost (m : VmaBlockMetadata) (cf fiu gran asz aal : Nat)
    (t : VmaSuballocationType) (r : VmaAllocationRequest)
    (h : m.CreateAllocationRequest cf fiu gran asz aal t true = some r) :
    r.CalcCost = r.sumItemSize + r.itemsToMakeLostCount * VMA_LOST_ALLOCATION_COST ∧
    (∀ (p : Nat) (c : VmaAllocationRequest),
      m.candidateAt cf fiu gran asz aal t p = some c →
      r.CalcCost ≤ c.CalcCost) ∧
    ((∃ p c, m.candidateAt cf fiu gran asz aal t p = some c ∧ c.CalcCost = 0) →
      r.itemsToMakeLostCount = 0 ∧ r.sumItemSize = 0) := by
  have hmin : ∀ (p : Nat) (c : VmaAllocationRequest),
      m.candidateAt cf fiu gran asz aal t p = some c →
      r.CalcCost ≤ c.CalcCost := by
    rw [VmaBlockMetadata.CreateAllocationRequest] at h
    rw [if_neg (by simp)] at h
    cases hfi : (if 0 < m.m_FreeSuballocationsBySize.length then
        m.tryIndexEntries gran asz aal t
          (m.m_FreeSuballocationsBySize.drop
            (VmaBinaryFindFirstNotLess
              (fun j => decide (idSize m.m_Suballocations j < asz))
              m.m_FreeSuballocationsBySize))
      else none) with
    | some r0 =>
      rw [hfi] at h
      have hr : r0 = r := Option.some_inj.mp h
      subst hr
      have htry : ∃ p, m.CheckAllocationFree gran asz aal t p = some r0 := by
        by_cases hlen : 0 < m.m_FreeSuballocationsBySize.length
        · rw [if_pos hlen] at hfi
          exact tryIndexEntries_some m gran asz aal t _ r0 hfi
        · rw [if_neg hlen] at hfi
          cases hfi
      obtain ⟨p, hp⟩ := htry
      obtain ⟨hz1, hz2⟩ := checkAllocationFree_zero_cost m gran asz aal t p r0 hp
      intro q c _
      unfold VmaAllocationRequest.CalcCost
      rw [hz1, hz2]
      simp
    | none =>
      rw [hfi] at h
      rw [if_pos rfl] at h
      by_cases hbest : (m.bruteForceLoop cf fiu gran asz aal t
          (List.range m.m_Suballocations.length)
          VmaBlockMetadata.initialBestRequest).sumItemSize ≠ VK_WHOLE_SIZE
      · rw [if_pos hbest] at h
        have hr : m.bruteForceLoop cf fiu gran asz aal t
            (List.range m.m_Suballocations.length)
            VmaBlockMetadata.initialBestRequest = r := Option.some_inj.mp h
        obtain ⟨_, _, h3⟩ := bruteForceLoop_min m cf fiu gran asz aal t
          (List.range m.m_Suballocations.length)
          VmaBlockMetadata.initialBestRequest
        intro p c hcand
        by_cases hplen : p < m.m_Suballocations.length
        · have := h3 p (List.mem_range.mpr hplen) c hcand
          rw [hr] at this
          exact this
        · rw [candidateAt_out_of_range m cf fiu gran asz aal t p
            (by omega)] at hcand
          cases hcand
      · rw [if_neg hbest] at h
        cases h
  refine ⟨rfl, hmin, ?_⟩
  rintro ⟨p, c, hc, h0⟩
  have h1 := hmin p c hc
  rw [h0] at h1
  have h2 : r.CalcCost = 0 := by omega
  unfold VmaAllocationRequest.CalcCost at h2
  unfold VMA_LOST_ALLOCATION_COST at h2
  omega

/-- C5, witness: on a fresh 16-byte block, the eviction-enabled search for 16
bytes returns the spanning free region with cost 0. -/
theorem C5_witness :
    (VmaBlockMetadata.Init 16).CreateAllocationRequest 0 0 1 16 1 .buffer true
      = some ⟨0, 16, 0, 0, 0⟩ ∧
    (⟨0, 16, 0, 0, 0⟩ : VmaAllocationRequest).CalcCost
      = 0 + 0 * VMA_LOST_ALLOCATION_COST := by
  have hcall : (VmaBlockMetadata.Init 16).CreateAllocationRequest 0 0 1 16 1 .buffer true
      = some ⟨0, 16, 0, 0, 0⟩ := by
    rw [CreateAllocationRequest_eval _ (by simp only [indexSortedFor]; decide)]
    decide
  exact ⟨hcall, (C5_lowest_cost (VmaBlockMetadata.Init 16) 0 0 1 16 1 .buffer
    ⟨0, 16, 0, 0, 0⟩ hcall).1⟩

/-- C4 (amended): for a not-already-lost allocation,
`MakeLost(currentFrame, frameInUseCount)` succeeds if and only if
`lastUse + frameInUseCount < currentFrame` computed in uint32 arithmetic —
the sum wraps modulo 2^32, so the plain-arithmetic reading of the claim is
false (see the counterexample).  On success the last-use index becomes the
lost sentinel and a subsequent touch of a can-become-lost allocation reports
it invalid; and when `lastUse + 2` does not overflow, eviction with
`frameInUseCount = 2` is impossible at every frame `≤ lastUse + 2` and
possible at every frame `> lastUse + 2`. -/
theorem C4_make_lost :
    (∀ lastUse cf fiu : Nat, lastUse ≠ VMA_FRAME_INDEX_LOST →
      ((VmaAllocationMakeLost lastUse cf fiu).1 = true ↔
        (lastUse + fiu) % UINT32_MOD < cf)) ∧
    (∀ lastUse cf fiu : Nat, (VmaAllocationMakeLost lastUse cf fiu).1 = true →
      (VmaAllocationMakeLost lastUse cf fiu).2 = VMA_FRAME_INDEX_LOST ∧
      (VmaTouchAllocation true (VmaAllocationMakeLost lastUse cf fiu).2 cf).1
        = false) ∧
    (∀ F cf : Nat, F + 2 < UINT32_MOD → F ≠ VMA_FRAME_INDEX_LOST →
      ((VmaAllocationMakeLost F cf 2).1 = true ↔ F + 2 < cf)) := by
  refine ⟨?_, ?_, ?_⟩
  · intro lastUse cf fiu hL
    unfold VmaAllocationMakeLost
    rw [if_neg hL]
    by_cases hc : cf ≤ (lastUse + fiu) % UINT32_MOD
    · rw [if_pos hc]
      constructor
      · intro hcon; cases hcon
      · intro hlt; omega
    · rw [if_neg hc]
      exact ⟨fun _ => by omega, fun _ => rfl⟩
  · intro lastUse cf fiu hsucc
    unfold VmaAllocationMakeLost at hsucc ⊢
    by_cases hL : lastUse = VMA_FRAME_INDEX_LOST
    · rw [if_pos hL] at hsucc
      cases hsucc
    · rw [if_neg hL] at hsucc ⊢
      by_cases hc : cf ≤ (lastUse + fiu) % UINT32_MOD
      · rw [if_pos hc] at hsucc
        cases hsucc
      · rw [if_neg hc]
        refine ⟨rfl, ?_⟩
        unfold VmaTouchAllocation
        rw [if_pos rfl, if_pos rfl]
  · intro F cf hover hL
    unfold VmaAllocationMakeLost
    rw [if_neg hL]
    have hmod : (F + 2) % UINT32_MOD = F + 2 := Nat.mod_eq_of_lt hover
    by_cases hc : cf ≤ (F + 2) % UINT32_MOD
    · rw [if_pos hc]
      constructor
      · intro hcon; cases hcon
      · intro hlt; omega
    · rw [if_neg hc]
      exact ⟨fun _ => by omega, fun _ => rfl⟩

/-- C4, counterexample to the claim as stated: with the last use at frame
2^32 − 2 (not lost), 5 frames in use and current frame 10, plain arithmetic
says eviction is impossible (`lastUse + 5 ≥ 10`), yet `MakeLost` succeeds
because the uint32 sum wraps to 3. -/
theorem C4_counterexample :
    10 ≤ (2 ^ 32 - 2) + 5 ∧ (2 ^ 32 - 2 : Nat) ≠ VMA_FRAME_INDEX_LOST ∧
    (VmaAllocationMakeLost (2 ^ 32 - 2) 10 5).1 = true := by
  refine ⟨by norm_num, by norm_num [VMA_FRAME_INDEX_LOST], ?_⟩
  unfold VmaAllocationMakeLost
  norm_num [VMA_FRAME_INDEX_LOST, UINT32_MOD]

/-- C4, witness. -/
theorem C4_witness :
    (5 : Nat) ≠ VMA_FRAME_INDEX_LOST ∧
    ((VmaAllocationMakeLost 5 10 2).1 = true ↔ (5 + 2) % UINT32_MOD < 10) :=
  ⟨by decide, C4_make_lost.1 5 10 2 (by decide)⟩

theorem preHalveLoop_spec (maxE req : Nat) :
    ∀ (i nbs shift : Nat), ∃ k, k ≤ i ∧
    preHalveLoop maxE req i nbs shift = (nbs / 2 ^ k, shift + k) ∧
    (∀ j < k, maxE < nbs / 2 ^ (j + 1) ∧ req * 2 ≤ nbs / 2 ^ (j + 1)) := by
  intro i
  induction i with
  | zero =>
    intro nbs shift
    refine ⟨0, Nat.le_refl _, ?_, fun j hj => by omega⟩
    simp [preHalveLoop]
  | succ i ih =>
    intro nbs shift
    rw [preHalveLoop]
    by_cases hc : maxE < nbs / 2 ∧ req * 2 ≤ nbs / 2
    · rw [if_pos hc]
      obtain ⟨k, hk, heq, hcond⟩ := ih (nbs / 2) (shift + 1)
      refine ⟨k + 1, by omega, ?_, ?_⟩
      · rw [heq]
        have hdiv : nbs / 2 / 2 ^ k = nbs / 2 ^ (k + 1) := by
          rw [Nat.div_div_eq_div_mul, pow_succ, mul_comm (2 ^ k) 2]
        rw [hdiv]
        have : shift + 1 + k = shift + (k + 1) := by omega
        rw [this]
      · intro j hj
        cases j with
        | zero =>
          simpa using hc
        | succ j' =>
          have := hcond j' (by omega)
          have hdiv : nbs / 2 / 2 ^ (j' + 1) = nbs / 2 ^ (j' + 2) := by
            rw [Nat.div_div_eq_div_mul, pow_succ, pow_succ, pow_succ]
            ring_nf
          rw [hdiv] at this
          exact this
    · rw [if_neg hc]
      refine ⟨0, by omega, ?_, fun j hj => by omega⟩
      simp

theorem retryAttempts_ge (req s shift : Nat) :
    ∀ x ∈ retryAttempts req s shift, req ≤ x := by
  rw [retryAttempts]
  by_cases h : shift < 3
  · rw [dif_pos h]
    by_cases h2 : req ≤ s / 2
    · rw [if_pos h2]
      intro x hx
      rcases List.mem_cons.mp hx with h3 | h3
      · omega
      · exact retryAttempts_ge req (s / 2) (shift + 1) x h3
    · rw [if_neg h2]
      intro x hx
      cases hx
  · rw [dif_neg h]
    intro x hx
    cases hx
termination_by 3 - shift
decreasing_by
  omega

theorem retryAttempts_len (req s shift : Nat) :
    (retryAttempts req s shift).length ≤ 3 - shift := by
  rw [retryAttempts]
  by_cases h : shift < 3
  · rw [dif_pos h]
    by_cases h2 : req ≤ s / 2
    · rw [if_pos h2]
      have := retryAttempts_len req (s / 2) (shift + 1)
      simp only [List.length_cons]
      omega
    · rw [if_neg h2]
      simp
  · rw [dif_neg h]
    simp
termination_by 3 - shift
decreasing_by
  omega

/-- C7: for a custom pool the configured block size is used with no halving;
for a default pool the first attempted size is the preferred size halved `k`
times for some `k ≤ 3`, each halving taken only when the halved size still
exceeds every existing block and is at least twice the request, and on device
failure the retry attempts halve further — every retry size at least the
request — with all halvings (pre-creation plus retry) bounded by 3 in
total. -/
theorem C7_block_sizing :
    (∀ maxE req pref : Nat,
      newBlockSizeAttempts true maxE req pref = [pref]) ∧
    (∀ maxE req pref : Nat, ∃ k ≤ 3,
      newBlockSizeAttempts false maxE req pref
        = pref / 2 ^ k :: retryAttempts req (pref / 2 ^ k) k ∧
      (∀ j < k, maxE < pref / 2 ^ (j + 1) ∧ req * 2 ≤ pref / 2 ^ (j + 1)) ∧
      (retryAttempts req (pref / 2 ^ k) k).length ≤ 3 - k) ∧
    (∀ req s shift : Nat, ∀ x ∈ retryAttempts req s shift, req ≤ x) := by
  refine ⟨?_, ?_, retryAttempts_ge⟩
  · intro maxE req pref
    rfl
  · intro maxE req pref
    obtain ⟨k, hk, heq, hcond⟩ := preHalveLoop_spec maxE req 3 pref 0
    refine ⟨k, hk, ?_, hcond, retryAttempts_len req (pref / 2 ^ k) k⟩
    unfold newBlockSizeAttempts
    rw [if_neg (by simp)]
    rw [heq]
    rw [Nat.zero_add]

/-- C7, witness: preferred size 1000, request 100, no existing blocks — the
default pool pre-halves twice (1000, 500, 250 would fall below 2×100 at the
next step). -/
theorem C7_witness :
    newBlockSizeAttempts true 0 100 1000 = [1000] :=
  C7_block_sizing.1 0 100 1000

theorem evictionLoop_iter (cf fiu gran asz aal : Nat) (t : VmaSuballocationType)
    (cbl : Bool) (touches : Nat → List (Nat × Nat)) :
    ∀ (fuel : Nat) (bv bv' : VmaBlockVector) (round : Nat),
    iterContinue cf fiu gran asz aal t touches fuel round bv = some bv' →
    evictionLoop cf fiu gran asz aal t cbl touches fuel bv round
      = (.VK_ERROR_TOO_MANY_OBJECTS, bv', none, round + fuel) := by
  intro fuel
  induction fuel with
  | zero =>
    intro bv bv' round h
    have hbv : bv = bv' := Option.some_inj.mp h
    rw [← hbv]
    rfl
  | succ k ih =>
    intro bv bv' round h
    rw [iterContinue] at h
    cases hrc : evictionRoundContinue cf fiu gran asz aal t touches round bv with
    | none =>
      rw [hrc] at h
      cases h
    | some bv1 =>
      rw [hrc] at h
      unfold evictionRoundContinue at hrc
      cases hsb : searchBestLost cf fiu gran asz aal t bv.blocks 0 none with
      | none =>
        rw [hsb] at hrc
        cases hrc
      | some best =>
        rw [hsb] at hrc
        dsimp only at hrc
        cases hgb : (applyTouches bv (touches round) cf).blocks[best.1]? with
        | none =>
          rw [hgb] at hrc
          cases hrc
        | some b =>
          rw [hgb] at hrc
          dsimp only at hrc
          by_cases hmr : (b.MakeRequestedAllocationsLost cf fiu best.2).1 = true
          · rw [if_pos hmr] at hrc
            cases hrc
          · rw [if_neg hmr] at hrc
            have hbv1 : _ = bv1 := Option.some_inj.mp hrc
            rw [evictionLoop]
            rw [hsb]
            dsimp only
            rw [hgb]
            dsimp only
            rw [if_neg hmr, hbv1]
            have := ih bv1 bv' (round + 1) h
            rw [this]
            have harith : round + 1 + k = round + (k + 1) := by omega
            rw [harith]

theorem evictionLoop_oom (cf fiu gran asz aal : Nat) (t : VmaSuballocationType)
    (cbl : Bool) (touches : Nat → List (Nat × Nat)) (fuel : Nat)
    (bv : VmaBlockVector) (round : Nat) (hf : 0 < fuel)
    (hsb : searchBestLost cf fiu gran asz aal t bv.blocks 0 none = none) :
    evictionLoop cf fiu gran asz aal t cbl touches fuel bv round
      = (.VK_ERROR_OUT_OF_DEVICE_MEMORY, bv, none, round) := by
  cases fuel with
  | zero => omega
  | succ k =>
    rw [evictionLoop, hsb]

theorem evictionLoop_rounds (cf fiu gran asz aal : Nat)
    (t : VmaSuballocationType) (cbl : Bool)
    (touches : Nat → List (Nat × Nat)) :
    ∀ (fuel : Nat) (bv : VmaBlockVector) (round : Nat),
    (evictionLoop cf fiu gran asz aal t cbl touches fuel bv round).2.2.2
      ≤ round + fuel := by
  intro fuel
  induction fuel with
  | zero =>
    intro bv round
    exact Nat.le_refl _
  | succ k ih =>
    intro bv round
    rw [evictionLoop]
    cases hsb : searchBestLost cf fiu gran asz aal t bv.blocks 0 none with
    | none => simp
    | some best =>
      dsimp only
      cases hgb : (applyTouches bv (touches round) cf).blocks[best.1]? with
      | none => simp
      | some b =>
        dsimp only
        by_cases hmr : (b.MakeRequestedAllocationsLost cf fiu best.2).1 = true
        · rw [if_pos hmr]
          dsimp only
          omega
        · rw [if_neg hmr]
          exact Nat.le_trans (ih _ (round + 1))
            (by omega : round + 1 + k ≤ round + (k + 1))

theorem allocate_reaches_eviction (bv : VmaBlockVector) (cf asz aal : Nat)
    (flags : VmaAllocationCreateFlags) (t : VmaSuballocationType)
    (deviceOk : Nat → Bool) (touches : Nat → List (Nat × Nat))
    (hsearch : searchExistingNoLost cf bv.m_FrameInUseCount
      bv.m_BufferImageGranularity asz aal t bv.blocks 0 = none)
    (hna : flags.neverAllocate = true)
    (hcml : flags.canMakeOtherLost = true) :
    bv.Allocate cf asz aal flags t deviceOk touches
      = ((evictionLoop cf bv.m_FrameInUseCount bv.m_BufferImageGranularity
          asz aal t flags.canBecomeLost touches VMA_ALLOCATION_TRY_COUNT bv 0).1,
         (evictionLoop cf bv.m_FrameInUseCount bv.m_BufferImageGranularity
          asz aal t flags.canBecomeLost touches VMA_ALLOCATION_TRY_COUNT bv 0).2.1,
         (evictionLoop cf bv.m_FrameInUseCount bv.m_BufferImageGranularity
          asz aal t flags.canBecomeLost touches VMA_ALLOCATION_TRY_COUNT bv 0).2.2.1) := by
  unfold VmaBlockVector.Allocate
  rw [hsearch]
  dsimp only
  rw [if_neg (by rw [hna]; simp)]
  dsimp only
  rw [hcml]
  rw [if_pos rfl]

/-- C6: `BlockVector::Allocate` tries its strategies in order — when the
no-eviction scan of existing blocks succeeds it returns `VK_SUCCESS`
immediately; the eviction phase is bounded by `VMA_ALLOCATION_TRY_COUNT = 32`
rounds; when (with block creation disabled and eviction enabled) every round
finds a best candidate whose commit then fails under concurrent touches,
`Allocate` returns `VK_ERROR_TOO_MANY_OBJECTS`, whereas when the eviction
search finds no candidate at all it returns
`VK_ERROR_OUT_OF_DEVICE_MEMORY` — two distinct results. -/
theorem C6_allocate_strategy :
    (∀ (bv : VmaBlockVector) (cf asz aal : Nat)
      (flags : VmaAllocationCreateFlags) (t : VmaSuballocationType)
      (deviceOk : Nat → Bool) (touches : Nat → List (Nat × Nat))
      (ir : Nat × VmaAllocationRequest),
      searchExistingNoLost cf bv.m_FrameInUseCount bv.m_BufferImageGranularity
        asz aal t bv.blocks 0 = some ir →
      (bv.Allocate cf asz aal flags t deviceOk touches).1 = .VK_SUCCESS) ∧
    (∀ (bv : VmaBlockVector) (cf asz aal : Nat)
      (flags : VmaAllocationCreateFlags) (t : VmaSuballocationType)
      (deviceOk : Nat → Bool) (touches : Nat → List (Nat × Nat)),
      searchExistingNoLost cf bv.m_FrameInUseCount bv.m_BufferImageGranularity
        asz aal t bv.blocks 0 = none →
      flags.neverAllocate = true →
      flags.canMakeOtherLost = true →
      ((iterContinue cf bv.m_FrameInUseCount bv.m_BufferImageGranularity
          asz aal t touches VMA_ALLOCATION_TRY_COUNT 0 bv).isSome = true →
        (bv.Allocate cf asz aal flags t deviceOk touches).1
          = .VK_ERROR_TOO_MANY_OBJECTS) ∧
      (searchBestLost cf bv.m_FrameInUseCount bv.m_BufferImageGranularity
          asz aal t bv.blocks 0 none = none →
        (bv.Allocate cf asz aal flags t deviceOk touches).1
          = .VK_ERROR_OUT_OF_DEVICE_MEMORY)) ∧
    (∀ (cf fiu gran asz aal : Nat) (t : VmaSuballocationType) (cbl : Bool)
      (touches : Nat → List (Nat × Nat)) (bv : VmaBlockVector),
      (evictionLoop cf fiu gran asz aal t cbl touches
        VMA_ALLOCATION_TRY_COUNT bv 0).2.2.2 ≤ VMA_ALLOCATION_TRY_COUNT) ∧
    VkResult.VK_ERROR_TOO_MANY_OBJECTS ≠ VkResult.VK_ERROR_OUT_OF_DEVICE_MEMORY := by
  refine ⟨?_, ?_, ?_, by decide⟩
  · intro bv cf asz aal flags t deviceOk touches ir hsearch
    unfold VmaBlockVector.Allocate
    rw [hsearch]
  · intro bv cf asz aal flags t deviceOk touches hsearch hna hcml
    constructor
    · intro hiter
      obtain ⟨bv', hbv'⟩ := Option.isSome_iff_exists.mp hiter
      rw [allocate_reaches_eviction bv cf asz aal flags t deviceOk touches
        hsearch hna hcml]
      rw [evictionLoop_iter cf bv.m_FrameInUseCount bv.m_BufferImageGranularity
        asz aal t flags.canBecomeLost touches VMA_ALLOCATION_TRY_COUNT bv bv' 0 hbv']
    · intro hsb
      rw [allocate_reaches_eviction bv cf asz aal flags t deviceOk touches
        hsearch hna hcml]
      rw [evictionLoop_oom cf bv.m_FrameInUseCount bv.m_BufferImageGranularity
        asz aal t flags.canBecomeLost touches VMA_ALLOCATION_TRY_COUNT bv 0
        (by decide) hsb]
  · intro cf fiu gran asz aal t cbl touches bv
    have := evictionLoop_rounds cf fiu gran asz aal t cbl touches
      VMA_ALLOCATION_TRY_COUNT bv 0
    omega

set_option maxRecDepth 10000 in
/-- C6, witness: a single fully occupied block of 32 can-become-lost
allocations, with a concurrent touch hitting each round's chosen candidate,
exhausts all 32 eviction rounds and yields `VK_ERROR_TOO_MANY_OBJECTS`. -/
theorem C6_witness :
    searchExistingNoLost 100 0 1 1 1 .buffer (⟨[⟨32, 0, 0, (List.range 32).map (fun i => ⟨i, i, 1, some ⟨1000 + i, i, 1, true, 0⟩, .buffer⟩), [], 32⟩], false, false, 32, 0, 1, 0, 1, 0⟩ : VmaBlockVector).blocks 0 = none ∧
    ((⟨[⟨32, 0, 0, (List.range 32).map (fun i => ⟨i, i, 1, some ⟨1000 + i, i, 1, true, 0⟩, .buffer⟩), [], 32⟩], false, false, 32, 0, 1, 0, 1, 0⟩ : VmaBlockVector).Allocate 100 1 1 ⟨true, false, true⟩ .buffer (fun _ => false) (fun r => [(0, 1000 + r)])).1 = .VK_ERROR_TOO_MANY_OBJECTS := by
  refine ⟨by decide, ?_⟩
  exact (C6_allocate_strategy.2.1 _ 100 1 1 ⟨true, false, true⟩ .buffer
    (fun _ => false) (fun r => [(0, 1000 + r)]) (by decide) rfl rfl).1 (by decide)

theorem tryMoveToDst_moved (cf fiu gran srcB srcA : Nat)
    (ainfo : DefragAllocationInfo) (bytes allocs maxBytes maxAllocs : Nat)
    (blocks : List DefragBlockInfo) :
    ∀ (dsts : List Nat) (blocks2 : List DefragBlockInfo) (mr : DefragMoveRecord),
    tryMoveToDst cf fiu gran srcB srcA ainfo bytes allocs maxBytes maxAllocs
      blocks dsts = .moved blocks2 mr →
    MoveMakesSense mr.dstBlockIndex mr.dstOffset mr.srcBlockIndex mr.srcOffset
        = true ∧
    mr.size = ainfo.size ∧ allocs + 1 ≤ maxAllocs ∧ bytes + mr.size ≤ maxBytes := by
  intro dsts
  induction dsts with
  | nil =>
    intro blocks2 mr h
    cases h
  | cons dstB rest ih =>
    intro blocks2 mr h
    rw [tryMoveToDst] at h
    cases hgb : blocks[dstB]? with
    | none =>
      rw [hgb] at h
      exact ih blocks2 mr h
    | some dstInfo =>
      rw [hgb] at h
      dsimp only at h
      cases hreq : dstInfo.meta.CreateAllocationRequest cf fiu gran ainfo.size
          ainfo.alignment ainfo.stype false with
      | none =>
        rw [hreq] at h
        exact ih blocks2 mr h
      | some req =>
        rw [hreq] at h
        dsimp only at h
        by_cases hmms : MoveMakesSense dstB req.offset srcB ainfo.offset = true
        · rw [if_pos hmms] at h
          by_cases hbud : maxAllocs < allocs + 1 ∨ maxBytes < bytes + ainfo.size
          · rw [if_pos hbud] at h
            cases h
          · rw [if_neg hbud] at h
            have hmr : (DefragMoveRecord.mk srcB dstB ainfo.offset req.offset
                ainfo.size) = mr := by
              cases h
              rfl
            rw [← hmr]
            refine ⟨hmms, rfl, by omega, ?_⟩
            dsimp only
            omega
        · rw [if_neg hmms] at h
          exact ih blocks2 mr h

theorem defragRoundLoop_safety (cf fiu gran maxBytes maxAllocs : Nat) :
    ∀ (fuel : Nat) (blocks : List DefragBlockInfo) (srcB : Nat)
      (srcA : Option Nat) (bytes allocs : Nat) (log : List DefragMoveRecord),
    bytes ≤ maxBytes → allocs ≤ maxAllocs →
    (∀ mr ∈ log, MoveMakesSense mr.dstBlockIndex mr.dstOffset mr.srcBlockIndex
      mr.srcOffset = true) →
    (defragRoundLoop cf fiu gran maxBytes maxAllocs fuel blocks srcB srcA
      bytes allocs log).2.2.1 ≤ maxBytes ∧
    (defragRoundLoop cf fiu gran maxBytes maxAllocs fuel blocks srcB srcA
      bytes allocs log).2.2.2.1 ≤ maxAllocs ∧
    (∀ mr ∈ (defragRoundLoop cf fiu gran maxBytes maxAllocs fuel blocks srcB
      srcA bytes allocs log).2.2.2.2,
      MoveMakesSense mr.dstBlockIndex mr.dstOffset mr.srcBlockIndex
        mr.srcOffset = true) := by
  intro fuel
  induction fuel with
  | zero =>
    intro blocks srcB srcA bytes allocs log h1 h2 h3
    exact ⟨h1, h2, h3⟩
  | succ k ih =>
    intro blocks srcB srcA bytes allocs log h1 h2 h3
    rw [defragRoundLoop]
    cases hnx : findNextSrc blocks srcB srcA with
    | none => exact ⟨h1, h2, h3⟩
    | some sba =>
      dsimp only
      cases hsb : blocks[sba.1]? with
      | none => exact ⟨h1, h2, h3⟩
      | some srcInfo =>
        dsimp only
        cases hsa : srcInfo.m_Allocations[sba.2]? with
        | none => exact ⟨h1, h2, h3⟩
        | some ainfo =>
          dsimp only
          cases htry : tryMoveToDst cf fiu gran sba.1 sba.2 ainfo bytes allocs
              maxBytes maxAllocs blocks (List.range (sba.1 + 1)) with
          | budget => exact ⟨h1, h2, h3⟩
          | moved blocks2 mr =>
            dsimp only
            obtain ⟨hm1, hm2, hm3, hm4⟩ := tryMoveToDst_moved cf fiu gran sba.1
              sba.2 ainfo bytes allocs maxBytes maxAllocs blocks _ blocks2 mr htry
            have hlog : ∀ mr' ∈ log ++ [mr],
                MoveMakesSense mr'.dstBlockIndex mr'.dstOffset mr'.srcBlockIndex
                  mr'.srcOffset = true := by
              intro mr' hmr'
              rcases List.mem_append.mp hmr' with hmem | hmem
              · exact h3 mr' hmem
              · rw [List.mem_singleton.mp hmem]
                exact hm1
            cases hnext : (if 0 < sba.2 then some (sba.1, some (sba.2 - 1))
                else if 0 < sba.1 then some (sba.1 - 1, none) else none) with
            | none =>
              dsimp only
              exact ⟨by omega, by omega, hlog⟩
            | some nx =>
              dsimp only
              exact ih blocks2 nx.1 nx.2 (bytes + mr.size) (allocs + 1)
                (log ++ [mr]) (by omega) (by omega) hlog
          | noMove =>
            dsimp only
            cases hnext : (if 0 < sba.2 then some (sba.1, some (sba.2 - 1))
                else if 0 < sba.1 then some (sba.1 - 1, none) else none) with
            | none => exact ⟨h1, h2, h3⟩
            | some nx =>
              dsimp only
              exact ih blocks nx.1 nx.2 bytes allocs log h1 h2 h3

theorem defragmentRound_safety (cf fiu gran maxBytes maxAllocs fuel : Nat)
    (blocks : List DefragBlockInfo) (bytes allocs : Nat)
    (log : List DefragMoveRecord)
    (h1 : bytes ≤ maxBytes) (h2 : allocs ≤ maxAllocs)
    (h3 : ∀ mr ∈ log, MoveMakesSense mr.dstBlockIndex mr.dstOffset
      mr.srcBlockIndex mr.srcOffset = true) :
    (DefragmentRound cf fiu gran maxBytes maxAllocs fuel blocks bytes allocs
      log).2.2.1 ≤ maxBytes ∧
    (DefragmentRound cf fiu gran maxBytes maxAllocs fuel blocks bytes allocs
      log).2.2.2.1 ≤ maxAllocs ∧
    (∀ mr ∈ (DefragmentRound cf fiu gran maxBytes maxAllocs fuel blocks bytes
      allocs log).2.2.2.2,
      MoveMakesSense mr.dstBlockIndex mr.dstOffset mr.srcBlockIndex
        mr.srcOffset = true) := by
  unfold DefragmentRound
  cases blocks with
  | nil => exact ⟨h1, h2, h3⟩
  | cons b rest =>
    exact defragRoundLoop_safety cf fiu gran maxBytes maxAllocs fuel _ _ _ _ _ _
      h1 h2 h3

/-- C8: a move makes sense exactly when it is strictly forward (destination
block before the source block, or the same block at a strictly lower offset);
during every `Defragment(maxBytesToMove, maxAllocationsToMove)` run the
cumulative moved-byte total stays within `maxBytesToMove`, the cumulative
moved-allocation count stays within `maxAllocationsToMove`, every executed
move in the log is forward, and a candidate move is executed only when it is
forward and fits both budgets (otherwise the round stops with the budget
outcome). -/
theorem C8_defrag_safety :
    (∀ dB dOff sB sOff : Nat,
      MoveMakesSense dB dOff sB sOff = true ↔
        (dB < sB ∨ (dB = sB ∧ dOff < sOff))) ∧
    (∀ (cf fiu gran maxBytes maxAllocs fuel : Nat)
      (blocks : List DefragBlockInfo),
      (VmaDefragmentatorDefragment cf fiu gran maxBytes maxAllocs fuel
        blocks).2.2.1 ≤ maxBytes ∧
      (VmaDefragmentatorDefragment cf fiu gran maxBytes maxAllocs fuel
        blocks).2.2.2.1 ≤ maxAllocs ∧
      (∀ mr ∈ (VmaDefragmentatorDefragment cf fiu gran maxBytes maxAllocs fuel
        blocks).2.2.2.2,
        MoveMakesSense mr.dstBlockIndex mr.dstOffset mr.srcBlockIndex
          mr.srcOffset = true)) ∧
    (∀ (cf fiu gran srcB srcA : Nat) (ainfo : DefragAllocationInfo)
      (bytes allocs maxBytes maxAllocs : Nat) (blocks : List DefragBlockInfo)
      (dsts : List Nat) (blocks2 : List DefragBlockInfo)
      (mr : DefragMoveRecord),
      tryMoveToDst cf fiu gran srcB srcA ainfo bytes allocs maxBytes maxAllocs
        blocks dsts = .moved blocks2 mr →
      MoveMakesSense mr.dstBlockIndex mr.dstOffset mr.srcBlockIndex mr.srcOffset
        = true ∧
      allocs + 1 ≤ maxAllocs ∧ bytes + mr.size ≤ maxBytes) := by
  refine ⟨?_, ?_, ?_⟩
  · intro dB dOff sB sOff
    unfold MoveMakesSense
    split_ifs with h1 h2 h3
    · simp only [true_iff]
      omega
    · simp only [false_iff]
      omega
    · simp only [true_iff]
      omega
    · simp only [false_iff]
      omega
  · intro cf fiu gran maxBytes maxAllocs fuel blocks
    unfold VmaDefragmentatorDefragment
    dsimp only
    have hr1 := defragmentRound_safety cf fiu gran maxBytes maxAllocs fuel
      blocks 0 0 [] (by omega) (by omega) (by intro mr hmr; cases hmr)
    cases hres : (DefragmentRound cf fiu gran maxBytes maxAllocs fuel blocks
        0 0 []).1 with
    | VK_SUCCESS =>
      exact defragmentRound_safety cf fiu gran maxBytes maxAllocs fuel _ _ _ _
        hr1.1 hr1.2.1 hr1.2.2
    | VK_INCOMPLETE => exact hr1
    | VK_ERROR_OUT_OF_DEVICE_MEMORY => exact hr1
    | VK_ERROR_TOO_MANY_OBJECTS => exact hr1
  · intro cf fiu gran srcB srcA ainfo bytes allocs maxBytes maxAllocs blocks
      dsts blocks2 mr h
    obtain ⟨h1, _, h3, h4⟩ := tryMoveToDst_moved cf fiu gran srcB srcA ainfo
      bytes allocs maxBytes maxAllocs blocks dsts blocks2 mr h
    exact ⟨h1, h3, h4⟩

/-- C8, witness: moving a 20-byte allocation from block 1 (offset 0) into the
40-byte free tail of block 0 at offset 60 is a forward move inside both
budgets. -/
theorem C8_witness :
    ∃ (blocks2 : List DefragBlockInfo),
      tryMoveToDst 0 0 1 1 0 ⟨7, 20, 1, .buffer, 0⟩ 0 0 100 1 [⟨⟨100, 1, 40, [⟨0, 0, 60, some ⟨1, 0, 60, false, 0⟩, .buffer⟩, ⟨1, 60, 40, none, .free⟩], [1], 2⟩, false, []⟩, ⟨⟨100, 1, 80, [⟨0, 0, 20, some ⟨7, 0, 20, false, 0⟩, .buffer⟩, ⟨1, 20, 80, none, .free⟩], [1], 2⟩, false, [⟨7, 20, 1, .buffer, 0⟩]⟩] [0, 1] = .moved blocks2 ⟨1, 0, 0, 60, 20⟩ ∧
      MoveMakesSense 0 60 1 0 = true ∧ 0 + 1 ≤ 1 ∧ 0 + 20 ≤ 100 := by
  have hreq : (⟨100, 1, 40, [⟨0, 0, 60, some ⟨1, 0, 60, false, 0⟩, .buffer⟩, ⟨1, 60, 40, none, .free⟩], [1], 2⟩ : VmaBlockMetadata).CreateAllocationRequest 0 0 1 20 1 .buffer false = some ⟨60, 40, 0, 1, 0⟩ := by
    rw [CreateAllocationRequest_eval _ (by simp only [indexSortedFor]; decide)]
    decide
  have hmoved : ∃ (blocks2 : List DefragBlockInfo),
      tryMoveToDst 0 0 1 1 0 ⟨7, 20, 1, .buffer, 0⟩ 0 0 100 1 [⟨⟨100, 1, 40, [⟨0, 0, 60, some ⟨1, 0, 60, false, 0⟩, .buffer⟩, ⟨1, 60, 40, none, .free⟩], [1], 2⟩, false, []⟩, ⟨⟨100, 1, 80, [⟨0, 0, 20, some ⟨7, 0, 20, false, 0⟩, .buffer⟩, ⟨1, 20, 80, none, .free⟩], [1], 2⟩, false, [⟨7, 20, 1, .buffer, 0⟩]⟩] [0, 1] = .moved blocks2 ⟨1, 0, 0, 60, 20⟩ := by
    exact ⟨_, by rw [tryMoveToDst]; simp only [List.getElem?_cons_zero]; rw [hreq]; dsimp only; rw [if_pos (by decide), if_neg (by decide)]⟩
  obtain ⟨blocks2, hb2⟩ := hmoved
  refine ⟨blocks2, hb2, ?_⟩
  have := (C8_defrag_safety.2.2 0 0 1 1 0 ⟨7, 20, 1, .buffer, 0⟩ 0 0 100 1 _ _
    blocks2 ⟨1, 0, 0, 60, 20⟩ hb2)
  exact ⟨this.1, this.2.1, this.2.2⟩

theorem used_size_le_usedSizeOf (l : List VmaSuballocation) (n : VmaSuballocation)
    (hmem : n ∈ l) (hu : n.stype ≠ .free) : n.size ≤ usedSizeOf l := by
  unfold usedSizeOf sizesSum
  have h1 : n ∈ l.filter (fun x => !(x.stype == .free)) :=
    List.mem_filter.mpr ⟨hmem, by simpa using hu⟩
  have h2 : n.size ∈ (l.filter (fun x => !(x.stype == .free))).map (fun x => x.size) :=
    List.mem_map_of_mem _ h1
  exact List.single_le_sum (fun _ _ => Nat.zero_le _) _ h2

theorem metaInv_isEmpty_usedZero (b : VmaBlockMetadata) (hinv : MetaInv b)
    (he : b.IsEmpty = true) : usedSizeOf b.m_Suballocations = 0 := by
  unfold VmaBlockMetadata.IsEmpty at he
  have hlen : b.m_Suballocations.length = 1 := by
    have := (Bool.and_eq_true _ _).mp he
    simpa using this.1
  have hfc : b.m_FreeCount = 1 := by
    have := (Bool.and_eq_true _ _).mp he
    simpa using this.2
  cases hsubs : b.m_Suballocations with
  | nil => rw [hsubs] at hlen; cases hlen
  | cons x rest =>
    cases hrest : rest with
    | cons y r2 =>
      subst hrest
      rw [hsubs] at hlen
      simp at hlen
    | nil =>
      subst hrest
      have hfree : x.stype = .free := by
        by_contra hc
        have := hinv.fcount
        rw [hsubs, freeCountOf_cons_used x [] hc] at this
        rw [hfc] at this
        have hz : freeCountOf ([] : List VmaSuballocation) = 0 := rfl
        omega
      rw [usedSizeOf_cons_free x [] hfree]
      rfl

theorem incrementalSortPass_perm :
    ∀ (l : List VmaBlockMetadata), (incrementalSortPass l).Perm l := by
  intro l
  match l with
  | [] => exact List.Perm.refl _
  | [a] => exact List.Perm.refl _
  | a :: b :: rest =>
    rw [incrementalSortPass]
    by_cases hc : b.m_SumFreeSize < a.m_SumFreeSize
    · rw [if_pos hc]
      exact List.Perm.swap a b rest
    · rw [if_neg hc]
      exact (incrementalSortPass_perm (b :: rest)).cons a

theorem blocksUsedBytes_perm (l l' : List VmaBlockMetadata) (h : l.Perm l') :
    blocksUsedBytes l = blocksUsedBytes l' := by
  unfold blocksUsedBytes
  exact (h.map (fun b => usedSizeOf b.m_Suballocations)).sum_eq

theorem blocksUsedBytes_append (L R : List VmaBlockMetadata) :
    blocksUsedBytes (L ++ R) = blocksUsedBytes L + blocksUsedBytes R := by
  unfold blocksUsedBytes
  rw [List.map_append, List.sum_append]

theorem blocksUsedBytes_cons (b : VmaBlockMetadata) (R : List VmaBlockMetadata) :
    blocksUsedBytes (b :: R)
      = usedSizeOf b.m_Suballocations + blocksUsedBytes R := by
  unfold blocksUsedBytes
  rw [List.map_cons, List.sum_cons]

theorem findIdx?_isSome_of_any (p : α → Bool) :
    ∀ (l : List α), l.any p = true → ∃ i, l.findIdx? p = some i := by
  intro l
  induction l with
  | nil => intro h; cases h
  | cons a t ih =>
    intro h
    rw [List.findIdx?_cons]
    by_cases hpa : p a = true
    · exact ⟨0, by rw [if_pos hpa]⟩
    · rw [List.any_cons] at h
      have ht : t.any p = true := by
        rcases (Bool.or_eq_true _ _).mp h with h1 | h1
        · exact absurd h1 hpa
        · exact h1
      obtain ⟨j, hj⟩ := ih ht
      refine ⟨j + 1, ?_⟩
      rw [if_neg hpa, List.findIdx?_succ, hj]
      rfl

theorem freeAlloc_effect (b : VmaBlockMetadata) (hinv : MetaInv b) (aid : Nat)
    (hany : b.m_Suballocations.any (fun n =>
      match n.hAllocation with
      | some hh => hh.aid == aid
      | none => false) = true) :
    MetaInv (b.FreeAlloc aid) ∧ (b.FreeAlloc aid).m_Size = b.m_Size ∧
    ∃ n ∈ b.m_Suballocations, (∃ hh, n.hAllocation = some hh ∧ hh.aid = aid) ∧
      usedSizeOf (b.FreeAlloc aid).m_Suballocations
        = usedSizeOf b.m_Suballocations - n.size ∧
      n.size ≤ usedSizeOf b.m_Suballocations := by
  obtain ⟨p, hp⟩ := findIdx?_isSome_of_any _ _ hany
  obtain ⟨n, hn1, hn2, _⟩ := find?_of_findIdx? _ _ p hp
  have hmem : n ∈ b.m_Suballocations := by
    have := List.getElem?_eq_some_iff.mp hn1
    obtain ⟨hlt, he⟩ := this
    rw [← he]
    exact List.getElem_mem _
  obtain ⟨hh, hhh, hhaid⟩ : ∃ hh, n.hAllocation = some hh ∧ hh.aid = aid := by
    cases hha : n.hAllocation with
    | none => rw [hha] at hn2; cases hn2
    | some hh =>
      rw [hha] at hn2
      exact ⟨hh, rfl, by simpa using hn2⟩
  have hused : n.stype ≠ .free := by
    intro hc
    have := (hinv.freeIff n hmem).mp hc
    rw [hhh] at this
    cases this
  have heq : b.FreeAlloc aid = (b.FreeSuballocationAt p).1 := by
    unfold VmaBlockMetadata.FreeAlloc
    rw [hp]
  obtain ⟨h1, h2, _, h4⟩ := metaInv_freeSuballocationAt b p n hn1 hused hinv
  rw [heq]
  exact ⟨h1, h2, n, hmem, ⟨hh, hhh, hhaid⟩, h4,
    used_size_le_usedSizeOf _ n hmem hused⟩

theorem usedSize_le_blocksUsedBytes (blocks : List VmaBlockMetadata)
    (b : VmaBlockMetadata) (hmem : b ∈ blocks) :
    usedSizeOf b.m_Suballocations ≤ blocksUsedBytes blocks := by
  unfold blocksUsedBytes
  exact List.single_le_sum (fun _ _ => Nat.zero_le _) _
    (List.mem_map_of_mem _ hmem)

theorem freeAllocation_usedBytes (bv : VmaBlockVector) (aid : Nat)
    (hinvs : ∀ b ∈ bv.blocks, MetaInv b) (bIdx : Nat)
    (hfi : bv.blocks.findIdx? (fun b => b.m_Suballocations.any (fun n =>
      match n.hAllocation with
      | some hh => hh.aid == aid
      | none => false)) = some bIdx) :
    ∃ b, bv.blocks[bIdx]? = some b ∧
    ∃ n ∈ b.m_Suballocations, (∃ hh, n.hAllocation = some hh ∧ hh.aid = aid) ∧
      blocksUsedBytes (bv.FreeAllocation aid).blocks
        = blocksUsedBytes bv.blocks - n.size ∧
      n.size ≤ blocksUsedBytes bv.blocks := by
  obtain ⟨b, hb, hpred, _⟩ := find?_of_findIdx? _ _ bIdx hfi
  have hbm : b ∈ bv.blocks := by
    obtain ⟨hlt, he⟩ := List.getElem?_eq_some_iff.mp hb
    rw [← he]
    exact List.getElem_mem _
  have hinvb := hinvs b hbm
  obtain ⟨hinvb1, hszb1, n, hnmem, hhh, husz, hnle⟩ :=
    freeAlloc_effect b hinvb aid hpred
  refine ⟨b, hb, n, hnmem, hhh, ?_, ?_⟩
  swap
  · exact le_trans hnle (usedSize_le_blocksUsedBytes bv.blocks b hbm)
  obtain ⟨L, R, hdec, hlen⟩ := decomp_of_getElem? bv.blocks bIdx b hb
  have hubOld : blocksUsedBytes bv.blocks
      = blocksUsedBytes L + (usedSizeOf b.m_Suballocations + blocksUsedBytes R) := by
    rw [hdec, blocksUsedBytes_append, blocksUsedBytes_cons]
  have hset : listSetAt bIdx (b.FreeAlloc aid) bv.blocks
      = L ++ b.FreeAlloc aid :: R := by
    rw [hdec, ← hlen, listSetAt_append]
  have hub1 : blocksUsedBytes (L ++ b.FreeAlloc aid :: R)
      = blocksUsedBytes L + (usedSizeOf b.m_Suballocations - n.size
        + blocksUsedBytes R) := by
    rw [blocksUsedBytes_append, blocksUsedBytes_cons, husz]
  have hmem1 : ∀ x ∈ L ++ b.FreeAlloc aid :: R, MetaInv x := by
    intro x hx
    rcases List.mem_append.mp hx with h1 | h1
    · exact hinvs x (by rw [hdec]; exact List.mem_append_left _ h1)
    · rcases List.mem_cons.mp h1 with h2 | h2
      · rw [h2]
        exact hinvb1
      · refine hinvs x ?_
        rw [hdec]
        exact List.mem_append_right _ (List.mem_cons_of_mem _ h2)
  unfold VmaBlockVector.FreeAllocation
  rw [hfi]
  dsimp only
  rw [hb]
  dsimp only
  rw [hset]
  rw [blocksUsedBytes_perm _ _ (incrementalSortPass_perm _)]
  by_cases hempty : (b.FreeAlloc aid).IsEmpty = true
  · rw [if_pos hempty]
    have hzero : usedSizeOf (b.FreeAlloc aid).m_Suballocations = 0 :=
      metaInv_isEmpty_usedZero _ hinvb1 hempty
    by_cases hcond : bv.m_HasEmptyBlock
        ∧ bv.m_MinBlockCount < (L ++ b.FreeAlloc aid :: R).length
    · rw [if_pos hcond]
      dsimp only
      have herase : listEraseAt bIdx (L ++ b.FreeAlloc aid :: R) = L ++ R := by
        rw [← hlen, listEraseAt_append]
      rw [herase, blocksUsedBytes_append]
      omega
    · rw [if_neg hcond]
      dsimp only
      rw [hub1]
      omega
  · rw [if_neg hempty]
    by_cases hhe : bv.m_HasEmptyBlock
    · rw [if_pos hhe]
      cases hlast : (L ++ b.FreeAlloc aid :: R).getLast? with
      | none =>
        dsimp only
        rw [hub1]
        omega
      | some lastB =>
        dsimp only
        by_cases hlcond : lastB.IsEmpty
            ∧ bv.m_MinBlockCount < (L ++ b.FreeAlloc aid :: R).length
        · rw [if_pos hlcond]
          dsimp only
          have hne2 : L ++ b.FreeAlloc aid :: R ≠ [] := by simp
          have hglast : (L ++ b.FreeAlloc aid :: R).getLast hne2 = lastB := by
            have := List.getLast?_eq_getLast (L ++ b.FreeAlloc aid :: R) hne2
            rw [this] at hlast
            exact Option.some_inj.mp hlast
          have hlmem : lastB ∈ L ++ b.FreeAlloc aid :: R := by
            rw [← hglast]
            exact List.getLast_mem hne2
          have hlzero : usedSizeOf lastB.m_Suballocations = 0 :=
            metaInv_isEmpty_usedZero _ (hmem1 lastB hlmem) hlcond.1
          have hsplit : (L ++ b.FreeAlloc aid :: R).dropLast ++ [lastB]
              = L ++ b.FreeAlloc aid :: R := by
            rw [← hglast]
            exact List.dropLast_append_getLast hne2
          have hubdl : blocksUsedBytes (L ++ b.FreeAlloc aid :: R)
              = blocksUsedBytes ((L ++ b.FreeAlloc aid :: R).dropLast)
                + usedSizeOf lastB.m_Suballocations := by
            conv_lhs => rw [← hsplit]
            rw [blocksUsedBytes_append, blocksUsedBytes_cons]
            unfold blocksUsedBytes
            simp
          omega
        · rw [if_neg hlcond]
          dsimp only
          rw [hub1]
          omega
    · rw [if_neg hhe]
      dsimp only
      rw [hub1]
      omega

/-- C9: freeing an already-lost allocation (can-become-lost flag set and
last-use frame equal to the lost sentinel) leaves the block vector — every
block's suballocation layout and totals — untouched while the handle object
is still destroyed; the handle is destroyed in every case; and freeing a
not-lost allocation whose identity lives in some block returns its region:
the total used bytes across the blocks drop by exactly that suballocation's
size. -/
theorem C9_free_lost_noop :
    (∀ (bv : VmaBlockVector) (h : VmaAllocHandle),
      h.canBecomeLost = true → h.lastUseFrameIndex = VMA_FRAME_INDEX_LOST →
      VmaAllocatorFreeMemory bv h = (bv, true)) ∧
    (∀ (bv : VmaBlockVector) (h : VmaAllocHandle),
      (VmaAllocatorFreeMemory bv h).2 = true) ∧
    (∀ (bv : VmaBlockVector) (h : VmaAllocHandle),
      (∀ b ∈ bv.blocks, MetaInv b) →
      (h.canBecomeLost = false ∨ h.lastUseFrameIndex ≠ VMA_FRAME_INDEX_LOST) →
      ∀ bIdx, bv.blocks.findIdx? (fun b => b.m_Suballocations.any (fun n =>
        match n.hAllocation with
        | some hh => hh.aid == h.aid
        | none => false)) = some bIdx →
      ∃ b, bv.blocks[bIdx]? = some b ∧
      ∃ n ∈ b.m_Suballocations,
        (∃ hh, n.hAllocation = some hh ∧ hh.aid = h.aid) ∧
        blocksUsedBytes (VmaAllocatorFreeMemory bv h).1.blocks
          = blocksUsedBytes bv.blocks - n.size ∧
        n.size ≤ blocksUsedBytes bv.blocks) := by
  refine ⟨?_, ?_, ?_⟩
  · intro bv h hcbl hlost
    unfold VmaAllocatorFreeMemory
    rw [if_neg (by rw [hcbl, hlost]; simp)]
  · intro bv h
    unfold VmaAllocatorFreeMemory
    by_cases hc : h.canBecomeLost = false ∨ h.lastUseFrameIndex ≠ VMA_FRAME_INDEX_LOST
    · rw [if_pos hc]
    · rw [if_neg hc]
  · intro bv h hinvs hnotlost bIdx hfi
    have heq : (VmaAllocatorFreeMemory bv h).1 = bv.FreeAllocation h.aid := by
      unfold VmaAllocatorFreeMemory
      rw [if_pos hnotlost]
    rw [heq]
    exact freeAllocation_usedBytes bv h.aid hinvs bIdx hfi

/-- C9, witness: freeing the live 20-byte allocation of a one-block vector
drops the used-byte total from 20 to 0. -/
theorem C9_witness :
    (∀ b ∈ (⟨[(VmaBlockMetadata.Init 32).Alloc ⟨0, 32, 0, 0, 0⟩ .buffer 20 ⟨0, 0, 20, false, 0⟩], false, false, 32, 0, 2, 0, 1, 1⟩ : VmaBlockVector).blocks, MetaInv b) ∧
    ∃ b, (⟨[(VmaBlockMetadata.Init 32).Alloc ⟨0, 32, 0, 0, 0⟩ .buffer 20 ⟨0, 0, 20, false, 0⟩], false, false, 32, 0, 2, 0, 1, 1⟩ : VmaBlockVector).blocks[0]? = some b ∧
    ∃ n ∈ b.m_Suballocations,
      (∃ hh, n.hAllocation = some hh ∧ hh.aid = (⟨0, 0, 20, false, 0⟩ : VmaAllocHandle).aid) ∧
      blocksUsedBytes (VmaAllocatorFreeMemory (⟨[(VmaBlockMetadata.Init 32).Alloc ⟨0, 32, 0, 0, 0⟩ .buffer 20 ⟨0, 0, 20, false, 0⟩], false, false, 32, 0, 2, 0, 1, 1⟩ : VmaBlockVector) ⟨0, 0, 20, false, 0⟩).1.blocks
        = blocksUsedBytes (⟨[(VmaBlockMetadata.Init 32).Alloc ⟨0, 32, 0, 0, 0⟩ .buffer 20 ⟨0, 0, 20, false, 0⟩], false, false, 32, 0, 2, 0, 1, 1⟩ : VmaBlockVector).blocks - n.size ∧
      n.size ≤ blocksUsedBytes (⟨[(VmaBlockMetadata.Init 32).Alloc ⟨0, 32, 0, 0, 0⟩ .buffer 20 ⟨0, 0, 20, false, 0⟩], false, false, 32, 0, 2, 0, 1, 1⟩ : VmaBlockVector).blocks := by
  have hM : MetaInv ((VmaBlockMetadata.Init 32).Alloc ⟨0, 32, 0, 0, 0⟩ .buffer 20 ⟨0, 0, 20, false, 0⟩) :=
    (metaInv_allocStep (VmaBlockMetadata.Init 32)
      ((VmaBlockMetadata.Init 32).Alloc ⟨0, 32, 0, 0, 0⟩ .buffer 20 ⟨0, 0, 20, false, 0⟩)
      ⟨⟨0, 32, 0, 0, 0⟩, .buffer, 20, 0, 0, false, ⟨0, 0, 32, none, .free⟩,
        rfl, rfl, by decide, by decide, by decide, by decide, rfl⟩
      (metaInv_init 32 (by decide))).1
  have hinvs : ∀ b ∈ (⟨[(VmaBlockMetadata.Init 32).Alloc ⟨0, 32, 0, 0, 0⟩ .buffer 20 ⟨0, 0, 20, false, 0⟩], false, false, 32, 0, 2, 0, 1, 1⟩ : VmaBlockVector).blocks, MetaInv b := by
    intro b hb
    have : b = (VmaBlockMetadata.Init 32).Alloc ⟨0, 32, 0, 0, 0⟩ .buffer 20 ⟨0, 0, 20, false, 0⟩ :=
      List.mem_singleton.mp hb
    rw [this]
    exact hM
  refine ⟨hinvs, ?_⟩
  exact C9_free_lost_noop.2.2 _ ⟨0, 0, 20, false, 0⟩ hinvs (by decide) 0 (by decide)
